import Mathlib

set_option maxHeartbeats 1600000

/-!
Shallow embedding of the constraint-tracking core of clang's flow-sensitive
dataflow analysis (`clang/include/clang/Analysis/FlowSensitive/DataflowAnalysisContext.h`).

Boolean values live in an arena (`Vals`); object identity is arena index.
Only the header is available in the repository excerpt: member functions whose
bodies are inline in the header are translated directly, and the remaining
bodies are modelled from the specification (each such definition says so in
its doc comment).
-/

/-! ## Definitions: the embedded data model and operations -/

/-- The closed sum of boolean value variants, mirroring `Value::Kind`:
`AtomicBool`, `Conjunction`, `Disjunction`, `Negation`. Operands are arena
indices of earlier values. -/
inductive BoolVal where
  | AtomicBool : BoolVal
  | Conjunction : Nat → Nat → BoolVal
  | Disjunction : Nat → Nat → BoolVal
  | Negation : Nat → BoolVal
deriving DecidableEq

/-- `Solver::Result`: outcome of a satisfiability query. -/
inductive SolverResult where
  | Satisfiable : SolverResult
  | Unsatisfiable : SolverResult
  | TimedOut : SolverResult
deriving DecidableEq

/-- Expressions, reduced to what the storage-location claims need: an opaque
leaf node, possibly wrapped in `ParenExpr` or `ExprWithCleanups` nodes (the
nodes the CFG omits). -/
inductive CExpr where
  | leaf : Nat → CExpr
  | paren : CExpr → CExpr
  | cleanups : CExpr → CExpr
deriving DecidableEq

/-- Modelled from the spec: the body of `ignoreCFGOmittedNodes` is not in the
header; per the header comment and spec section 6 it strips `ParenExpr` and
`ExprWithCleanups` wrappers, returning the node the CFG would emit. -/
def ignoreCFGOmittedNodes : CExpr → CExpr
  | CExpr.paren e => ignoreCFGOmittedNodes e
  | CExpr.cleanups e => ignoreCFGOmittedNodes e
  | e => e

/-- The analysis context. Fields mirror the C++ members (keyed maps become
association lists; arena vectors become lists, with arena index as identity). -/
structure DataflowAnalysisContext where
  Vals : List BoolVal
  TrueVal : Nat
  FalseVal : Nat
  ConjunctionVals : List ((Nat × Nat) × Nat)
  DisjunctionVals : List ((Nat × Nat) × Nat)
  NegationVals : List (Nat × Nat)
  FlowConditionDeps : List (Nat × List Nat)
  FlowConditionConstraints : List (Nat × Nat)
  ExprToLoc : List (CExpr × Nat)
deriving DecidableEq

/-- Association-list lookup (stands in for `llvm::DenseMap` lookup). -/
def alookup {κ α : Type} [DecidableEq κ] (k : κ) : List (κ × α) → Option α
  | [] => none
  | (a, b) :: t => if k = a then some b else alookup k t

/-- `l.get? i` spelled out, to keep full control of its lemmas. -/
def nth {α : Type} : List α → Nat → Option α
  | [], _ => none
  | a :: _, 0 => some a
  | _ :: t, n + 1 => nth t n

/-- `llvm::DenseSet` insertion on a list kept duplicate-free by membership test. -/
def insertSet (x : Nat) (l : List Nat) : List Nat :=
  if x ∈ l then l else x :: l

/-- `createAtomicBoolValue` (inline in the header): allocates a fresh atomic
boolean value in the arena and returns it. -/
def createAtomicBoolValue (st : DataflowAnalysisContext) : Nat × DataflowAnalysisContext :=
  (st.Vals.length, { st with Vals := st.Vals ++ [BoolVal.AtomicBool] })

/-- The context constructor: creates the solver-owning context together with
the `TrueVal` and `FalseVal` atomic literal singletons (inline in the header). -/
def mkDataflowAnalysisContext : DataflowAnalysisContext :=
  let base : DataflowAnalysisContext := ⟨[], 0, 0, [], [], [], [], [], []⟩
  let p1 := createAtomicBoolValue base
  let p2 := createAtomicBoolValue p1.2
  { p2.2 with TrueVal := p1.1, FalseVal := p2.1 }

/-- `getBoolLiteralValue` (inline in the header): returns the `TrueVal` or
`FalseVal` singleton; it is `const` — it performs no allocation, which the
type records by not returning a context. -/
def getBoolLiteralValue (st : DataflowAnalysisContext) (b : Bool) : Nat :=
  if b then st.TrueVal else st.FalseVal

/-- Canonical operand pair used to key the commutative-operator caches. -/
def makeCanonicalBoolValuePair (a b : Nat) : Nat × Nat :=
  if a ≤ b then (a, b) else (b, a)

/-- Modelled from the spec: the body of `getOrCreateConjunction` is not in the
header. Per the header doc: repeated calls with the same arguments, regardless
of order, return the same object; if both operands are the same value the
result is that value itself; otherwise the result is hash-consed through
`ConjunctionVals`. -/
def getOrCreateConjunction (st : DataflowAnalysisContext) (l r : Nat) :
    Nat × DataflowAnalysisContext :=
  if l = r then (l, st)
  else
    match alookup (makeCanonicalBoolValuePair l r) st.ConjunctionVals with
    | some v => (v, st)
    | none =>
      (st.Vals.length,
        { st with
          Vals := st.Vals ++ [BoolVal.Conjunction l r],
          ConjunctionVals :=
            (makeCanonicalBoolValuePair l r, st.Vals.length) :: st.ConjunctionVals })

/-- Modelled from the spec: the body of `getOrCreateDisjunction` is not in the
header; same contract as `getOrCreateConjunction` with `DisjunctionVals`. -/
def getOrCreateDisjunction (st : DataflowAnalysisContext) (l r : Nat) :
    Nat × DataflowAnalysisContext :=
  if l = r then (l, st)
  else
    match alookup (makeCanonicalBoolValuePair l r) st.DisjunctionVals with
    | some v => (v, st)
    | none =>
      (st.Vals.length,
        { st with
          Vals := st.Vals ++ [BoolVal.Disjunction l r],
          DisjunctionVals :=
            (makeCanonicalBoolValuePair l r, st.Vals.length) :: st.DisjunctionVals })

/-- Modelled from the spec: the body of `getOrCreateNegation` is not in the
header; repeated calls with the same argument return the same object, cached
in `NegationVals`. -/
def getOrCreateNegation (st : DataflowAnalysisContext) (v : Nat) :
    Nat × DataflowAnalysisContext :=
  match alookup v st.NegationVals with
  | some r => (r, st)
  | none =>
    (st.Vals.length,
      { st with
        Vals := st.Vals ++ [BoolVal.Negation v],
        NegationVals := (v, st.Vals.length) :: st.NegationVals })

/-- Modelled from the spec: `A => B` is not a stored variant; per the header
doc it is built as `!A v B`, and when both operands are the same value the
result is the true literal. -/
def getOrCreateImplication (st : DataflowAnalysisContext) (l r : Nat) :
    Nat × DataflowAnalysisContext :=
  if l = r then (getBoolLiteralValue st true, st)
  else
    let n := getOrCreateNegation st l
    getOrCreateDisjunction n.2 n.1 r

/-- Modelled from the spec: `A <=> B` is built as `(A => B) ^ (B => A)`; when
both operands are the same value the result is the true literal. -/
def getOrCreateIff (st : DataflowAnalysisContext) (l r : Nat) :
    Nat × DataflowAnalysisContext :=
  if l = r then (getBoolLiteralValue st true, st)
  else
    let i1 := getOrCreateImplication st l r
    let i2 := getOrCreateImplication i1.2 r l
    getOrCreateConjunction i2.2 i1.1 i2.1

/-- Modelled from the spec: `makeFlowConditionToken` creates a fresh flow
condition and returns its token, a fresh atomic boolean value with empty
constraint and dependency sets. -/
def makeFlowConditionToken (st : DataflowAnalysisContext) : Nat × DataflowAnalysisContext :=
  createAtomicBoolValue st

/-- Modelled from the spec: `addFlowConditionConstraint` appends `c` to the
token's constraint set; the constraints of a token are implicitly conjoined,
so a second constraint is merged by conjunction into the stored clause. -/
def addFlowConditionConstraint (st : DataflowAnalysisContext) (tok c : Nat) :
    DataflowAnalysisContext :=
  match alookup tok st.FlowConditionConstraints with
  | none =>
    { st with FlowConditionConstraints := (tok, c) :: st.FlowConditionConstraints }
  | some old =>
    let p := getOrCreateConjunction st old c
    { p.2 with FlowConditionConstraints := (tok, p.1) :: p.2.FlowConditionConstraints }

/-- Modelled from the spec: `forkFlowCondition` allocates a new token whose
dependency set is the parent token; under the header's iff-encoding of flow
conditions the fork inherits the parent's semantics by being bound to the
parent token. -/
def forkFlowCondition (st : DataflowAnalysisContext) (tok : Nat) :
    Nat × DataflowAnalysisContext :=
  let p := makeFlowConditionToken st
  let st2 := { p.2 with FlowConditionDeps := (p.1, [tok]) :: p.2.FlowConditionDeps }
  (p.1, addFlowConditionConstraint st2 p.1 tok)

/-- Modelled from the spec: `joinFlowConditions` allocates a new token whose
dependency set is the two joined tokens and whose clause is the disjunction of
the two tokens (the merged state satisfies at least one incoming path
condition). -/
def joinFlowConditions (st : DataflowAnalysisContext) (t1 t2 : Nat) :
    Nat × DataflowAnalysisContext :=
  let p := makeFlowConditionToken st
  let st2 := { p.2 with FlowConditionDeps := (p.1, [t1, t2]) :: p.2.FlowConditionDeps }
  let d := getOrCreateDisjunction st2 t1 t2
  (p.1, addFlowConditionConstraint d.2 p.1 d.1)

/-- Modelled from the spec: `addTransitiveFlowConditionConstraints` — a
depth-first walk over the dependency DAG with a visited-token set. For each
newly visited token it adds the iff-binding of the token to its clause (the
header documents the binding `FC <=> (C1 ^ C2 ^ ...)`), or the token itself if
it has no constraints, and pushes the token's dependencies. Fuel-based
worklist formulation of the recursion. -/
def addTransitiveFlowConditionConstraints :
    Nat → DataflowAnalysisContext → List Nat → List Nat → List Nat →
    DataflowAnalysisContext × List Nat × List Nat
  | 0, st, _, cs, visited => (st, cs, visited)
  | _ + 1, st, [], cs, visited => (st, cs, visited)
  | fuel + 1, st, tok :: rest, cs, visited =>
    if tok ∈ visited then
      addTransitiveFlowConditionConstraints fuel st rest cs visited
    else
      match alookup tok st.FlowConditionConstraints with
      | none =>
        addTransitiveFlowConditionConstraints fuel st
          (((alookup tok st.FlowConditionDeps).getD []) ++ rest)
          (insertSet tok cs) (tok :: visited)
      | some c =>
        let p := getOrCreateIff st tok c
        addTransitiveFlowConditionConstraints fuel p.2
          (((alookup tok p.2.FlowConditionDeps).getD []) ++ rest)
          (insertSet p.1 cs) (tok :: visited)

/-- Number of dependencies recorded for token `t`. -/
def depsLen (st : DataflowAnalysisContext) (t : Nat) : Nat :=
  ((alookup t st.FlowConditionDeps).getD []).length

/-- Fuel sufficient for the transitive-constraint walk started on one token:
one step for the initial stack entry plus, for every token, one visit step and
one stack pop per recorded dependency. -/
def walkFuel (st : DataflowAnalysisContext) : Nat :=
  1 + ((List.range st.Vals.length).map (fun t => 1 + depsLen st t)).sum

/-- Evaluation of an arena value under an assignment of the atomic values,
with explicit fuel (operands of well-formed values strictly decrease, so fuel
`i + 1` evaluates value `i` exactly). -/
def evalV (vals : List BoolVal) (σ : Nat → Bool) : Nat → Nat → Bool
  | 0, _ => false
  | fuel + 1, i =>
    match nth vals i with
    | some BoolVal.AtomicBool => σ i
    | some (BoolVal.Conjunction l r) => evalV vals σ fuel l && evalV vals σ fuel r
    | some (BoolVal.Disjunction l r) => evalV vals σ fuel l || evalV vals σ fuel r
    | some (BoolVal.Negation s) => !evalV vals σ fuel s
    | none => false

/-- Truth value of arena value `i` under assignment `σ`. -/
def evalBV (st : DataflowAnalysisContext) (σ : Nat → Bool) (i : Nat) : Bool :=
  evalV st.Vals σ (i + 1) i

/-- All arena indices reachable inside the formula rooted at `i` (fuel-based). -/
def subIds (vals : List BoolVal) : Nat → Nat → List Nat
  | 0, _ => []
  | fuel + 1, i =>
    i ::
      (match nth vals i with
      | some (BoolVal.Conjunction l r) => subIds vals fuel l ++ subIds vals fuel r
      | some (BoolVal.Disjunction l r) => subIds vals fuel l ++ subIds vals fuel r
      | some (BoolVal.Negation s) => subIds vals fuel s
      | _ => [])

/-- The atomic values occurring in the formulas of a constraint set. -/
def atomsOfConstraints (st : DataflowAnalysisContext) (cs : List Nat) : List Nat :=
  (cs.map (fun c => subIds st.Vals (c + 1) c)).flatten.filter
    (fun i => nth st.Vals i = some BoolVal.AtomicBool)

/-- Every assignment of the given atoms, as an association list. -/
def allAssignments : List Nat → List (List (Nat × Bool))
  | [] => [[]]
  | a :: as => ((allAssignments as).map (fun m => (a, true) :: m)) ++
      ((allAssignments as).map (fun m => (a, false) :: m))

/-- Total assignment read off an association list (unlisted atoms are false). -/
def assignOf (m : List (Nat × Bool)) : Nat → Bool :=
  fun i => (alookup i m).getD false

/-- A complete satisfiability check for a constraint set: enumerate every
assignment of the atoms occurring in the constraints. -/
def decideSat (st : DataflowAnalysisContext) (cs : List Nat) : Bool :=
  (allAssignments (atomsOfConstraints st cs).dedup).any
    (fun m => cs.all (fun c => evalBV st (assignOf m) c))

/-- A solver adapter: consumes the constraint set (values carry their arena
structure) and renders one of the three outcomes. -/
def SolverFn : Type :=
  DataflowAnalysisContext → List Nat → SolverResult

/-- The solver adapter that decides every query (never times out). -/
def decidingSolver : SolverFn :=
  fun st cs =>
    if decideSat st cs then SolverResult.Satisfiable else SolverResult.Unsatisfiable

/-- Modelled from the spec: `querySolver` is declared in the header but its
body is not present; it hands the constraint set to the solver adapter, with
the true literal pinned true and the negated false literal pinned true so the
literal singletons denote their constants. -/
def querySolver (sol : SolverFn) (st : DataflowAnalysisContext) (cs : List Nat) :
    SolverResult × DataflowAnalysisContext :=
  let p := getOrCreateNegation st (getBoolLiteralValue st false)
  (sol p.2 (insertSet p.1 (insertSet (getBoolLiteralValue st true) cs)), p.2)

/-- `isUnsatisfiable` (inline in the header): true iff the solver proves there
is no satisfying assignment — i.e. the query outcome is exactly
`Unsatisfiable`; `Satisfiable` and `TimedOut` both give `false`. -/
def isUnsatisfiable (sol : SolverFn) (st : DataflowAnalysisContext) (cs : List Nat) :
    Bool × DataflowAnalysisContext :=
  let r := querySolver sol st cs
  (r.1 == SolverResult.Unsatisfiable, r.2)

/-- The state and constraint set of the satisfiability query underlying
`flowConditionImplies`: the token and the negated value, plus the transitive
flow-condition constraints of the token. -/
def impliesQueryParts (st : DataflowAnalysisContext) (tok v : Nat) :
    DataflowAnalysisContext × List Nat :=
  let p := getOrCreateNegation st v
  let r := addTransitiveFlowConditionConstraints (walkFuel p.2) p.2 [tok]
    (insertSet p.1 (insertSet tok [])) []
  (r.1, r.2.1)

/-- The solver verdict on the query underlying `flowConditionImplies`. -/
def impliesQueryVerdict (sol : SolverFn) (st : DataflowAnalysisContext) (tok v : Nat) :
    SolverResult :=
  let q := impliesQueryParts st tok v
  (querySolver sol q.1 q.2).1

/-- Modelled from the spec: `flowConditionImplies` — true iff the transitive
constraint set of `tok` entails `v`, proved by checking that the constraints
together with the negation of `v` are unsatisfiable. Total: every solver
outcome maps to a boolean, `TimedOut` to `false`. -/
def flowConditionImplies (sol : SolverFn) (st : DataflowAnalysisContext) (tok v : Nat) :
    Bool × DataflowAnalysisContext :=
  let q := impliesQueryParts st tok v
  isUnsatisfiable sol q.1 q.2

/-- The state and constraint set of the satisfiability query underlying
`flowConditionIsTautology`: the negated token plus the transitive
flow-condition constraints of the token. -/
def tautologyQueryParts (st : DataflowAnalysisContext) (tok : Nat) :
    DataflowAnalysisContext × List Nat :=
  let p := getOrCreateNegation st tok
  let r := addTransitiveFlowConditionConstraints (walkFuel p.2) p.2 [tok]
    (insertSet p.1 []) []
  (r.1, r.2.1)

/-- The solver verdict on the query underlying `flowConditionIsTautology`. -/
def tautologyQueryVerdict (sol : SolverFn) (st : DataflowAnalysisContext) (tok : Nat) :
    SolverResult :=
  let q := tautologyQueryParts st tok
  (querySolver sol q.1 q.2).1

/-- Modelled from the spec: `flowConditionIsTautology` — true iff the flow
condition identified by `tok` is always true, proved by checking that its
negation together with the transitive constraints is unsatisfiable. -/
def flowConditionIsTautology (sol : SolverFn) (st : DataflowAnalysisContext) (tok : Nat) :
    Bool × DataflowAnalysisContext :=
  let q := tautologyQueryParts st tok
  isUnsatisfiable sol q.1 q.2

/-- Modelled from the spec: `equivalentBoolValues` is a structural/identity
equivalence check only — it takes no solver and consults no flow condition;
two values are equivalent exactly when they are the same arena object. -/
def equivalentBoolValues (st : DataflowAnalysisContext) (v1 v2 : Nat) : Bool :=
  let _ := st
  v1 == v2

/-- Modelled from the spec: `substituteBoolValue` — rewrites `v` bottom-up,
replacing any value present as a key in the cache by its image, memoizing
every intermediate result in the cache so shared sub-formulas are rewritten
once; composite results are rebuilt through the hash-consing constructors. -/
def substituteBoolValue :
    Nat → DataflowAnalysisContext → Nat → List (Nat × Nat) →
    Nat × DataflowAnalysisContext × List (Nat × Nat)
  | 0, st, v, cache => (v, st, cache)
  | fuel + 1, st, v, cache =>
    match alookup v cache with
    | some r => (r, st, cache)
    | none =>
      match nth st.Vals v with
      | some (BoolVal.Negation s) =>
        let rs := substituteBoolValue fuel st s cache
        let p := getOrCreateNegation rs.2.1 rs.1
        (p.1, p.2, (v, p.1) :: rs.2.2)
      | some (BoolVal.Conjunction l r) =>
        let rl := substituteBoolValue fuel st l cache
        let rr := substituteBoolValue fuel rl.2.1 r rl.2.2
        let p := getOrCreateConjunction rr.2.1 rl.1 rr.1
        (p.1, p.2, (v, p.1) :: rr.2.2)
      | some (BoolVal.Disjunction l r) =>
        let rl := substituteBoolValue fuel st l cache
        let rr := substituteBoolValue fuel rl.2.1 r rl.2.2
        let p := getOrCreateDisjunction rr.2.1 rl.1 rr.1
        (p.1, p.2, (v, p.1) :: rr.2.2)
      | _ => (v, st, (v, v) :: cache)

/-- Modelled from the spec: `buildAndSubstituteFlowConditionWithCache` — a
token with no constraints denotes the true literal; otherwise each dependency
is built recursively (its result memoized under the dependency token) and the
token's own clause is then substituted. -/
def buildAndSubstituteFlowConditionWithCache :
    Nat → DataflowAnalysisContext → Nat → List (Nat × Nat) →
    Nat × DataflowAnalysisContext × List (Nat × Nat)
  | 0, st, _, cache => (getBoolLiteralValue st true, st, cache)
  | fuel + 1, st, tok, cache =>
    match alookup tok st.FlowConditionConstraints with
    | none => (getBoolLiteralValue st true, st, cache)
    | some c =>
      let acc := ((alookup tok st.FlowConditionDeps).getD []).foldl
        (fun acc d =>
          let r := buildAndSubstituteFlowConditionWithCache fuel acc.1 d acc.2
          (r.2.1, (d, r.1) :: r.2.2))
        (st, cache)
      substituteBoolValue (c + 1) acc.1 c acc.2

/-- Modelled from the spec: `buildAndSubstituteFlowCondition` — builds the
closed formula defining the flow condition of `tok`, substituting every value
present as a key in `subs` by its mapped value. -/
def buildAndSubstituteFlowCondition (st : DataflowAnalysisContext) (tok : Nat)
    (subs : List (Nat × Nat)) : Nat × DataflowAnalysisContext :=
  let r := buildAndSubstituteFlowConditionWithCache (st.Vals.length + 1) st tok subs
  (r.1, r.2.1)

/-- `setStorageLocation` for expressions (inline in the header): binds the
canonicalized expression — `ignoreCFGOmittedNodes` is applied to the key —
to the location. -/
def setStorageLocation (st : DataflowAnalysisContext) (e : CExpr) (loc : Nat) :
    DataflowAnalysisContext :=
  { st with ExprToLoc := (ignoreCFGOmittedNodes e, loc) :: st.ExprToLoc }

/-- `getStorageLocation` for expressions (inline in the header): looks up the
canonicalized expression, returning the bound location or nothing. -/
def getStorageLocation (st : DataflowAnalysisContext) (e : CExpr) : Option Nat :=
  alookup (ignoreCFGOmittedNodes e) st.ExprToLoc

/-- Operands of a stored value strictly precede it in the arena. -/
def opndsLtB : BoolVal → Nat → Bool
  | BoolVal.AtomicBool, _ => true
  | BoolVal.Conjunction l r, i => decide (l < i) && decide (r < i)
  | BoolVal.Disjunction l r, i => decide (l < i) && decide (r < i)
  | BoolVal.Negation s, i => decide (s < i)

/-- All values from position `k` on have operands strictly below their index. -/
def valsWFfrom : Nat → List BoolVal → Bool
  | _, [] => true
  | k, b :: t => opndsLtB b k && valsWFfrom (k + 1) t

/-- Semantic form of arena well-formedness. -/
def ValsWF (vals : List BoolVal) : Prop :=
  ∀ i b, nth vals i = some b → opndsLtB b i = true

/-- A `ConjunctionVals` cache entry stores a conjunction value whose canonical
operand pair is the key. -/
def conjEntryOk (vals : List BoolVal) (p : (Nat × Nat) × Nat) : Bool :=
  match nth vals p.2 with
  | some (BoolVal.Conjunction l r) => makeCanonicalBoolValuePair l r == p.1
  | _ => false

/-- A `DisjunctionVals` cache entry stores a disjunction value whose canonical
operand pair is the key. -/
def disjEntryOk (vals : List BoolVal) (p : (Nat × Nat) × Nat) : Bool :=
  match nth vals p.2 with
  | some (BoolVal.Disjunction l r) => makeCanonicalBoolValuePair l r == p.1
  | _ => false

/-- A `NegationVals` cache entry stores the negation of its key. -/
def negEntryOk (vals : List BoolVal) (p : Nat × Nat) : Bool :=
  match nth vals p.2 with
  | some (BoolVal.Negation s) => s == p.1
  | _ => false

/-- Well-formedness of a context: arena operand ordering, cache coherence,
atomic distinct literal singletons, and flow-condition maps confined to the
arena. -/
def WFb (st : DataflowAnalysisContext) : Bool :=
  valsWFfrom 0 st.Vals &&
  st.ConjunctionVals.all (conjEntryOk st.Vals) &&
  st.DisjunctionVals.all (disjEntryOk st.Vals) &&
  st.NegationVals.all (negEntryOk st.Vals) &&
  (nth st.Vals st.TrueVal == some BoolVal.AtomicBool) &&
  (nth st.Vals st.FalseVal == some BoolVal.AtomicBool) &&
  decide (st.TrueVal ≠ st.FalseVal) &&
  st.FlowConditionDeps.all
    (fun p => decide (p.1 < st.Vals.length) && p.2.all (fun d => decide (d < st.Vals.length))) &&
  st.FlowConditionConstraints.all
    (fun p => decide (p.1 < st.Vals.length) && decide (p.2 < st.Vals.length))

/-- State extension: an operation only appends to the arena and keeps the
literal singletons in place. -/
structure OpExt (st st2 : DataflowAnalysisContext) : Prop where
  ext : ∃ e, st2.Vals = st.Vals ++ e
  tv : st2.TrueVal = st.TrueVal
  fv : st2.FalseVal = st.FalseVal

/-- An operation that leaves the flow-condition graph untouched. -/
structure FCSame (st st2 : DataflowAnalysisContext) : Prop where
  deps : st2.FlowConditionDeps = st.FlowConditionDeps
  cons : st2.FlowConditionConstraints = st.FlowConditionConstraints

/-- Proposition-level well-formedness of a context. -/
structure WF (st : DataflowAnalysisContext) : Prop where
  vwf : ValsWF st.Vals
  conjOk : ∀ p ∈ st.ConjunctionVals, conjEntryOk st.Vals p = true
  disjOk : ∀ p ∈ st.DisjunctionVals, disjEntryOk st.Vals p = true
  negOk : ∀ p ∈ st.NegationVals, negEntryOk st.Vals p = true
  tAtom : nth st.Vals st.TrueVal = some BoolVal.AtomicBool
  fAtom : nth st.Vals st.FalseVal = some BoolVal.AtomicBool
  tne : st.TrueVal ≠ st.FalseVal
  depsOk : ∀ p ∈ st.FlowConditionDeps,
    p.1 < st.Vals.length ∧ ∀ d ∈ p.2, d < st.Vals.length
  consOk : ∀ p ∈ st.FlowConditionConstraints,
    p.1 < st.Vals.length ∧ p.2 < st.Vals.length

/-- Reachability in the flow-condition dependency graph. -/
inductive ReachFC (D : List (Nat × List Nat)) (root : Nat) : Nat → Prop where
  | refl : ReachFC D root root
  | step {b c : Nat} : ReachFC D root b → c ∈ (alookup b D).getD [] → ReachFC D root c

/-- The iff-binding of one token holds under `σ`: the token evaluates to its
clause (or to true if it has no constraints). -/
def TokHolds (st : DataflowAnalysisContext) (σ : Nat → Bool) (t : Nat) : Prop :=
  match alookup t st.FlowConditionConstraints with
  | none => evalBV st σ t = true
  | some c => evalBV st σ t = evalBV st σ c

/-- All iff-bindings of the tokens reachable from `root` hold under `σ`. -/
def FCHolds (st : DataflowAnalysisContext) (σ : Nat → Bool) (root : Nat) : Prop :=
  ∀ t, ReachFC st.FlowConditionDeps root t → TokHolds st σ t

/-- The literal singletons denote their constants under `σ`. -/
def Pinned (st : DataflowAnalysisContext) (σ : Nat → Bool) : Prop :=
  σ st.TrueVal = true ∧ σ st.FalseVal = false

/-- `x` is the constraint the transitive walk contributes for token `t`:
the token itself when `t` has no clause in `C`, and a value evaluating as
`t <=> clause` otherwise. -/
def ItemOf (C : List (Nat × Nat)) (st : DataflowAnalysisContext) (x t : Nat) : Prop :=
  match alookup t C with
  | none => x = t
  | some c =>
    x < st.Vals.length ∧
    ∀ σ : Nat → Bool, σ st.TrueVal = true →
      evalBV st σ x = (evalBV st σ t == evalBV st σ c)

/-- Semantic entailment: under every pinned assignment satisfying the
reachable iff-bindings, the token forces the value. -/
def SemImplies (st : DataflowAnalysisContext) (tok v : Nat) : Prop :=
  ∀ σ : Nat → Bool, Pinned st σ → FCHolds st σ tok →
    evalBV st σ tok = true → evalBV st σ v = true

/-- Semantic tautology: under every pinned assignment satisfying the
reachable iff-bindings, the token is true. -/
def SemTautology (st : DataflowAnalysisContext) (tok : Nat) : Prop :=
  ∀ σ : Nat → Bool, Pinned st σ → FCHolds st σ tok → evalBV st σ tok = true

/-- Measure for the transitive-constraint walk: pending stack entries plus,
for each unvisited token, one visit step and one pop per dependency. -/
def walkMeasureF (D : List (Nat × List Nat)) (n : Nat) (stack visited : List Nat) : Nat :=
  stack.length +
    ∑ t ∈ Finset.range n, (if t ∈ visited then 0 else 1 + ((alookup t D).getD []).length)

/-- The header's worked example: atoms C1 = 2, C2 = 3, C3 = 4, C1' = 5, flow
condition tokens FC1 = 6 (constraint C1), FC2 = 7 (constraint C2), and
FC3 = 8 = join(FC1, FC2) with the extra constraint C3, so FC3's clause is
(FC1 v FC2) ^ C3 (value 10 over disjunction value 9). -/
def exampleJoinState : DataflowAnalysisContext :=
  addFlowConditionConstraint
    (joinFlowConditions
      (addFlowConditionConstraint
        (makeFlowConditionToken
          (addFlowConditionConstraint
            (makeFlowConditionToken
              (createAtomicBoolValue
                (createAtomicBoolValue
                  (createAtomicBoolValue
                    (createAtomicBoolValue mkDataflowAnalysisContext).2).2).2).2).2
            6 2)).2
        7 3)
      6 7).2
    8 4

/-- The contexts producible through the public operations of the analysis
context, starting from construction. -/
inductive Reachable : DataflowAnalysisContext → Prop where
  | init : Reachable mkDataflowAnalysisContext
  | createAtomic {st : DataflowAnalysisContext} :
      Reachable st → Reachable (createAtomicBoolValue st).2
  | conj {st : DataflowAnalysisContext} {l r : Nat} :
      Reachable st → Reachable (getOrCreateConjunction st l r).2
  | disj {st : DataflowAnalysisContext} {l r : Nat} :
      Reachable st → Reachable (getOrCreateDisjunction st l r).2
  | neg {st : DataflowAnalysisContext} {v : Nat} :
      Reachable st → Reachable (getOrCreateNegation st v).2
  | impl {st : DataflowAnalysisContext} {l r : Nat} :
      Reachable st → Reachable (getOrCreateImplication st l r).2
  | iff {st : DataflowAnalysisContext} {l r : Nat} :
      Reachable st → Reachable (getOrCreateIff st l r).2
  | mkTok {st : DataflowAnalysisContext} :
      Reachable st → Reachable (makeFlowConditionToken st).2
  | addCons {st : DataflowAnalysisContext} {tok c : Nat} :
      Reachable st → Reachable (addFlowConditionConstraint st tok c)
  | fork {st : DataflowAnalysisContext} {tok : Nat} :
      Reachable st → Reachable (forkFlowCondition st tok).2
  | join {st : DataflowAnalysisContext} {t1 t2 : Nat} :
      Reachable st → Reachable (joinFlowConditions st t1 t2).2
  | implies {sol : SolverFn} {st : DataflowAnalysisContext} {tok v : Nat} :
      Reachable st → Reachable (flowConditionImplies sol st tok v).2
  | taut {sol : SolverFn} {st : DataflowAnalysisContext} {tok : Nat} :
      Reachable st → Reachable (flowConditionIsTautology sol st tok).2
  | build {st : DataflowAnalysisContext} {tok : Nat} {subs : List (Nat × Nat)} :
      Reachable st → Reachable (buildAndSubstituteFlowCondition st tok subs).2
  | setLoc {st : DataflowAnalysisContext} {e : CExpr} {loc : Nat} :
      Reachable st → Reachable (setStorageLocation st e loc)

/-- Scenario for the join-semantics witness: atoms X = 2 and Y = 3, token
T1 = 4 carrying X, token T2 = 5 carrying Y. -/
def joinWitnessState : DataflowAnalysisContext :=
  addFlowConditionConstraint
    (makeFlowConditionToken
      (addFlowConditionConstraint
        (makeFlowConditionToken
          (createAtomicBoolValue
            (createAtomicBoolValue mkDataflowAnalysisContext).2).2).2
        4 2)).2
    5 3

/-- The dependency tokens: every token recorded in some dependency list of
the flow-condition graph. -/
def tokSet : List (Nat × List Nat) → List Nat
  | [] => []
  | p :: t => p.2 ++ tokSet t

/-- Occurrence of `x` in the operand-closure of a value, with explicit fuel
(operands of well-formed values strictly decrease, so fuel `v + 1` decides
occurrence below value `v` exactly). -/
def occursV (vals : List BoolVal) (x : Nat) : Nat → Nat → Bool
  | 0, v => v == x
  | fuel + 1, v =>
    (v == x) ||
    match nth vals v with
    | some (BoolVal.Negation s) => occursV vals x fuel s
    | some (BoolVal.Conjunction l r) => occursV vals x fuel l || occursV vals x fuel r
    | some (BoolVal.Disjunction l r) => occursV vals x fuel l || occursV vals x fuel r
    | _ => false

/-- `x` occurs in the operand-closure of value `v` of the arena. -/
def occursB (st : DataflowAnalysisContext) (v x : Nat) : Bool :=
  occursV st.Vals x (v + 1) v

/-- Every recorded dependency token strictly precedes the token depending on
it: dependencies exist before the fork/join token built over them. -/
def DepsDecreasing (st : DataflowAnalysisContext) : Prop :=
  ∀ p ∈ st.FlowConditionDeps, ∀ d ∈ p.2, d < p.1

/-- A dependency token occurs inside a constraint clause only when the
clause's token lists it as a dependency: the flow-condition graph is layered
the way fork/join produce it. -/
def ScopedDeps (st : DataflowAnalysisContext) : Prop :=
  ∀ p ∈ st.FlowConditionConstraints, ∀ x ∈ tokSet st.FlowConditionDeps,
    occursB st p.2 x = true → x ∈ (alookup p.1 st.FlowConditionDeps).getD []

/-- Fuel above which the spec-side substituting evaluator is stable on a
scoped well-formed context (written so it is syntactically a successor). -/
def specFuel (st : DataflowAnalysisContext) : Nat :=
  st.Vals.length * st.Vals.length + 2 * st.Vals.length + 1

/-- Follows the spec's words (the reference the modelled implementation is
compared against): the truth value under `σ` of a value of the closed
formula — a dependency token is replaced by the closed formula of its flow
condition (true when it has no constraints, otherwise its constraint clause,
recursively), any other value present as a key in `subs` is replaced by its
mapped value, and composition happens after replacement. -/
def specEvalV (st : DataflowAnalysisContext) (subs : List (Nat × Nat))
    (σ : Nat → Bool) : Nat → Nat → Bool
  | 0, v => evalBV st σ v
  | fuel + 1, v =>
    if v ∈ tokSet st.FlowConditionDeps then
      match alookup v st.FlowConditionConstraints with
      | none => true
      | some c => specEvalV st subs σ fuel c
    else
      match alookup v subs with
      | some r => evalBV st σ r
      | none =>
        match nth st.Vals v with
        | some (BoolVal.Negation s) => !specEvalV st subs σ fuel s
        | some (BoolVal.Conjunction l r) =>
            (specEvalV st subs σ fuel l && specEvalV st subs σ fuel r)
        | some (BoolVal.Disjunction l r) =>
            (specEvalV st subs σ fuel l || specEvalV st subs σ fuel r)
        | _ => evalBV st σ v

/-- Follows the spec's words: the truth value under `σ` of the closed formula
of a token with the substitution applied — true when the token has no
constraints, otherwise its constraint clause with dependency tokens replaced
by the closed formulas of their flow conditions and substitution keys by
their images, recursively before composition. -/
def specFlowConditionEval (st : DataflowAnalysisContext) (subs : List (Nat × Nat))
    (σ : Nat → Bool) (tok : Nat) : Bool :=
  match alookup tok st.FlowConditionConstraints with
  | none => true
  | some c => specEvalV st subs σ (specFuel st) c

/-- A substitution-cache entry is faithful: its image is an arena value of
the current state evaluating, under every assignment pinning the true
literal, to the spec-side substituted truth value of its key. -/
def Faithful (st0 st' : DataflowAnalysisContext) (subs : List (Nat × Nat))
    (k r : Nat) : Prop :=
  r < st'.Vals.length ∧ ∀ σ : Nat → Bool, σ st0.TrueVal = true →
    evalBV st' σ r = specEvalV st0 subs σ (specFuel st0) k

/-- Invariant of the substitution cache: every entry is faithful, except that
a dependency token may still carry its initial image from `subs` until the
walk binds it; and the cache covers every key of `subs`. -/
def CacheInv (st0 st' : DataflowAnalysisContext) (subs L : List (Nat × Nat)) : Prop :=
  (∀ k r, alookup k L = some r →
    (k ∈ tokSet st0.FlowConditionDeps ∧ alookup k subs = some r ∧
      r < st'.Vals.length) ∨
    Faithful st0 st' subs k r) ∧
  (∀ k, alookup k L = none → alookup k subs = none)

instance decDepsDecreasing (st : DataflowAnalysisContext) :
    Decidable (DepsDecreasing st) :=
  inferInstanceAs (Decidable (∀ p ∈ st.FlowConditionDeps, ∀ d ∈ p.2, d < p.1))

instance decScopedDeps (st : DataflowAnalysisContext) :
    Decidable (ScopedDeps st) :=
  inferInstanceAs (Decidable (∀ p ∈ st.FlowConditionConstraints,
    ∀ x ∈ tokSet st.FlowConditionDeps,
      occursB st p.2 x = true → x ∈ (alookup p.1 st.FlowConditionDeps).getD []))

/-! ## Theorems -/

theorem alookup_cons {κ α : Type} [DecidableEq κ] (k a : κ) (b : α) (t : List (κ × α)) :
    alookup k ((a, b) :: t) = if k = a then some b else alookup k t := rfl

theorem alookup_eq_none {κ α : Type} [DecidableEq κ] {k : κ} {l : List (κ × α)}
    (h : ∀ p ∈ l, p.1 ≠ k) : alookup k l = none := by
  induction l with
  | nil => rfl
  | cons p t ih =>
    obtain ⟨a, b⟩ := p
    rw [alookup_cons]
    have ha : a ≠ k := h (a, b) (List.mem_cons_self _ _)
    rw [if_neg (fun hk => ha hk.symm)]
    exact ih (fun q hq => h q (List.mem_cons_of_mem _ hq))

theorem nth_eq_none {α : Type} : ∀ {l : List α} {i : Nat}, l.length ≤ i → nth l i = none := by
  intro l
  induction l with
  | nil => intro i _; rfl
  | cons a t ih =>
    intro i h
    cases i with
    | zero => simp at h
    | succ n => exact ih (by simpa using h)

theorem nth_some_lt {α : Type} : ∀ {l : List α} {i : Nat} {a : α},
    nth l i = some a → i < l.length := by
  intro l
  induction l with
  | nil => intro i a h; cases h
  | cons b t ih =>
    intro i a h
    cases i with
    | zero => simp
    | succ n => simpa using Nat.succ_lt_succ (ih h)

theorem nth_lt_isSome {α : Type} : ∀ {l : List α} {i : Nat},
    i < l.length → ∃ a, nth l i = some a := by
  intro l
  induction l with
  | nil => intro i h; simp at h
  | cons b t ih =>
    intro i h
    cases i with
    | zero => exact ⟨b, rfl⟩
    | succ n => exact ih (by simp at h; omega)

theorem nth_append_left {α : Type} : ∀ {l : List α} (e : List α) {i : Nat},
    i < l.length → nth (l ++ e) i = nth l i := by
  intro l
  induction l with
  | nil => intro e i h; simp at h
  | cons a t ih =>
    intro e i h
    cases i with
    | zero => rfl
    | succ n => exact ih e (by simp at h; omega)

theorem nth_append_self {α : Type} : ∀ (l : List α) (a : α),
    nth (l ++ [a]) l.length = some a := by
  intro l a
  induction l with
  | nil => rfl
  | cons b t ih => exact ih

theorem mem_insertSet {x y : Nat} {l : List Nat} :
    x ∈ insertSet y l ↔ x = y ∨ x ∈ l := by
  unfold insertSet
  split
  · constructor
    · intro h; exact Or.inr h
    · rintro (rfl | h)
      · assumption
      · exact h
  · simp [List.mem_cons]

theorem subset_insertSet (y : Nat) (l : List Nat) : l ⊆ insertSet y l := by
  intro x hx
  exact mem_insertSet.mpr (Or.inr hx)

theorem self_mem_insertSet (y : Nat) (l : List Nat) : y ∈ insertSet y l :=
  mem_insertSet.mpr (Or.inl rfl)

theorem valsWFfrom_nth : ∀ (vals : List BoolVal) (k i : Nat) (b : BoolVal),
    valsWFfrom k vals = true → nth vals i = some b → opndsLtB b (k + i) = true := by
  intro vals
  induction vals with
  | nil => intro k i b _ h; cases h
  | cons c t ih =>
    intro k i b hw h
    have hw' : opndsLtB c k = true ∧ valsWFfrom (k + 1) t = true := by
      simpa [valsWFfrom, Bool.and_eq_true] using hw
    cases i with
    | zero =>
      cases h
      simpa using hw'.1
    | succ n =>
      have := ih (k + 1) n b hw'.2 h
      have harith : k + 1 + n = k + (n + 1) := by omega
      rwa [harith] at this

theorem WFb_valsWF {st : DataflowAnalysisContext} (h : WFb st = true) : ValsWF st.Vals := by
  intro i b hb
  have h1 : valsWFfrom 0 st.Vals = true := by
    simp only [WFb, Bool.and_eq_true] at h
    exact h.1.1.1.1.1.1.1.1
  have := valsWFfrom_nth st.Vals 0 i b h1 hb
  simpa using this

theorem WFb_conjEntries {st : DataflowAnalysisContext} (h : WFb st = true) :
    ∀ p ∈ st.ConjunctionVals, conjEntryOk st.Vals p = true := by
  simp only [WFb, Bool.and_eq_true, List.all_eq_true] at h
  exact h.1.1.1.1.1.1.1.2

theorem WFb_disjEntries {st : DataflowAnalysisContext} (h : WFb st = true) :
    ∀ p ∈ st.DisjunctionVals, disjEntryOk st.Vals p = true := by
  simp only [WFb, Bool.and_eq_true, List.all_eq_true] at h
  exact h.1.1.1.1.1.1.2

theorem WFb_negEntries {st : DataflowAnalysisContext} (h : WFb st = true) :
    ∀ p ∈ st.NegationVals, negEntryOk st.Vals p = true := by
  simp only [WFb, Bool.and_eq_true, List.all_eq_true] at h
  exact h.1.1.1.1.1.2

theorem WFb_trueAtom {st : DataflowAnalysisContext} (h : WFb st = true) :
    nth st.Vals st.TrueVal = some BoolVal.AtomicBool := by
  simp only [WFb, Bool.and_eq_true, beq_iff_eq] at h
  exact h.1.1.1.1.2

theorem WFb_falseAtom {st : DataflowAnalysisContext} (h : WFb st = true) :
    nth st.Vals st.FalseVal = some BoolVal.AtomicBool := by
  simp only [WFb, Bool.and_eq_true, beq_iff_eq] at h
  exact h.1.1.1.2

theorem WFb_trueNeFalse {st : DataflowAnalysisContext} (h : WFb st = true) :
    st.TrueVal ≠ st.FalseVal := by
  simp only [WFb, Bool.and_eq_true, decide_eq_true_eq] at h
  exact h.1.1.2

theorem WFb_deps {st : DataflowAnalysisContext} (h : WFb st = true) :
    ∀ p ∈ st.FlowConditionDeps, p.1 < st.Vals.length ∧ ∀ d ∈ p.2, d < st.Vals.length := by
  simp only [WFb, Bool.and_eq_true, List.all_eq_true, decide_eq_true_eq] at h
  intro p hp
  have := h.1.2 p hp
  exact ⟨this.1, this.2⟩

theorem WFb_cons {st : DataflowAnalysisContext} (h : WFb st = true) :
    ∀ p ∈ st.FlowConditionConstraints, p.1 < st.Vals.length ∧ p.2 < st.Vals.length := by
  simp only [WFb, Bool.and_eq_true, List.all_eq_true, decide_eq_true_eq] at h
  intro p hp
  exact h.2 p hp

theorem opndsLtB_conj {l r i : Nat} (h : opndsLtB (BoolVal.Conjunction l r) i = true) :
    l < i ∧ r < i := by
  simpa [opndsLtB, Bool.and_eq_true] using h

theorem opndsLtB_disj {l r i : Nat} (h : opndsLtB (BoolVal.Disjunction l r) i = true) :
    l < i ∧ r < i := by
  simpa [opndsLtB, Bool.and_eq_true] using h

theorem opndsLtB_neg {s i : Nat} (h : opndsLtB (BoolVal.Negation s) i = true) : s < i := by
  simpa [opndsLtB] using h

theorem evalV_stable {vals : List BoolVal} {σ : Nat → Bool} (hw : ValsWF vals) :
    ∀ i f g, i < f → i < g → evalV vals σ f i = evalV vals σ g i := by
  intro i
  induction i using Nat.strong_induction_on with
  | _ i IH =>
    intro f g hf hg
    obtain ⟨f', rfl⟩ : ∃ f', f = f' + 1 := ⟨f - 1, by omega⟩
    obtain ⟨g', rfl⟩ : ∃ g', g = g' + 1 := ⟨g - 1, by omega⟩
    show evalV vals σ (f' + 1) i = evalV vals σ (g' + 1) i
    simp only [evalV]
    cases hb : nth vals i with
    | none => rfl
    | some b =>
      cases b with
      | AtomicBool => rfl
      | Conjunction l r =>
        have hop := opndsLtB_conj (hw i _ hb)
        show (evalV vals σ f' l && evalV vals σ f' r) = (evalV vals σ g' l && evalV vals σ g' r)
        rw [IH l hop.1 f' g' (by omega) (by omega), IH r hop.2 f' g' (by omega) (by omega)]
      | Disjunction l r =>
        have hop := opndsLtB_disj (hw i _ hb)
        show (evalV vals σ f' l || evalV vals σ f' r) = (evalV vals σ g' l || evalV vals σ g' r)
        rw [IH l hop.1 f' g' (by omega) (by omega), IH r hop.2 f' g' (by omega) (by omega)]
      | Negation s =>
        have hop := opndsLtB_neg (hw i _ hb)
        show (!evalV vals σ f' s) = (!evalV vals σ g' s)
        rw [IH s hop f' g' (by omega) (by omega)]

theorem evalBV_atom {st : DataflowAnalysisContext} {σ : Nat → Bool} {i : Nat}
    (h : nth st.Vals i = some BoolVal.AtomicBool) : evalBV st σ i = σ i := by
  simp [evalBV, evalV, h]

theorem evalBV_conj {st : DataflowAnalysisContext} {σ : Nat → Bool} {i l r : Nat}
    (hw : ValsWF st.Vals) (h : nth st.Vals i = some (BoolVal.Conjunction l r)) :
    evalBV st σ i = (evalBV st σ l && evalBV st σ r) := by
  have hop := opndsLtB_conj (hw i _ h)
  show evalV st.Vals σ (i + 1) i = _
  simp only [evalV, h]
  rw [evalV_stable hw l i (l + 1) (by omega) (by omega),
    evalV_stable hw r i (r + 1) (by omega) (by omega)]
  rfl

theorem evalBV_disj {st : DataflowAnalysisContext} {σ : Nat → Bool} {i l r : Nat}
    (hw : ValsWF st.Vals) (h : nth st.Vals i = some (BoolVal.Disjunction l r)) :
    evalBV st σ i = (evalBV st σ l || evalBV st σ r) := by
  have hop := opndsLtB_disj (hw i _ h)
  show evalV st.Vals σ (i + 1) i = _
  simp only [evalV, h]
  rw [evalV_stable hw l i (l + 1) (by omega) (by omega),
    evalV_stable hw r i (r + 1) (by omega) (by omega)]
  rfl

theorem evalBV_neg {st : DataflowAnalysisContext} {σ : Nat → Bool} {i s : Nat}
    (hw : ValsWF st.Vals) (h : nth st.Vals i = some (BoolVal.Negation s)) :
    evalBV st σ i = !evalBV st σ s := by
  have hop := opndsLtB_neg (hw i _ h)
  show evalV st.Vals σ (i + 1) i = _
  simp only [evalV, h]
  rw [evalV_stable hw s i (s + 1) (by omega) (by omega)]
  rfl

theorem evalV_frame {vals e : List BoolVal} {σ : Nat → Bool} (hw : ValsWF vals) :
    ∀ f i, i < vals.length → evalV (vals ++ e) σ f i = evalV vals σ f i := by
  intro f
  induction f with
  | zero => intro i _; rfl
  | succ f ih =>
    intro i hi
    simp only [evalV, nth_append_left e hi]
    cases hb : nth vals i with
    | none => rfl
    | some b =>
      cases b with
      | AtomicBool => rfl
      | Conjunction l r =>
        have hop := opndsLtB_conj (hw i _ hb)
        show (evalV (vals ++ e) σ f l && evalV (vals ++ e) σ f r) = (evalV vals σ f l && evalV vals σ f r)
        rw [ih l (by omega), ih r (by omega)]
      | Disjunction l r =>
        have hop := opndsLtB_disj (hw i _ hb)
        show (evalV (vals ++ e) σ f l || evalV (vals ++ e) σ f r) = (evalV vals σ f l || evalV vals σ f r)
        rw [ih l (by omega), ih r (by omega)]
      | Negation s =>
        have hop := opndsLtB_neg (hw i _ hb)
        show (!evalV (vals ++ e) σ f s) = (!evalV vals σ f s)
        rw [ih s (by omega)]

/-- Evaluation is stable under arena extension: values already present keep
their truth value. -/
theorem evalBV_frame {st st' : DataflowAnalysisContext} {σ : Nat → Bool} {i : Nat}
    (hw : ValsWF st.Vals) (hext : ∃ e, st'.Vals = st.Vals ++ e)
    (hi : i < st.Vals.length) : evalBV st' σ i = evalBV st σ i := by
  obtain ⟨e, he⟩ := hext
  show evalV st'.Vals σ (i + 1) i = evalV st.Vals σ (i + 1) i
  rw [he]
  exact evalV_frame hw (i + 1) i hi

/-- Evaluation of value `i` only consults the assignment at positions `≤ i`. -/
theorem evalV_congr_le {vals : List BoolVal} {σ1 σ2 : Nat → Bool} (hw : ValsWF vals) :
    ∀ f i, (∀ j, j ≤ i → σ1 j = σ2 j) → evalV vals σ1 f i = evalV vals σ2 f i := by
  intro f
  induction f with
  | zero => intro i _; rfl
  | succ f ih =>
    intro i hσ
    simp only [evalV]
    cases hb : nth vals i with
    | none => rfl
    | some b =>
      cases b with
      | AtomicBool =>
        show σ1 i = σ2 i
        exact hσ i (le_refl i)
      | Conjunction l r =>
        have hop := opndsLtB_conj (hw i _ hb)
        show (evalV vals σ1 f l && evalV vals σ1 f r) = (evalV vals σ2 f l && evalV vals σ2 f r)
        rw [ih l (fun j hj => hσ j (by omega)), ih r (fun j hj => hσ j (by omega))]
      | Disjunction l r =>
        have hop := opndsLtB_disj (hw i _ hb)
        show (evalV vals σ1 f l || evalV vals σ1 f r) = (evalV vals σ2 f l || evalV vals σ2 f r)
        rw [ih l (fun j hj => hσ j (by omega)), ih r (fun j hj => hσ j (by omega))]
      | Negation s =>
        have hop := opndsLtB_neg (hw i _ hb)
        show (!evalV vals σ1 f s) = (!evalV vals σ2 f s)
        rw [ih s (fun j hj => hσ j (by omega))]

theorem evalBV_congr_le {st : DataflowAnalysisContext} {σ1 σ2 : Nat → Bool} {i : Nat}
    (hw : ValsWF st.Vals) (hσ : ∀ j, j ≤ i → σ1 j = σ2 j) :
    evalBV st σ1 i = evalBV st σ2 i :=
  evalV_congr_le hw (i + 1) i hσ

/-- Evaluation only consults the assignment at the atomic values occurring in
the formula. -/
theorem evalV_congr_atoms {vals : List BoolVal} {σ1 σ2 : Nat → Bool} :
    ∀ f i, (∀ j ∈ subIds vals f i, nth vals j = some BoolVal.AtomicBool → σ1 j = σ2 j) →
      evalV vals σ1 f i = evalV vals σ2 f i := by
  intro f
  induction f with
  | zero => intro i _; rfl
  | succ f ih =>
    intro i hσ
    simp only [evalV]
    cases hb : nth vals i with
    | none => rfl
    | some b =>
      cases b with
      | AtomicBool =>
        show σ1 i = σ2 i
        exact hσ i (by simp [subIds]) hb
      | Conjunction l r =>
        show (evalV vals σ1 f l && evalV vals σ1 f r) = (evalV vals σ2 f l && evalV vals σ2 f r)
        rw [ih l (fun j hj ha => hσ j (by simp [subIds, hb]; right; left; exact hj) ha),
          ih r (fun j hj ha => hσ j (by simp [subIds, hb]; right; right; exact hj) ha)]
      | Disjunction l r =>
        show (evalV vals σ1 f l || evalV vals σ1 f r) = (evalV vals σ2 f l || evalV vals σ2 f r)
        rw [ih l (fun j hj ha => hσ j (by simp [subIds, hb]; right; left; exact hj) ha),
          ih r (fun j hj ha => hσ j (by simp [subIds, hb]; right; right; exact hj) ha)]
      | Negation s =>
        show (!evalV vals σ1 f s) = (!evalV vals σ2 f s)
        rw [ih s (fun j hj ha => hσ j (by simp [subIds, hb]; right; exact hj) ha)]

theorem makeCanonicalBoolValuePair_comm (a b : Nat) :
    makeCanonicalBoolValuePair a b = makeCanonicalBoolValuePair b a := by
  unfold makeCanonicalBoolValuePair
  split <;> split <;> (try rfl) <;> (rename_i h1 h2; simp only [Prod.mk.injEq]; omega)

theorem makeCanonicalBoolValuePair_inj {a b c d : Nat}
    (h : makeCanonicalBoolValuePair a b = makeCanonicalBoolValuePair c d) :
    (a = c ∧ b = d) ∨ (a = d ∧ b = c) := by
  unfold makeCanonicalBoolValuePair at h
  split at h <;> split at h <;>
    (simp only [Prod.mk.injEq] at h; omega)

theorem allAssignments_map_mem : ∀ (as : List Nat) (σ : Nat → Bool),
    (as.map (fun a => (a, σ a))) ∈ allAssignments as := by
  intro as
  induction as with
  | nil => intro σ; simp [allAssignments]
  | cons a t ih =>
    intro σ
    simp only [allAssignments, List.map_cons, List.mem_append, List.mem_map]
    cases h : σ a with
    | true => exact Or.inl ⟨t.map (fun x => (x, σ x)), ih σ, by rw [← h]⟩
    | false => exact Or.inr ⟨t.map (fun x => (x, σ x)), ih σ, by rw [← h]⟩

theorem alookup_pairing : ∀ (as : List Nat) (σ : Nat → Bool) (a : Nat), a ∈ as →
    alookup a (as.map (fun x => (x, σ x))) = some (σ a) := by
  intro as
  induction as with
  | nil => intro σ a h; cases h
  | cons x t ih =>
    intro σ a h
    simp only [List.map_cons, alookup_cons]
    by_cases hax : a = x
    · subst hax; simp
    · rw [if_neg hax]
      exact ih σ a (by rcases List.mem_cons.mp h with h' | h'; exact absurd h' hax; exact h')

theorem mem_atomsOfConstraints {st : DataflowAnalysisContext} {cs : List Nat} {j c : Nat}
    (hc : c ∈ cs) (hj : j ∈ subIds st.Vals (c + 1) c)
    (ha : nth st.Vals j = some BoolVal.AtomicBool) : j ∈ atomsOfConstraints st cs := by
  unfold atomsOfConstraints
  rw [List.mem_filter]
  constructor
  · rw [List.mem_flatten]
    exact ⟨subIds st.Vals (c + 1) c, List.mem_map.mpr ⟨c, hc, rfl⟩, hj⟩
  · simp [ha]

/-- `decideSat` answers exactly semantic satisfiability. -/
theorem decideSat_iff (st : DataflowAnalysisContext) (cs : List Nat) :
    decideSat st cs = true ↔ ∃ σ : Nat → Bool, ∀ c ∈ cs, evalBV st σ c = true := by
  constructor
  · intro h
    obtain ⟨m, _, hall⟩ := List.any_eq_true.mp h
    exact ⟨assignOf m, fun c hc => List.all_eq_true.mp hall c hc⟩
  · rintro ⟨σ, h⟩
    unfold decideSat
    rw [List.any_eq_true]
    refine ⟨(atomsOfConstraints st cs).dedup.map (fun a => (a, σ a)),
      allAssignments_map_mem _ σ, List.all_eq_true.mpr ?_⟩
    intro c hc
    have : evalBV st (assignOf ((atomsOfConstraints st cs).dedup.map (fun a => (a, σ a)))) c
        = evalBV st σ c := by
      apply evalV_congr_atoms (c + 1) c
      intro j hj ha
      have hmem : j ∈ (atomsOfConstraints st cs).dedup :=
        List.mem_dedup.mpr (mem_atomsOfConstraints hc hj ha)
      show assignOf _ j = σ j
      unfold assignOf
      rw [alookup_pairing _ σ j hmem]
      rfl
    rw [this]
    exact h c hc

theorem decidingSolver_unsat_iff (st : DataflowAnalysisContext) (cs : List Nat) :
    (decidingSolver st cs == SolverResult.Unsatisfiable) = true ↔
      ¬∃ σ : Nat → Bool, ∀ c ∈ cs, evalBV st σ c = true := by
  unfold decidingSolver
  by_cases h : decideSat st cs = true
  · rw [h]
    simp only [if_true, beq_iff_eq]
    constructor
    · intro hcon; cases hcon
    · intro hn; exact absurd ((decideSat_iff st cs).mp h) hn
  · rw [Bool.not_eq_true] at h
    rw [h]
    simp only [Bool.false_eq_true, if_false, beq_iff_eq]
    constructor
    · intro _ hex
      exact absurd ((decideSat_iff st cs).mpr hex) (by rw [h]; simp)
    · intro _; trivial

theorem OpExt.selfExt (st : DataflowAnalysisContext) : OpExt st st :=
  ⟨⟨[], by simp⟩, rfl, rfl⟩

theorem OpExt.comp {s1 s2 s3 : DataflowAnalysisContext}
    (h1 : OpExt s1 s2) (h2 : OpExt s2 s3) : OpExt s1 s3 := by
  obtain ⟨⟨e1, he1⟩, t1, f1⟩ := h1
  obtain ⟨⟨e2, he2⟩, t2, f2⟩ := h2
  exact ⟨⟨e1 ++ e2, by rw [he2, he1, List.append_assoc]⟩, t2.trans t1, f2.trans f1⟩

theorem OpExt.len_le {s1 s2 : DataflowAnalysisContext} (h : OpExt s1 s2) :
    s1.Vals.length ≤ s2.Vals.length := by
  obtain ⟨e, he⟩ := h.ext
  rw [he]; simp

theorem FCSame.selfSame (st : DataflowAnalysisContext) : FCSame st st := ⟨rfl, rfl⟩

theorem FCSame.compo {s1 s2 s3 : DataflowAnalysisContext}
    (h1 : FCSame s1 s2) (h2 : FCSame s2 s3) : FCSame s1 s3 :=
  ⟨h2.deps.trans h1.deps, h2.cons.trans h1.cons⟩

theorem WF_of_WFb {st : DataflowAnalysisContext} (h : WFb st = true) : WF st :=
  ⟨WFb_valsWF h, WFb_conjEntries h, WFb_disjEntries h, WFb_negEntries h,
    WFb_trueAtom h, WFb_falseAtom h, WFb_trueNeFalse h, WFb_deps h, WFb_cons h⟩

theorem WF.tlt {st : DataflowAnalysisContext} (h : WF st) : st.TrueVal < st.Vals.length :=
  nth_some_lt h.tAtom

theorem WF.flt {st : DataflowAnalysisContext} (h : WF st) : st.FalseVal < st.Vals.length :=
  nth_some_lt h.fAtom

theorem alookup_mem {κ α : Type} [DecidableEq κ] :
    ∀ {l : List (κ × α)} {k : κ} {v : α}, alookup k l = some v → (k, v) ∈ l := by
  intro l
  induction l with
  | nil => intro k v h; cases h
  | cons p t ih =>
    intro k v h
    obtain ⟨a, b⟩ := p
    rw [alookup_cons] at h
    by_cases hk : k = a
    · subst hk
      rw [if_pos rfl] at h
      cases h
      exact List.mem_cons_self _ _
    · rw [if_neg hk] at h
      exact List.mem_cons_of_mem _ (ih h)

theorem conjEntryOk_elim {vals : List BoolVal} {p : (Nat × Nat) × Nat}
    (h : conjEntryOk vals p = true) :
    ∃ l r, nth vals p.2 = some (BoolVal.Conjunction l r) ∧
      makeCanonicalBoolValuePair l r = p.1 := by
  unfold conjEntryOk at h
  split at h
  · rename_i l r hnth
    exact ⟨l, r, hnth, by simpa using h⟩
  · cases h

theorem disjEntryOk_elim {vals : List BoolVal} {p : (Nat × Nat) × Nat}
    (h : disjEntryOk vals p = true) :
    ∃ l r, nth vals p.2 = some (BoolVal.Disjunction l r) ∧
      makeCanonicalBoolValuePair l r = p.1 := by
  unfold disjEntryOk at h
  split at h
  · rename_i l r hnth
    exact ⟨l, r, hnth, by simpa using h⟩
  · cases h

theorem negEntryOk_elim {vals : List BoolVal} {p : Nat × Nat}
    (h : negEntryOk vals p = true) :
    nth vals p.2 = some (BoolVal.Negation p.1) := by
  unfold negEntryOk at h
  split at h
  · rename_i s hnth
    have : s = p.1 := by simpa using h
    rwa [this] at hnth
  · cases h

theorem ValsWF_append {vals : List BoolVal} {b : BoolVal}
    (hw : ValsWF vals) (hb : opndsLtB b vals.length = true) : ValsWF (vals ++ [b]) := by
  intro i c hc
  rcases Nat.lt_trichotomy i vals.length with hi | hi | hi
  · rw [nth_append_left _ hi] at hc
    exact hw i c hc
  · subst hi
    rw [nth_append_self] at hc
    cases hc
    exact hb
  · rw [nth_eq_none (by simp; omega)] at hc
    cases hc

theorem conjEntryOk_append {vals e : List BoolVal} {p : (Nat × Nat) × Nat}
    (h : conjEntryOk vals p = true) : conjEntryOk (vals ++ e) p = true := by
  obtain ⟨l, r, hnth, hc⟩ := conjEntryOk_elim h
  unfold conjEntryOk
  rw [nth_append_left e (nth_some_lt hnth), hnth]
  show (makeCanonicalBoolValuePair l r == p.1) = true
  rw [hc]
  simp

theorem disjEntryOk_append {vals e : List BoolVal} {p : (Nat × Nat) × Nat}
    (h : disjEntryOk vals p = true) : disjEntryOk (vals ++ e) p = true := by
  obtain ⟨l, r, hnth, hc⟩ := disjEntryOk_elim h
  unfold disjEntryOk
  rw [nth_append_left e (nth_some_lt hnth), hnth]
  show (makeCanonicalBoolValuePair l r == p.1) = true
  rw [hc]
  simp

theorem negEntryOk_append {vals e : List BoolVal} {p : Nat × Nat}
    (h : negEntryOk vals p = true) : negEntryOk (vals ++ e) p = true := by
  have hnth := negEntryOk_elim h
  unfold negEntryOk
  rw [nth_append_left e (nth_some_lt hnth), hnth]
  show (p.1 == p.1) = true
  simp

theorem getOrCreateConjunction_spec {st : DataflowAnalysisContext} {l r : Nat}
    (hw : WF st) (hl : l < st.Vals.length) (hr : r < st.Vals.length) :
    WF (getOrCreateConjunction st l r).2 ∧ OpExt st (getOrCreateConjunction st l r).2 ∧
    FCSame st (getOrCreateConjunction st l r).2 ∧
    (getOrCreateConjunction st l r).1 < (getOrCreateConjunction st l r).2.Vals.length ∧
    ∀ σ, evalBV (getOrCreateConjunction st l r).2 σ (getOrCreateConjunction st l r).1 =
      (evalBV (getOrCreateConjunction st l r).2 σ l &&
       evalBV (getOrCreateConjunction st l r).2 σ r) := by
  unfold getOrCreateConjunction
  by_cases hlr : l = r
  · rw [if_pos hlr]
    subst hlr
    exact ⟨hw, OpExt.selfExt st, FCSame.selfSame st, hl, fun σ => (Bool.and_self _).symm⟩
  · rw [if_neg hlr]
    cases hfind : alookup (makeCanonicalBoolValuePair l r) st.ConjunctionVals with
    | some v =>
      obtain ⟨l2, r2, hnth, hc⟩ := conjEntryOk_elim (hw.conjOk _ (alookup_mem hfind))
      refine ⟨hw, OpExt.selfExt st, FCSame.selfSame st, nth_some_lt hnth, ?_⟩
      intro σ
      have heval := @evalBV_conj _ σ _ _ _ hw.vwf hnth
      rcases makeCanonicalBoolValuePair_inj hc with ⟨rfl, rfl⟩ | ⟨rfl, rfl⟩
      · exact heval
      · rw [heval, Bool.and_comm]
    | none =>
      have hop : opndsLtB (BoolVal.Conjunction l r) st.Vals.length = true := by
        simp [opndsLtB]; exact ⟨hl, hr⟩
      have hv : ValsWF (st.Vals ++ [BoolVal.Conjunction l r]) := ValsWF_append hw.vwf hop
      have hself : nth (st.Vals ++ [BoolVal.Conjunction l r]) st.Vals.length =
          some (BoolVal.Conjunction l r) := nth_append_self _ _
      refine ⟨?_, ⟨⟨[BoolVal.Conjunction l r], rfl⟩, rfl, rfl⟩, ⟨rfl, rfl⟩,
        by simp, ?_⟩
      · refine ⟨hv, ?_, ?_, ?_, ?_, ?_, hw.tne, ?_, ?_⟩
        · intro p hp
          rcases List.mem_cons.mp hp with rfl | hp
          · unfold conjEntryOk
            rw [hself]
            show (makeCanonicalBoolValuePair l r == makeCanonicalBoolValuePair l r) = true
            simp
          · exact conjEntryOk_append (hw.conjOk p hp)
        · intro p hp; exact disjEntryOk_append (hw.disjOk p hp)
        · intro p hp; exact negEntryOk_append (hw.negOk p hp)
        · rw [nth_append_left _ hw.tlt]; exact hw.tAtom
        · rw [nth_append_left _ hw.flt]; exact hw.fAtom
        · intro p hp
          have := hw.depsOk p hp
          constructor
          · simp; omega
          · intro d hd; have := this.2 d hd; simp; omega
        · intro p hp
          have := hw.consOk p hp
          constructor
          · simp; omega
          · simp; omega
      · intro σ
        exact evalBV_conj hv hself

theorem getOrCreateDisjunction_spec {st : DataflowAnalysisContext} {l r : Nat}
    (hw : WF st) (hl : l < st.Vals.length) (hr : r < st.Vals.length) :
    WF (getOrCreateDisjunction st l r).2 ∧ OpExt st (getOrCreateDisjunction st l r).2 ∧
    FCSame st (getOrCreateDisjunction st l r).2 ∧
    (getOrCreateDisjunction st l r).1 < (getOrCreateDisjunction st l r).2.Vals.length ∧
    ∀ σ, evalBV (getOrCreateDisjunction st l r).2 σ (getOrCreateDisjunction st l r).1 =
      (evalBV (getOrCreateDisjunction st l r).2 σ l ||
       evalBV (getOrCreateDisjunction st l r).2 σ r) := by
  unfold getOrCreateDisjunction
  by_cases hlr : l = r
  · rw [if_pos hlr]
    subst hlr
    exact ⟨hw, OpExt.selfExt st, FCSame.selfSame st, hl, fun σ => (Bool.or_self _).symm⟩
  · rw [if_neg hlr]
    cases hfind : alookup (makeCanonicalBoolValuePair l r) st.DisjunctionVals with
    | some v =>
      obtain ⟨l2, r2, hnth, hc⟩ := disjEntryOk_elim (hw.disjOk _ (alookup_mem hfind))
      refine ⟨hw, OpExt.selfExt st, FCSame.selfSame st, nth_some_lt hnth, ?_⟩
      intro σ
      have heval := @evalBV_disj _ σ _ _ _ hw.vwf hnth
      rcases makeCanonicalBoolValuePair_inj hc with ⟨rfl, rfl⟩ | ⟨rfl, rfl⟩
      · exact heval
      · rw [heval, Bool.or_comm]
    | none =>
      have hop : opndsLtB (BoolVal.Disjunction l r) st.Vals.length = true := by
        simp [opndsLtB]; exact ⟨hl, hr⟩
      have hv : ValsWF (st.Vals ++ [BoolVal.Disjunction l r]) := ValsWF_append hw.vwf hop
      have hself : nth (st.Vals ++ [BoolVal.Disjunction l r]) st.Vals.length =
          some (BoolVal.Disjunction l r) := nth_append_self _ _
      refine ⟨?_, ⟨⟨[BoolVal.Disjunction l r], rfl⟩, rfl, rfl⟩, ⟨rfl, rfl⟩,
        by simp, ?_⟩
      · refine ⟨hv, ?_, ?_, ?_, ?_, ?_, hw.tne, ?_, ?_⟩
        · intro p hp; exact conjEntryOk_append (hw.conjOk p hp)
        · intro p hp
          rcases List.mem_cons.mp hp with rfl | hp
          · unfold disjEntryOk
            rw [hself]
            show (makeCanonicalBoolValuePair l r == makeCanonicalBoolValuePair l r) = true
            simp
          · exact disjEntryOk_append (hw.disjOk p hp)
        · intro p hp; exact negEntryOk_append (hw.negOk p hp)
        · rw [nth_append_left _ hw.tlt]; exact hw.tAtom
        · rw [nth_append_left _ hw.flt]; exact hw.fAtom
        · intro p hp
          have := hw.depsOk p hp
          constructor
          · simp; omega
          · intro d hd; have := this.2 d hd; simp; omega
        · intro p hp
          have := hw.consOk p hp
          constructor
          · simp; omega
          · simp; omega
      · intro σ
        exact evalBV_disj hv hself

theorem getOrCreateNegation_spec {st : DataflowAnalysisContext} {v : Nat}
    (hw : WF st) (hv : v < st.Vals.length) :
    WF (getOrCreateNegation st v).2 ∧ OpExt st (getOrCreateNegation st v).2 ∧
    FCSame st (getOrCreateNegation st v).2 ∧
    (getOrCreateNegation st v).1 < (getOrCreateNegation st v).2.Vals.length ∧
    ∀ σ, evalBV (getOrCreateNegation st v).2 σ (getOrCreateNegation st v).1 =
      !evalBV (getOrCreateNegation st v).2 σ v := by
  unfold getOrCreateNegation
  cases hfind : alookup v st.NegationVals with
  | some r =>
    have hnth := negEntryOk_elim (hw.negOk _ (alookup_mem hfind))
    refine ⟨hw, OpExt.selfExt st, FCSame.selfSame st, nth_some_lt hnth, ?_⟩
    intro σ
    exact evalBV_neg hw.vwf hnth
  | none =>
    have hop : opndsLtB (BoolVal.Negation v) st.Vals.length = true := by
      simp [opndsLtB]; exact hv
    have hvw : ValsWF (st.Vals ++ [BoolVal.Negation v]) := ValsWF_append hw.vwf hop
    have hself : nth (st.Vals ++ [BoolVal.Negation v]) st.Vals.length =
        some (BoolVal.Negation v) := nth_append_self _ _
    refine ⟨?_, ⟨⟨[BoolVal.Negation v], rfl⟩, rfl, rfl⟩, ⟨rfl, rfl⟩, by simp, ?_⟩
    · refine ⟨hvw, ?_, ?_, ?_, ?_, ?_, hw.tne, ?_, ?_⟩
      · intro p hp; exact conjEntryOk_append (hw.conjOk p hp)
      · intro p hp; exact disjEntryOk_append (hw.disjOk p hp)
      · intro p hp
        rcases List.mem_cons.mp hp with rfl | hp
        · unfold negEntryOk
          rw [hself]
          show (v == v) = true
          simp
        · exact negEntryOk_append (hw.negOk p hp)
      · rw [nth_append_left _ hw.tlt]; exact hw.tAtom
      · rw [nth_append_left _ hw.flt]; exact hw.fAtom
      · intro p hp
        have := hw.depsOk p hp
        constructor
        · simp; omega
        · intro d hd; have := this.2 d hd; simp; omega
      · intro p hp
        have := hw.consOk p hp
        constructor
        · simp; omega
        · simp; omega
    · intro σ
      exact evalBV_neg hvw hself

theorem getOrCreateImplication_spec {st : DataflowAnalysisContext} {l r : Nat}
    (hw : WF st) (hl : l < st.Vals.length) (hr : r < st.Vals.length) :
    WF (getOrCreateImplication st l r).2 ∧ OpExt st (getOrCreateImplication st l r).2 ∧
    FCSame st (getOrCreateImplication st l r).2 ∧
    (getOrCreateImplication st l r).1 < (getOrCreateImplication st l r).2.Vals.length ∧
    ∀ σ, σ st.TrueVal = true →
      evalBV (getOrCreateImplication st l r).2 σ (getOrCreateImplication st l r).1 =
        (!evalBV (getOrCreateImplication st l r).2 σ l ||
         evalBV (getOrCreateImplication st l r).2 σ r) := by
  unfold getOrCreateImplication
  by_cases hlr : l = r
  · rw [if_pos hlr]
    subst hlr
    refine ⟨hw, OpExt.selfExt st, FCSame.selfSame st, ?_, ?_⟩
    · show getBoolLiteralValue st true < st.Vals.length
      simpa [getBoolLiteralValue] using hw.tlt
    · intro σ hσ
      show evalBV st σ (getBoolLiteralValue st true) = _
      rw [show getBoolLiteralValue st true = st.TrueVal from rfl,
        evalBV_atom hw.tAtom, hσ]
      cases evalBV st σ l <;> rfl
  · rw [if_neg hlr]
    obtain ⟨hw1, he1, hf1, hlt1, hev1⟩ := getOrCreateNegation_spec hw hl
    obtain ⟨hw2, he2, hf2, hlt2, hev2⟩ := getOrCreateDisjunction_spec hw1 hlt1
      (lt_of_lt_of_le hr he1.len_le)
    refine ⟨hw2, he1.comp he2, hf1.compo hf2, hlt2, ?_⟩
    intro σ _
    rw [hev2 σ]
    have hn : evalBV (getOrCreateDisjunction (getOrCreateNegation st l).2
        (getOrCreateNegation st l).1 r).2 σ (getOrCreateNegation st l).1 =
        evalBV (getOrCreateNegation st l).2 σ (getOrCreateNegation st l).1 :=
      evalBV_frame hw1.vwf he2.ext hlt1
    have hll : evalBV (getOrCreateDisjunction (getOrCreateNegation st l).2
        (getOrCreateNegation st l).1 r).2 σ l =
        evalBV (getOrCreateNegation st l).2 σ l :=
      evalBV_frame hw1.vwf he2.ext (lt_of_lt_of_le hl he1.len_le)
    rw [hn, hev1 σ, hll]

theorem getOrCreateIff_spec {st : DataflowAnalysisContext} {l r : Nat}
    (hw : WF st) (hl : l < st.Vals.length) (hr : r < st.Vals.length) :
    WF (getOrCreateIff st l r).2 ∧ OpExt st (getOrCreateIff st l r).2 ∧
    FCSame st (getOrCreateIff st l r).2 ∧
    (getOrCreateIff st l r).1 < (getOrCreateIff st l r).2.Vals.length ∧
    ∀ σ, σ st.TrueVal = true →
      evalBV (getOrCreateIff st l r).2 σ (getOrCreateIff st l r).1 =
        (evalBV (getOrCreateIff st l r).2 σ l == evalBV (getOrCreateIff st l r).2 σ r) := by
  unfold getOrCreateIff
  by_cases hlr : l = r
  · rw [if_pos hlr]
    subst hlr
    refine ⟨hw, OpExt.selfExt st, FCSame.selfSame st, ?_, ?_⟩
    · show getBoolLiteralValue st true < st.Vals.length
      simpa [getBoolLiteralValue] using hw.tlt
    · intro σ hσ
      show evalBV st σ (getBoolLiteralValue st true) = _
      rw [show getBoolLiteralValue st true = st.TrueVal from rfl,
        evalBV_atom hw.tAtom, hσ]
      cases evalBV st σ l <;> rfl
  · rw [if_neg hlr]
    obtain ⟨hw1, he1, hf1, hlt1, hev1⟩ := getOrCreateImplication_spec hw hl hr
    obtain ⟨hw2, he2, hf2, hlt2, hev2⟩ := getOrCreateImplication_spec hw1
      (lt_of_lt_of_le hr he1.len_le) (lt_of_lt_of_le hl he1.len_le)
    obtain ⟨hw3, he3, hf3, hlt3, hev3⟩ := getOrCreateConjunction_spec hw2
      (lt_of_lt_of_le hlt1 he2.len_le) hlt2
    refine ⟨hw3, (he1.comp he2).comp he3, (hf1.compo hf2).compo hf3, hlt3, ?_⟩
    intro σ hσ
    rw [hev3 σ]
    have hi1 : evalBV (getOrCreateConjunction (getOrCreateImplication
        (getOrCreateImplication st l r).2 r l).2 (getOrCreateImplication st l r).1
        (getOrCreateImplication (getOrCreateImplication st l r).2 r l).1).2 σ
        (getOrCreateImplication st l r).1 =
        evalBV (getOrCreateImplication st l r).2 σ (getOrCreateImplication st l r).1 := by
      refine (evalBV_frame hw2.vwf he3.ext (lt_of_lt_of_le hlt1 he2.len_le)).trans ?_
      exact evalBV_frame hw1.vwf he2.ext hlt1
    have hi2 : evalBV (getOrCreateConjunction (getOrCreateImplication
        (getOrCreateImplication st l r).2 r l).2 (getOrCreateImplication st l r).1
        (getOrCreateImplication (getOrCreateImplication st l r).2 r l).1).2 σ
        (getOrCreateImplication (getOrCreateImplication st l r).2 r l).1 =
        evalBV (getOrCreateImplication (getOrCreateImplication st l r).2 r l).2 σ
          (getOrCreateImplication (getOrCreateImplication st l r).2 r l).1 :=
      evalBV_frame hw2.vwf he3.ext hlt2
    have hLfin : ∀ j, j < st.Vals.length →
        evalBV (getOrCreateConjunction (getOrCreateImplication
          (getOrCreateImplication st l r).2 r l).2 (getOrCreateImplication st l r).1
          (getOrCreateImplication (getOrCreateImplication st l r).2 r l).1).2 σ j =
        evalBV st σ j := by
      intro j hj
      refine (evalBV_frame hw2.vwf he3.ext
        (lt_of_lt_of_le hj (he1.len_le.trans he2.len_le))).trans ?_
      refine (evalBV_frame hw1.vwf he2.ext (lt_of_lt_of_le hj he1.len_le)).trans ?_
      exact evalBV_frame hw.vwf he1.ext hj
    have hL2 : ∀ j, j < (getOrCreateImplication st l r).2.Vals.length →
        evalBV (getOrCreateImplication (getOrCreateImplication st l r).2 r l).2 σ j =
        evalBV (getOrCreateImplication st l r).2 σ j := by
      intro j hj
      exact evalBV_frame hw1.vwf he2.ext hj
    rw [hi1, hi2, hev1 σ hσ]
    rw [hev2 σ (by rw [he1.tv]; exact hσ)]
    rw [hL2 l (lt_of_lt_of_le hl he1.len_le), hL2 r (lt_of_lt_of_le hr he1.len_le)]
    have hfr1 : evalBV (getOrCreateImplication st l r).2 σ l = evalBV st σ l :=
      evalBV_frame hw.vwf he1.ext hl
    have hfr2 : evalBV (getOrCreateImplication st l r).2 σ r = evalBV st σ r :=
      evalBV_frame hw.vwf he1.ext hr
    rw [hfr1, hfr2, hLfin l hl, hLfin r hr]
    cases evalBV st σ l <;> cases evalBV st σ r <;> rfl

theorem ItemOf_mono {C : List (Nat × Nat)} {st st2 : DataflowAnalysisContext} {x t : Nat}
    (hw : WF st) (hext : OpExt st st2)
    (hC : ∀ p ∈ C, p.1 < st.Vals.length ∧ p.2 < st.Vals.length)
    (h : ItemOf C st x t) : ItemOf C st2 x t := by
  unfold ItemOf at h ⊢
  cases hc : alookup t C with
  | none => rw [hc] at h; exact h
  | some c =>
    rw [hc] at h
    obtain ⟨ht, hcl⟩ := hC _ (alookup_mem hc)
    obtain ⟨hx, hev⟩ := h
    refine ⟨lt_of_lt_of_le hx hext.len_le, ?_⟩
    intro σ hσ
    rw [evalBV_frame hw.vwf hext.ext hx, evalBV_frame hw.vwf hext.ext ht,
      evalBV_frame hw.vwf hext.ext hcl]
    exact hev σ (by rw [← hext.tv]; exact hσ)

theorem walkMeasureF_pop {D : List (Nat × List Nat)} {n : Nat} {tok : Nat}
    {rest visited : List Nat} :
    walkMeasureF D n (tok :: rest) visited = walkMeasureF D n rest visited + 1 := by
  unfold walkMeasureF
  simp [List.length_cons]
  omega

theorem walkMeasureF_visit {D : List (Nat × List Nat)} {n : Nat} {tok : Nat}
    {rest visited : List Nat} (htok : tok < n) (hnv : tok ∉ visited) :
    walkMeasureF D n (((alookup tok D).getD []) ++ rest) (tok :: visited) + 2 =
      walkMeasureF D n (tok :: rest) visited := by
  unfold walkMeasureF
  have hsum : ∀ t, (if t ∈ visited then 0 else 1 + ((alookup t D).getD []).length) =
      (if t ∈ tok :: visited then 0 else 1 + ((alookup t D).getD []).length) +
      (if t = tok then 1 + ((alookup tok D).getD []).length else 0) := by
    intro t
    by_cases ht : t = tok
    · subst ht
      rw [if_neg hnv, if_pos (List.mem_cons_self _ _), if_pos rfl]
      omega
    · rw [if_neg ht]
      by_cases hv : t ∈ visited
      · rw [if_pos hv, if_pos (List.mem_cons_of_mem _ hv)]
      · rw [if_neg hv, if_neg (fun hmem => by
          rcases List.mem_cons.mp hmem with h | h
          · exact ht h
          · exact hv h)]
        omega
  rw [Finset.sum_congr rfl (fun t _ => hsum t), Finset.sum_add_distrib,
    Finset.sum_ite_eq' (Finset.range n) tok
      (fun _ => 1 + ((alookup tok D).getD []).length),
    if_pos (Finset.mem_range.mpr htok)]
  simp [List.length_append, List.length_cons]
  omega

theorem deps_bound {st : DataflowAnalysisContext} (hw : WF st) (t : Nat) :
    ∀ d ∈ (alookup t st.FlowConditionDeps).getD [], d < st.Vals.length := by
  intro d hd
  cases hds : alookup t st.FlowConditionDeps with
  | none => rw [hds] at hd; cases hd
  | some ds =>
    rw [hds] at hd
    exact (hw.depsOk _ (alookup_mem hds)).2 d hd

theorem cons_bound {st : DataflowAnalysisContext} (hw : WF st) {t c : Nat}
    (h : alookup t st.FlowConditionConstraints = some c) : c < st.Vals.length :=
  (hw.consOk _ (alookup_mem h)).2

/-- Soundness of the transitive-constraint walk: the final state only extends
the arena, the flow-condition maps are untouched, the constraint set only
grows, and every added constraint is the item of a reachable token. -/
theorem walk_sound (D : List (Nat × List Nat)) (C : List (Nat × Nat)) (root : Nat) :
    ∀ (fuel : Nat) (st : DataflowAnalysisContext) (stack cs visited : List Nat),
    WF st → st.FlowConditionDeps = D → st.FlowConditionConstraints = C →
    (∀ s ∈ stack, s < st.Vals.length) →
    (∀ s ∈ stack, ReachFC D root s) →
    WF (addTransitiveFlowConditionConstraints fuel st stack cs visited).1 ∧
    OpExt st (addTransitiveFlowConditionConstraints fuel st stack cs visited).1 ∧
    FCSame st (addTransitiveFlowConditionConstraints fuel st stack cs visited).1 ∧
    (∀ x ∈ cs, x ∈ (addTransitiveFlowConditionConstraints fuel st stack cs visited).2.1) ∧
    (∀ t ∈ visited,
      t ∈ (addTransitiveFlowConditionConstraints fuel st stack cs visited).2.2) ∧
    (∀ x ∈ (addTransitiveFlowConditionConstraints fuel st stack cs visited).2.1,
      x ∈ cs ∨ ∃ t, ReachFC D root t ∧
        ItemOf C (addTransitiveFlowConditionConstraints fuel st stack cs visited).1 x t) ∧
    (∀ t ∈ (addTransitiveFlowConditionConstraints fuel st stack cs visited).2.2,
      t ∈ visited ∨ ReachFC D root t) := by
  intro fuel
  induction fuel with
  | zero =>
    intro st stack cs visited hw _ _ _ _
    exact ⟨hw, OpExt.selfExt st, FCSame.selfSame st, fun x hx => hx, fun t ht => ht,
      fun x hx => Or.inl hx, fun t ht => Or.inl ht⟩
  | succ fuel IH =>
    intro st stack cs visited hw hD hC hbound hreach
    cases stack with
    | nil =>
      exact ⟨hw, OpExt.selfExt st, FCSame.selfSame st, fun x hx => hx, fun t ht => ht,
        fun x hx => Or.inl hx, fun t ht => Or.inl ht⟩
    | cons tok rest =>
      by_cases hv : tok ∈ visited
      · have hR : addTransitiveFlowConditionConstraints (fuel + 1) st (tok :: rest)
            cs visited = addTransitiveFlowConditionConstraints fuel st rest cs visited := by
          simp only [addTransitiveFlowConditionConstraints]
          rw [if_pos hv]
        rw [hR]
        exact IH st rest cs visited hw hD hC
          (fun s hs => hbound s (List.mem_cons_of_mem _ hs))
          (fun s hs => hreach s (List.mem_cons_of_mem _ hs))
      · cases hcc : alookup tok st.FlowConditionConstraints with
        | none =>
          have hR : addTransitiveFlowConditionConstraints (fuel + 1) st (tok :: rest)
              cs visited = addTransitiveFlowConditionConstraints fuel st
                (((alookup tok st.FlowConditionDeps).getD []) ++ rest)
                (insertSet tok cs) (tok :: visited) := by
            simp only [addTransitiveFlowConditionConstraints]
            rw [if_neg hv, hcc]
          rw [hR]
          have hbound2 : ∀ s ∈ ((alookup tok st.FlowConditionDeps).getD []) ++ rest,
              s < st.Vals.length := by
            intro s hs
            rcases List.mem_append.mp hs with hs | hs
            · exact deps_bound hw tok s hs
            · exact hbound s (List.mem_cons_of_mem _ hs)
          have hreach2 : ∀ s ∈ ((alookup tok st.FlowConditionDeps).getD []) ++ rest,
              ReachFC D root s := by
            intro s hs
            rcases List.mem_append.mp hs with hs | hs
            · exact ReachFC.step (hreach tok (List.mem_cons_self _ _)) (by rw [← hD]; exact hs)
            · exact hreach s (List.mem_cons_of_mem _ hs)
          obtain ⟨w1, w2, w3, w4, w5, w6, w7⟩ := IH st _ _ _ hw hD hC hbound2 hreach2
          refine ⟨w1, w2, w3, fun x hx => w4 x (subset_insertSet _ _ hx),
            fun t ht => w5 t (List.mem_cons_of_mem _ ht), ?_, ?_⟩
          · intro x hx
            rcases w6 x hx with hx2 | hx2
            · rcases mem_insertSet.mp hx2 with rfl | hx3
              · refine Or.inr ⟨x, hreach x (List.mem_cons_self _ _), ?_⟩
                unfold ItemOf
                rw [← hC, hcc]
              · exact Or.inl hx3
            · exact Or.inr hx2
          · intro t ht
            rcases w7 t ht with ht2 | ht2
            · rcases List.mem_cons.mp ht2 with rfl | ht3
              · exact Or.inr (hreach t (List.mem_cons_self _ _))
              · exact Or.inl ht3
            · exact Or.inr ht2
        | some c =>
          have htok : tok < st.Vals.length := hbound tok (List.mem_cons_self _ _)
          have hc : c < st.Vals.length := cons_bound hw hcc
          obtain ⟨hw2, hext, hfc, hlt, hev⟩ := getOrCreateIff_spec hw htok hc
          have hR : addTransitiveFlowConditionConstraints (fuel + 1) st (tok :: rest)
              cs visited = addTransitiveFlowConditionConstraints fuel
                (getOrCreateIff st tok c).2
                (((alookup tok (getOrCreateIff st tok c).2.FlowConditionDeps).getD []) ++ rest)
                (insertSet (getOrCreateIff st tok c).1 cs) (tok :: visited) := by
            simp only [addTransitiveFlowConditionConstraints]
            rw [if_neg hv, hcc]
          rw [hR]
          have hD2 : (getOrCreateIff st tok c).2.FlowConditionDeps = D := hfc.deps.trans hD
          have hC2 : (getOrCreateIff st tok c).2.FlowConditionConstraints = C :=
            hfc.cons.trans hC
          have hbound2 : ∀ s ∈ ((alookup tok
              (getOrCreateIff st tok c).2.FlowConditionDeps).getD []) ++ rest,
              s < (getOrCreateIff st tok c).2.Vals.length := by
            intro s hs
            rcases List.mem_append.mp hs with hs | hs
            · exact deps_bound hw2 tok s hs
            · exact lt_of_lt_of_le (hbound s (List.mem_cons_of_mem _ hs)) hext.len_le
          have hreach2 : ∀ s ∈ ((alookup tok
              (getOrCreateIff st tok c).2.FlowConditionDeps).getD []) ++ rest,
              ReachFC D root s := by
            intro s hs
            rcases List.mem_append.mp hs with hs | hs
            · exact ReachFC.step (hreach tok (List.mem_cons_self _ _)) (by rw [← hD2]; exact hs)
            · exact hreach s (List.mem_cons_of_mem _ hs)
          obtain ⟨w1, w2, w3, w4, w5, w6, w7⟩ :=
            IH (getOrCreateIff st tok c).2 _ _ _ hw2 hD2 hC2 hbound2 hreach2
          refine ⟨w1, hext.comp w2, hfc.compo w3,
            fun x hx => w4 x (subset_insertSet _ _ hx),
            fun t ht => w5 t (List.mem_cons_of_mem _ ht), ?_, ?_⟩
          · intro x hx
            rcases w6 x hx with hx2 | hx2
            · rcases mem_insertSet.mp hx2 with rfl | hx3
              · refine Or.inr ⟨tok, hreach tok (List.mem_cons_self _ _), ?_⟩
                have hitem : ItemOf C (getOrCreateIff st tok c).2
                    (getOrCreateIff st tok c).1 tok := by
                  unfold ItemOf
                  rw [← hC, hcc]
                  refine ⟨hlt, ?_⟩
                  intro σ hσ
                  exact hev σ (by rw [← hext.tv]; exact hσ)
                exact ItemOf_mono hw2 w2
                  (fun p hp => by
                    have := hw2.consOk p (by rw [hC2]; exact hp)
                    exact this)
                  hitem
              · exact Or.inl hx3
            · exact Or.inr hx2
          · intro t ht
            rcases w7 t ht with ht2 | ht2
            · rcases List.mem_cons.mp ht2 with rfl | ht3
              · exact Or.inr (hreach t (List.mem_cons_self _ _))
              · exact Or.inl ht3
            · exact Or.inr ht2

theorem depsD_bound {D : List (Nat × List Nat)} {n0 : Nat}
    (hDB : ∀ p ∈ D, ∀ d ∈ p.2, d < n0) (t : Nat) :
    ∀ d ∈ (alookup t D).getD [], d < n0 := by
  intro d hd
  cases hds : alookup t D with
  | none => rw [hds] at hd; cases hd
  | some ds =>
    rw [hds] at hd
    exact hDB _ (alookup_mem hds) d hd

theorem consC_bound {C : List (Nat × Nat)} {st : DataflowAnalysisContext}
    (hw : WF st) (hC : st.FlowConditionConstraints = C) :
    ∀ p ∈ C, p.1 < st.Vals.length ∧ p.2 < st.Vals.length := by
  intro p hp
  exact hw.consOk p (by rw [hC]; exact hp)

/-- Completeness of the transitive-constraint walk: with sufficient fuel every
token on the stack ends visited, the visited set is closed under dependencies,
and every visited token's item is in the final constraint set. -/
theorem walk_complete (D : List (Nat × List Nat)) (C : List (Nat × Nat)) (n0 : Nat)
    (hDB : ∀ p ∈ D, ∀ d ∈ p.2, d < n0) :
    ∀ (fuel : Nat) (st : DataflowAnalysisContext) (stack cs visited : List Nat),
    WF st → st.FlowConditionDeps = D → st.FlowConditionConstraints = C →
    n0 ≤ st.Vals.length →
    (∀ s ∈ stack, s < n0) → (∀ t ∈ visited, t < n0) →
    walkMeasureF D n0 stack visited ≤ fuel →
    (∀ t ∈ visited, ∀ d ∈ (alookup t D).getD [], d ∈ visited ∨ d ∈ stack) →
    (∀ t ∈ visited, ∃ x ∈ cs, ItemOf C st x t) →
    (∀ s ∈ stack,
      s ∈ (addTransitiveFlowConditionConstraints fuel st stack cs visited).2.2) ∧
    (∀ t ∈ visited,
      t ∈ (addTransitiveFlowConditionConstraints fuel st stack cs visited).2.2) ∧
    (∀ t ∈ (addTransitiveFlowConditionConstraints fuel st stack cs visited).2.2,
      (∀ d ∈ (alookup t D).getD [],
        d ∈ (addTransitiveFlowConditionConstraints fuel st stack cs visited).2.2) ∧
      ∃ x ∈ (addTransitiveFlowConditionConstraints fuel st stack cs visited).2.1,
        ItemOf C (addTransitiveFlowConditionConstraints fuel st stack cs visited).1 x t) := by
  intro fuel
  induction fuel with
  | zero =>
    intro st stack cs visited hw hD hC hn0 hstack hvis hfuel hinv hitems
    have hstacknil : stack = [] := by
      have : stack.length = 0 := by
        unfold walkMeasureF at hfuel
        omega
      exact List.length_eq_zero.mp this
    subst hstacknil
    refine ⟨fun s hs => absurd hs (List.not_mem_nil s), fun t ht => ht, ?_⟩
    intro t ht
    refine ⟨fun d hd => ?_, hitems t ht⟩
    rcases hinv t ht d hd with h | h
    · exact h
    · exact absurd h (List.not_mem_nil d)
  | succ fuel IH =>
    intro st stack cs visited hw hD hC hn0 hstack hvis hfuel hinv hitems
    cases stack with
    | nil =>
      refine ⟨fun s hs => absurd hs (List.not_mem_nil s), fun t ht => ht, ?_⟩
      intro t ht
      refine ⟨fun d hd => ?_, hitems t ht⟩
      rcases hinv t ht d hd with h | h
      · exact h
      · exact absurd h (List.not_mem_nil d)
    | cons tok rest =>
      have htokn0 : tok < n0 := hstack tok (List.mem_cons_self _ _)
      by_cases hv : tok ∈ visited
      · have hR : addTransitiveFlowConditionConstraints (fuel + 1) st (tok :: rest)
            cs visited = addTransitiveFlowConditionConstraints fuel st rest cs visited := by
          simp only [addTransitiveFlowConditionConstraints]
          rw [if_pos hv]
        rw [hR]
        have hfuel2 : walkMeasureF D n0 rest visited ≤ fuel := by
          have := @walkMeasureF_pop D n0 tok rest visited
          omega
        have hinv2 : ∀ t ∈ visited, ∀ d ∈ (alookup t D).getD [],
            d ∈ visited ∨ d ∈ rest := by
          intro t ht d hd
          rcases hinv t ht d hd with h | h
          · exact Or.inl h
          · rcases List.mem_cons.mp h with rfl | h2
            · exact Or.inl hv
            · exact Or.inr h2
        obtain ⟨g1, g2, g3⟩ := IH st rest cs visited hw hD hC hn0
          (fun s hs => hstack s (List.mem_cons_of_mem _ hs)) hvis hfuel2 hinv2 hitems
        refine ⟨?_, g2, g3⟩
        intro s hs
        rcases List.mem_cons.mp hs with rfl | hs2
        · exact g2 s hv
        · exact g1 s hs2
      · have hfuel2 : walkMeasureF D n0 (((alookup tok D).getD []) ++ rest)
            (tok :: visited) ≤ fuel := by
          have := @walkMeasureF_visit D n0 tok rest visited htokn0 hv
          omega
        have hstack2base : ∀ s ∈ ((alookup tok D).getD []) ++ rest, s < n0 := by
          intro s hs
          rcases List.mem_append.mp hs with hs | hs
          · exact depsD_bound hDB tok s hs
          · exact hstack s (List.mem_cons_of_mem _ hs)
        have hvis2 : ∀ t ∈ tok :: visited, t < n0 := by
          intro t ht
          rcases List.mem_cons.mp ht with rfl | ht2
          · exact htokn0
          · exact hvis t ht2
        have hinv2 : ∀ t ∈ tok :: visited, ∀ d ∈ (alookup t D).getD [],
            d ∈ tok :: visited ∨ d ∈ ((alookup tok D).getD []) ++ rest := by
          intro t ht d hd
          rcases List.mem_cons.mp ht with rfl | ht2
          · exact Or.inr (List.mem_append.mpr (Or.inl hd))
          · rcases hinv t ht2 d hd with h | h
            · exact Or.inl (List.mem_cons_of_mem _ h)
            · rcases List.mem_cons.mp h with rfl | h2
              · exact Or.inl (List.mem_cons_self _ _)
              · exact Or.inr (List.mem_append.mpr (Or.inr h2))
        cases hcc : alookup tok st.FlowConditionConstraints with
        | none =>
          have hR : addTransitiveFlowConditionConstraints (fuel + 1) st (tok :: rest)
              cs visited = addTransitiveFlowConditionConstraints fuel st
                (((alookup tok st.FlowConditionDeps).getD []) ++ rest)
                (insertSet tok cs) (tok :: visited) := by
            simp only [addTransitiveFlowConditionConstraints]
            rw [if_neg hv, hcc]
          rw [hR, hD]
          have hitems2 : ∀ t ∈ tok :: visited, ∃ x ∈ insertSet tok cs,
              ItemOf C st x t := by
            intro t ht
            rcases List.mem_cons.mp ht with rfl | ht2
            · refine ⟨t, self_mem_insertSet _ _, ?_⟩
              unfold ItemOf
              rw [← hC, hcc]
            · obtain ⟨x, hx, hxi⟩ := hitems t ht2
              exact ⟨x, subset_insertSet _ _ hx, hxi⟩
          obtain ⟨g1, g2, g3⟩ := IH st _ _ _ hw hD hC hn0 hstack2base hvis2 hfuel2
            hinv2 hitems2
          refine ⟨?_, fun t ht => g2 t (List.mem_cons_of_mem _ ht), g3⟩
          intro s hs
          rcases List.mem_cons.mp hs with rfl | hs2
          · exact g2 s (List.mem_cons_self _ _)
          · exact g1 s (List.mem_append.mpr (Or.inr hs2))
        | some c =>
          have htok : tok < st.Vals.length := lt_of_lt_of_le htokn0 hn0
          have hcl : c < st.Vals.length := cons_bound hw hcc
          obtain ⟨hw2, hext, hfc, hlt, hev⟩ := getOrCreateIff_spec hw htok hcl
          have hR : addTransitiveFlowConditionConstraints (fuel + 1) st (tok :: rest)
              cs visited = addTransitiveFlowConditionConstraints fuel
                (getOrCreateIff st tok c).2
                (((alookup tok (getOrCreateIff st tok c).2.FlowConditionDeps).getD [])
                  ++ rest)
                (insertSet (getOrCreateIff st tok c).1 cs) (tok :: visited) := by
            simp only [addTransitiveFlowConditionConstraints]
            rw [if_neg hv, hcc]
          rw [hR]
          have hD2 : (getOrCreateIff st tok c).2.FlowConditionDeps = D := hfc.deps.trans hD
          have hC2 : (getOrCreateIff st tok c).2.FlowConditionConstraints = C :=
            hfc.cons.trans hC
          rw [hD2]
          have hitems2 : ∀ t ∈ tok :: visited, ∃ x ∈ insertSet
              (getOrCreateIff st tok c).1 cs, ItemOf C (getOrCreateIff st tok c).2 x t := by
            intro t ht
            rcases List.mem_cons.mp ht with rfl | ht2
            · refine ⟨(getOrCreateIff st t c).1, self_mem_insertSet _ _, ?_⟩
              unfold ItemOf
              rw [← hC, hcc]
              refine ⟨hlt, ?_⟩
              intro σ hσ
              exact hev σ (by rw [← hext.tv]; exact hσ)
            · obtain ⟨x, hx, hxi⟩ := hitems t ht2
              exact ⟨x, subset_insertSet _ _ hx,
                ItemOf_mono hw hext (consC_bound hw hC) hxi⟩
          obtain ⟨g1, g2, g3⟩ := IH (getOrCreateIff st tok c).2 _ _ _ hw2 hD2 hC2
            (le_trans hn0 hext.len_le) hstack2base hvis2 hfuel2 hinv2 hitems2
          refine ⟨?_, fun t ht => g2 t (List.mem_cons_of_mem _ ht), g3⟩
          intro s hs
          rcases List.mem_cons.mp hs with rfl | hs2
          · exact g2 s (List.mem_cons_self _ _)
          · exact g1 s (List.mem_append.mpr (Or.inr hs2))

theorem reach_bound {D : List (Nat × List Nat)} {root n : Nat}
    (hDB : ∀ p ∈ D, ∀ d ∈ p.2, d < n) (hroot : root < n) :
    ∀ t, ReachFC D root t → t < n := by
  intro t ht
  induction ht with
  | refl => exact hroot
  | step _ hd ih => exact depsD_bound hDB _ _ hd

theorem reach_in_closed {D : List (Nat × List Nat)} {root : Nat} {V : List Nat}
    (hroot : root ∈ V) (hclosed : ∀ u ∈ V, ∀ d ∈ (alookup u D).getD [], d ∈ V) :
    ∀ t, ReachFC D root t → t ∈ V := by
  intro t ht
  induction ht with
  | refl => exact hroot
  | step _ hd ih => exact hclosed _ ih _ hd

theorem Pinned_frame {st st2 : DataflowAnalysisContext} {σ : Nat → Bool}
    (hext : OpExt st st2) : Pinned st2 σ ↔ Pinned st σ := by
  unfold Pinned
  rw [hext.tv, hext.fv]

theorem TokHolds_frame {st st2 : DataflowAnalysisContext} {σ : Nat → Bool} {t : Nat}
    (hw : WF st) (hext : OpExt st st2) (hfc : FCSame st st2)
    (ht : t < st.Vals.length) : (TokHolds st2 σ t ↔ TokHolds st σ t) := by
  unfold TokHolds
  rw [hfc.cons]
  cases hcc : alookup t st.FlowConditionConstraints with
  | none =>
    show (evalBV st2 σ t = true) ↔ (evalBV st σ t = true)
    rw [evalBV_frame hw.vwf hext.ext ht]
  | some c =>
    show (evalBV st2 σ t = evalBV st2 σ c) ↔ (evalBV st σ t = evalBV st σ c)
    rw [evalBV_frame hw.vwf hext.ext ht,
      evalBV_frame hw.vwf hext.ext (cons_bound hw hcc)]

theorem FCHolds_frame {st st2 : DataflowAnalysisContext} {σ : Nat → Bool} {root : Nat}
    (hw : WF st) (hext : OpExt st st2) (hfc : FCSame st st2)
    (hroot : root < st.Vals.length) : FCHolds st2 σ root ↔ FCHolds st σ root := by
  unfold FCHolds
  rw [hfc.deps]
  have hDB : ∀ p ∈ st.FlowConditionDeps, ∀ d ∈ p.2, d < st.Vals.length :=
    fun p hp => (hw.depsOk p hp).2
  constructor
  · intro h t hrt
    exact (TokHolds_frame hw hext hfc (reach_bound hDB hroot t hrt)).mp (h t hrt)
  · intro h t hrt
    exact (TokHolds_frame hw hext hfc (reach_bound hDB hroot t hrt)).mpr (h t hrt)

theorem list_sum_range (f : Nat → Nat) : ∀ n, ((List.range n).map f).sum = ∑ t ∈ Finset.range n, f t := by
  intro n
  induction n with
  | zero => simp
  | succ n ih =>
    rw [List.range_succ, Finset.sum_range_succ, List.map_append, List.sum_append, ih]
    simp

theorem walkFuel_ge {st : DataflowAnalysisContext} {tok : Nat} :
    walkMeasureF st.FlowConditionDeps st.Vals.length [tok] [] ≤ walkFuel st := by
  unfold walkFuel walkMeasureF depsLen
  rw [list_sum_range]
  simp

/-- The central characterization: running the deciding solver on the query
built from initial constraints `cs0` plus the transitive flow-condition
constraints of `tok` reports unsatisfiable exactly when, under every pinned
assignment satisfying the reachable iff-bindings, some initial constraint
fails. -/
theorem walkQueryChar (st1 : DataflowAnalysisContext) (tok : Nat) (cs0 : List Nat)
    (hw1 : WF st1) (htok : tok < st1.Vals.length)
    (hcs0 : ∀ c ∈ cs0, c < st1.Vals.length) :
    (isUnsatisfiable decidingSolver
      (addTransitiveFlowConditionConstraints (walkFuel st1) st1 [tok] cs0 []).1
      (addTransitiveFlowConditionConstraints (walkFuel st1) st1 [tok] cs0 []).2.1).1 = true
    ↔ ∀ σ : Nat → Bool, Pinned st1 σ → FCHolds st1 σ tok →
        ∃ c ∈ cs0, evalBV st1 σ c = false := by
  have hDB : ∀ p ∈ st1.FlowConditionDeps, ∀ d ∈ p.2, d < st1.Vals.length :=
    fun p hp => (hw1.depsOk p hp).2
  obtain ⟨s1, s2, s3, s4, _, s6, s7⟩ :=
    walk_sound st1.FlowConditionDeps st1.FlowConditionConstraints tok
      (walkFuel st1) st1 [tok] cs0 [] hw1 rfl rfl
      (fun s hs => by rcases List.mem_cons.mp hs with rfl | h; exact htok; cases h)
      (fun s hs => by
        rcases List.mem_cons.mp hs with rfl | h
        · exact ReachFC.refl
        · cases h)
  obtain ⟨c1, _, c3⟩ :=
    walk_complete st1.FlowConditionDeps st1.FlowConditionConstraints
      st1.Vals.length hDB (walkFuel st1) st1 [tok] cs0 [] hw1 rfl rfl (le_refl _)
      (fun s hs => by rcases List.mem_cons.mp hs with rfl | h; exact htok; cases h)
      (fun t ht => absurd ht (List.not_mem_nil t))
      walkFuel_ge
      (fun t ht => absurd ht (List.not_mem_nil t))
      (fun t ht => absurd ht (List.not_mem_nil t))
  obtain ⟨hwq, hextq, hfcq, hltq, hevq⟩ := getOrCreateNegation_spec s1 s1.flt
  have hfalse :
      getBoolLiteralValue (addTransitiveFlowConditionConstraints
        (walkFuel st1) st1 [tok] cs0 []).1 false =
      (addTransitiveFlowConditionConstraints (walkFuel st1) st1 [tok] cs0 []).1.FalseVal :=
    rfl
  rw [show (isUnsatisfiable decidingSolver
      (addTransitiveFlowConditionConstraints (walkFuel st1) st1 [tok] cs0 []).1
      (addTransitiveFlowConditionConstraints (walkFuel st1) st1 [tok] cs0 []).2.1).1 =
      (decidingSolver
        (getOrCreateNegation (addTransitiveFlowConditionConstraints
          (walkFuel st1) st1 [tok] cs0 []).1
          (addTransitiveFlowConditionConstraints (walkFuel st1) st1 [tok] cs0 []).1.FalseVal).2
        (insertSet
          (getOrCreateNegation (addTransitiveFlowConditionConstraints
            (walkFuel st1) st1 [tok] cs0 []).1
            (addTransitiveFlowConditionConstraints
              (walkFuel st1) st1 [tok] cs0 []).1.FalseVal).1
          (insertSet (addTransitiveFlowConditionConstraints
            (walkFuel st1) st1 [tok] cs0 []).1.TrueVal
            (addTransitiveFlowConditionConstraints
              (walkFuel st1) st1 [tok] cs0 []).2.1)) ==
        SolverResult.Unsatisfiable) from rfl]
  rw [decidingSolver_unsat_iff]
  set R := addTransitiveFlowConditionConstraints (walkFuel st1) st1 [tok] cs0 [] with hR
  set q := getOrCreateNegation R.1 R.1.FalseVal with hq
  have hext1q : OpExt st1 q.2 := s2.comp hextq
  have htv : q.2.TrueVal = st1.TrueVal := hext1q.tv
  have hfv : R.1.FalseVal = st1.FalseVal := s2.fv
  constructor
  · -- unsatisfiable => semantic entailment of the failure of some initial constraint
    intro hunsat σ hpin hfch
    by_contra hno
    push_neg at hno
    refine hunsat ⟨σ, ?_⟩
    intro x hx
    rcases mem_insertSet.mp hx with rfl | hx2
    · rw [hevq σ]
      rw [evalBV_frame s1.vwf hextq.ext s1.flt, hfv,
        evalBV_frame hw1.vwf s2.ext hw1.flt, evalBV_atom hw1.fAtom, hpin.2]
      rfl
    rcases mem_insertSet.mp hx2 with rfl | hx3
    · rw [evalBV_frame s1.vwf hextq.ext s1.tlt, s2.tv,
        evalBV_frame hw1.vwf s2.ext hw1.tlt, evalBV_atom hw1.tAtom]
      exact hpin.1
    · rcases s6 x hx3 with hx4 | ⟨t, hreacht, hitem⟩
      · rw [evalBV_frame s1.vwf hextq.ext (lt_of_lt_of_le (hcs0 x hx4) s2.len_le),
          evalBV_frame hw1.vwf s2.ext (hcs0 x hx4)]
        have := hno x hx4
        cases hval : evalBV st1 σ x with
        | false => exact absurd hval this
        | true => rfl
      · have htlt : t < st1.Vals.length := reach_bound hDB htok t hreacht
        have htokholds := hfch t hreacht
        unfold ItemOf at hitem
        unfold TokHolds at htokholds
        cases hcc : alookup t st1.FlowConditionConstraints with
        | none =>
          rw [hcc] at hitem htokholds
          subst hitem
          rw [evalBV_frame s1.vwf hextq.ext (lt_of_lt_of_le htlt s2.len_le),
            evalBV_frame hw1.vwf s2.ext htlt]
          exact htokholds
        | some c =>
          rw [hcc] at hitem htokholds
          obtain ⟨hxlt, hxev⟩ := hitem
          rw [evalBV_frame s1.vwf hextq.ext hxlt]
          rw [hxev σ (by
            rw [s2.tv]
            exact hpin.1)]
          rw [evalBV_frame hw1.vwf s2.ext htlt,
            evalBV_frame hw1.vwf s2.ext (cons_bound hw1 hcc), htokholds]
          simp
  · -- semantic entailment => unsatisfiable
    rintro hsem ⟨σ, hσ⟩
    have hTpin : σ st1.TrueVal = true := by
      have := hσ _ (mem_insertSet.mpr (Or.inr (mem_insertSet.mpr (Or.inl rfl))))
      rw [evalBV_frame s1.vwf hextq.ext s1.tlt, s2.tv,
        evalBV_frame hw1.vwf s2.ext hw1.tlt, evalBV_atom hw1.tAtom] at this
      exact this
    have hFpin : σ st1.FalseVal = false := by
      have := hσ _ (mem_insertSet.mpr (Or.inl rfl))
      rw [hevq σ, evalBV_frame s1.vwf hextq.ext s1.flt, hfv,
        evalBV_frame hw1.vwf s2.ext hw1.flt, evalBV_atom hw1.fAtom] at this
      cases hfb : σ st1.FalseVal
      · rfl
      · rw [hfb] at this; cases this
    have hfch : FCHolds st1 σ tok := by
      intro t hreacht
      have htlt : t < st1.Vals.length := reach_bound hDB htok t hreacht
      have htvis : t ∈ R.2.2 := by
        refine reach_in_closed (c1 tok (List.mem_cons_self _ _)) ?_ t hreacht
        intro u hu d hd
        exact (c3 u hu).1 d hd
      obtain ⟨x, hxcs, hitem⟩ := (c3 t htvis).2
      have hxsat := hσ x (mem_insertSet.mpr (Or.inr (mem_insertSet.mpr (Or.inr hxcs))))
      unfold ItemOf at hitem
      unfold TokHolds
      cases hcc : alookup t st1.FlowConditionConstraints with
      | none =>
        rw [hcc] at hitem
        subst hitem
        rw [evalBV_frame s1.vwf hextq.ext (lt_of_lt_of_le htlt s2.len_le),
          evalBV_frame hw1.vwf s2.ext htlt] at hxsat
        show evalBV st1 σ x = true
        exact hxsat
      | some c =>
        rw [hcc] at hitem
        obtain ⟨hxlt, hxev⟩ := hitem
        rw [evalBV_frame s1.vwf hextq.ext hxlt, hxev σ (by rw [s2.tv]; exact hTpin),
          evalBV_frame hw1.vwf s2.ext htlt,
          evalBV_frame hw1.vwf s2.ext (cons_bound hw1 hcc)] at hxsat
        show evalBV st1 σ t = evalBV st1 σ c
        exact eq_of_beq hxsat
    obtain ⟨c0, hc0, hc0f⟩ := hsem σ ⟨hTpin, hFpin⟩ hfch
    have := hσ c0 (mem_insertSet.mpr (Or.inr (mem_insertSet.mpr (Or.inr (s4 c0 hc0)))))
    rw [evalBV_frame s1.vwf hextq.ext (lt_of_lt_of_le (hcs0 c0 hc0) s2.len_le),
      evalBV_frame hw1.vwf s2.ext (hcs0 c0 hc0)] at this
    rw [this] at hc0f
    cases hc0f

/-- Characterization of `flowConditionImplies` under the deciding solver: the
query answers true exactly on semantic entailment. -/
theorem flowConditionImplies_char (st : DataflowAnalysisContext) (tok v : Nat)
    (hw : WF st) (htok : tok < st.Vals.length) (hv : v < st.Vals.length) :
    (flowConditionImplies decidingSolver st tok v).1 = true ↔ SemImplies st tok v := by
  obtain ⟨hw1, hext, hfc, hlt, hev⟩ := getOrCreateNegation_spec hw hv
  have hiff := walkQueryChar (getOrCreateNegation st v).2 tok
    (insertSet (getOrCreateNegation st v).1 (insertSet tok [])) hw1
    (lt_of_lt_of_le htok hext.len_le)
    (fun c hc => by
      rcases mem_insertSet.mp hc with rfl | hc2
      · exact hlt
      · rcases mem_insertSet.mp hc2 with rfl | hc3
        · exact lt_of_lt_of_le htok hext.len_le
        · cases hc3)
  rw [show (flowConditionImplies decidingSolver st tok v).1 =
    (isUnsatisfiable decidingSolver
      (addTransitiveFlowConditionConstraints (walkFuel (getOrCreateNegation st v).2)
        (getOrCreateNegation st v).2 [tok]
        (insertSet (getOrCreateNegation st v).1 (insertSet tok [])) []).1
      (addTransitiveFlowConditionConstraints (walkFuel (getOrCreateNegation st v).2)
        (getOrCreateNegation st v).2 [tok]
        (insertSet (getOrCreateNegation st v).1 (insertSet tok [])) []).2.1).1 from rfl]
  rw [hiff]
  constructor
  · intro h σ hpin hfch htoktrue
    obtain ⟨c, hc, hcf⟩ := h σ ((Pinned_frame hext).mpr hpin)
      ((FCHolds_frame hw hext hfc htok).mpr hfch)
    rcases mem_insertSet.mp hc with rfl | hc2
    · rw [hev σ, evalBV_frame hw.vwf hext.ext hv] at hcf
      cases hvb : evalBV st σ v
      · rw [hvb] at hcf; cases hcf
      · rfl
    · rcases mem_insertSet.mp hc2 with rfl | hc3
      · rw [evalBV_frame hw.vwf hext.ext htok, htoktrue] at hcf
        cases hcf
      · cases hc3
  · intro h σ hpin1 hfch1
    have hpin := (Pinned_frame hext).mp hpin1
    have hfch := (FCHolds_frame hw hext hfc htok).mp hfch1
    cases htokb : evalBV st σ tok with
    | false =>
      refine ⟨tok, mem_insertSet.mpr (Or.inr (mem_insertSet.mpr (Or.inl rfl))), ?_⟩
      rw [evalBV_frame hw.vwf hext.ext htok]
      exact htokb
    | true =>
      have hvtrue := h σ hpin hfch htokb
      refine ⟨(getOrCreateNegation st v).1, mem_insertSet.mpr (Or.inl rfl), ?_⟩
      rw [hev σ, evalBV_frame hw.vwf hext.ext hv, hvtrue]
      rfl

/-- Characterization of `flowConditionIsTautology` under the deciding solver. -/
theorem flowConditionIsTautology_char (st : DataflowAnalysisContext) (tok : Nat)
    (hw : WF st) (htok : tok < st.Vals.length) :
    (flowConditionIsTautology decidingSolver st tok).1 = true ↔ SemTautology st tok := by
  obtain ⟨hw1, hext, hfc, hlt, hev⟩ := getOrCreateNegation_spec hw htok
  have hiff := walkQueryChar (getOrCreateNegation st tok).2 tok
    (insertSet (getOrCreateNegation st tok).1 []) hw1
    (lt_of_lt_of_le htok hext.len_le)
    (fun c hc => by
      rcases mem_insertSet.mp hc with rfl | hc2
      · exact hlt
      · cases hc2)
  rw [show (flowConditionIsTautology decidingSolver st tok).1 =
    (isUnsatisfiable decidingSolver
      (addTransitiveFlowConditionConstraints (walkFuel (getOrCreateNegation st tok).2)
        (getOrCreateNegation st tok).2 [tok]
        (insertSet (getOrCreateNegation st tok).1 []) []).1
      (addTransitiveFlowConditionConstraints (walkFuel (getOrCreateNegation st tok).2)
        (getOrCreateNegation st tok).2 [tok]
        (insertSet (getOrCreateNegation st tok).1 []) []).2.1).1 from rfl]
  rw [hiff]
  constructor
  · intro h σ hpin hfch
    obtain ⟨c, hc, hcf⟩ := h σ ((Pinned_frame hext).mpr hpin)
      ((FCHolds_frame hw hext hfc htok).mpr hfch)
    rcases mem_insertSet.mp hc with rfl | hc2
    · rw [hev σ, evalBV_frame hw.vwf hext.ext htok] at hcf
      cases htb : evalBV st σ tok
      · rw [htb] at hcf; cases hcf
      · rfl
    · cases hc2
  · intro h σ hpin1 hfch1
    have hpin := (Pinned_frame hext).mp hpin1
    have hfch := (FCHolds_frame hw hext hfc htok).mp hfch1
    refine ⟨(getOrCreateNegation st tok).1, mem_insertSet.mpr (Or.inl rfl), ?_⟩
    rw [hev σ, evalBV_frame hw.vwf hext.ext htok, h σ hpin hfch]
    rfl

theorem TokHolds_some {st : DataflowAnalysisContext} {σ : Nat → Bool} {t c : Nat}
    (h : alookup t st.FlowConditionConstraints = some c) :
    TokHolds st σ t ↔ (evalBV st σ t = evalBV st σ c) := by
  unfold TokHolds
  rw [h]

theorem TokHolds_none {st : DataflowAnalysisContext} {σ : Nat → Bool} {t : Nat}
    (h : alookup t st.FlowConditionConstraints = none) :
    TokHolds st σ t ↔ (evalBV st σ t = true) := by
  unfold TokHolds
  rw [h]

theorem evalBV_eq_of_vals {st st2 : DataflowAnalysisContext} {σ : Nat → Bool} {i : Nat}
    (h : st2.Vals = st.Vals) : evalBV st2 σ i = evalBV st σ i := by
  unfold evalBV
  rw [h]

theorem fresh_no_cons {st : DataflowAnalysisContext} (hw : WF st) :
    alookup st.Vals.length st.FlowConditionConstraints = none :=
  alookup_eq_none (fun p hp => Nat.ne_of_lt (hw.consOk p hp).1)

theorem fresh_no_deps {st : DataflowAnalysisContext} (hw : WF st) :
    alookup st.Vals.length st.FlowConditionDeps = none :=
  alookup_eq_none (fun p hp => Nat.ne_of_lt (hw.depsOk p hp).1)

theorem createAtomicBoolValue_spec {st : DataflowAnalysisContext} (hw : WF st) :
    WF (createAtomicBoolValue st).2 ∧ OpExt st (createAtomicBoolValue st).2 ∧
    FCSame st (createAtomicBoolValue st).2 ∧
    (createAtomicBoolValue st).1 = st.Vals.length ∧
    (createAtomicBoolValue st).2.Vals.length = st.Vals.length + 1 ∧
    nth (createAtomicBoolValue st).2.Vals (createAtomicBoolValue st).1 =
      some BoolVal.AtomicBool := by
  have hop : opndsLtB BoolVal.AtomicBool st.Vals.length = true := rfl
  have hv : ValsWF (st.Vals ++ [BoolVal.AtomicBool]) := ValsWF_append hw.vwf hop
  unfold createAtomicBoolValue
  dsimp only
  refine ⟨?_, ⟨⟨[BoolVal.AtomicBool], rfl⟩, rfl, rfl⟩, ⟨rfl, rfl⟩, rfl, by simp, ?_⟩
  · refine ⟨hv, ?_, ?_, ?_, ?_, ?_, hw.tne, ?_, ?_⟩
    · intro p hp; exact conjEntryOk_append (hw.conjOk p hp)
    · intro p hp; exact disjEntryOk_append (hw.disjOk p hp)
    · intro p hp; exact negEntryOk_append (hw.negOk p hp)
    · rw [nth_append_left _ hw.tlt]; exact hw.tAtom
    · rw [nth_append_left _ hw.flt]; exact hw.fAtom
    · intro p hp
      have := hw.depsOk p hp
      constructor
      · simp; omega
      · intro d hd; have := this.2 d hd; simp; omega
    · intro p hp
      have := hw.consOk p hp
      constructor
      · simp; omega
      · simp; omega
  · exact nth_append_self _ _

theorem addFlowConditionConstraint_spec {st : DataflowAnalysisContext} {tok X : Nat}
    (hw : WF st) (htok : tok < st.Vals.length) (hX : X < st.Vals.length) :
    WF (addFlowConditionConstraint st tok X) ∧
    OpExt st (addFlowConditionConstraint st tok X) ∧
    (addFlowConditionConstraint st tok X).FlowConditionDeps = st.FlowConditionDeps ∧
    (∀ k, k ≠ tok →
      alookup k (addFlowConditionConstraint st tok X).FlowConditionConstraints =
        alookup k st.FlowConditionConstraints) ∧
    ∃ e, alookup tok (addFlowConditionConstraint st tok X).FlowConditionConstraints
        = some e ∧
      ∀ σ : Nat → Bool,
        evalBV (addFlowConditionConstraint st tok X) σ e = true →
        evalBV (addFlowConditionConstraint st tok X) σ X = true := by
  unfold addFlowConditionConstraint
  cases hcc : alookup tok st.FlowConditionConstraints with
  | none =>
    refine ⟨?_, ⟨⟨[], by simp⟩, rfl, rfl⟩, rfl, ?_, X, ?_, ?_⟩
    · refine ⟨hw.vwf, hw.conjOk, hw.disjOk, hw.negOk, hw.tAtom, hw.fAtom, hw.tne,
        hw.depsOk, ?_⟩
      intro p hp
      rcases List.mem_cons.mp hp with rfl | hp2
      · exact ⟨htok, hX⟩
      · exact hw.consOk p hp2
    · intro k hk
      rw [alookup_cons, if_neg hk]
    · rw [alookup_cons, if_pos rfl]
    · intro σ h; exact h
  | some old =>
    have hold : old < st.Vals.length := cons_bound hw hcc
    obtain ⟨hw2, hext, hfc, hlt, hev⟩ := getOrCreateConjunction_spec hw hold hX
    have hvals : ({ (getOrCreateConjunction st old X).2 with
        FlowConditionConstraints :=
          (tok, (getOrCreateConjunction st old X).1) ::
            (getOrCreateConjunction st old X).2.FlowConditionConstraints } :
        DataflowAnalysisContext).Vals = (getOrCreateConjunction st old X).2.Vals := rfl
    refine ⟨?_, ⟨?_, hext.tv, hext.fv⟩, hfc.deps, ?_, (getOrCreateConjunction st old X).1,
      ?_, ?_⟩
    · refine ⟨hw2.vwf, hw2.conjOk, hw2.disjOk, hw2.negOk, hw2.tAtom, hw2.fAtom, hw2.tne,
        hw2.depsOk, ?_⟩
      intro p hp
      rcases List.mem_cons.mp hp with rfl | hp2
      · exact ⟨lt_of_lt_of_le htok hext.len_le, hlt⟩
      · exact hw2.consOk p hp2
    · exact hext.ext
    · intro k hk
      rw [show ({ (getOrCreateConjunction st old X).2 with
          FlowConditionConstraints :=
            (tok, (getOrCreateConjunction st old X).1) ::
              (getOrCreateConjunction st old X).2.FlowConditionConstraints } :
          DataflowAnalysisContext).FlowConditionConstraints =
        (tok, (getOrCreateConjunction st old X).1) ::
          (getOrCreateConjunction st old X).2.FlowConditionConstraints from rfl]
      rw [alookup_cons, if_neg hk, hfc.cons]
    · rw [show ({ (getOrCreateConjunction st old X).2 with
          FlowConditionConstraints :=
            (tok, (getOrCreateConjunction st old X).1) ::
              (getOrCreateConjunction st old X).2.FlowConditionConstraints } :
          DataflowAnalysisContext).FlowConditionConstraints =
        (tok, (getOrCreateConjunction st old X).1) ::
          (getOrCreateConjunction st old X).2.FlowConditionConstraints from rfl]
      rw [alookup_cons, if_pos rfl]
    · intro σ h
      rw [evalBV_eq_of_vals hvals] at h ⊢
      rw [hev σ] at h
      exact (Bool.and_eq_true _ _).mp h |>.2

/-- C1: if the solver adapter returns `TimedOut` on the satisfiability query
underlying `flowConditionImplies` (or `flowConditionIsTautology`), the query
returns `false` — a timed-out outcome is never reported as an established
entailment or tautology. Both functions are total, so no crash is possible. -/
theorem claim_C1_timeout_is_false (sol : SolverFn) (st : DataflowAnalysisContext)
    (tok v : Nat) :
    (impliesQueryVerdict sol st tok v = SolverResult.TimedOut →
      (flowConditionImplies sol st tok v).1 = false) ∧
    (tautologyQueryVerdict sol st tok = SolverResult.TimedOut →
      (flowConditionIsTautology sol st tok).1 = false) := by
  constructor
  · intro h
    show (impliesQueryVerdict sol st tok v == SolverResult.Unsatisfiable) = false
    rw [h]
    rfl
  · intro h
    show (tautologyQueryVerdict sol st tok == SolverResult.Unsatisfiable) = false
    rw [h]
    rfl

/-- C1 witness: a solver that always times out yields `false` on both queries
over the freshly constructed context. -/
theorem claim_C1_timeout_is_false_witness :
    impliesQueryVerdict (fun _ _ => SolverResult.TimedOut)
      mkDataflowAnalysisContext 0 0 = SolverResult.TimedOut ∧
    (flowConditionImplies (fun _ _ => SolverResult.TimedOut)
      mkDataflowAnalysisContext 0 0).1 = false ∧
    tautologyQueryVerdict (fun _ _ => SolverResult.TimedOut)
      mkDataflowAnalysisContext 0 = SolverResult.TimedOut ∧
    (flowConditionIsTautology (fun _ _ => SolverResult.TimedOut)
      mkDataflowAnalysisContext 0).1 = false :=
  ⟨rfl, (claim_C1_timeout_is_false _ _ 0 0).1 rfl, rfl,
    (claim_C1_timeout_is_false _ _ 0 0).2 rfl⟩

/-- C3: after `addFlowConditionConstraint(T, X)`, `flowConditionImplies(T, X)`
returns true under a solver that decides the underlying unsatisfiability
query: the transitive constraint set of `T` entails `X`. -/
theorem claim_C3_constraint_entailment (st : DataflowAnalysisContext) (tok X : Nat)
    (hwb : WFb st = true) (htok : tok < st.Vals.length) (hX : X < st.Vals.length) :
    (flowConditionImplies decidingSolver (addFlowConditionConstraint st tok X) tok X).1
      = true := by
  have hw := WF_of_WFb hwb
  obtain ⟨hw2, hext, hdeps, hother, e, he, heval⟩ :=
    addFlowConditionConstraint_spec hw htok hX
  rw [flowConditionImplies_char _ _ _ hw2 (lt_of_lt_of_le htok hext.len_le)
    (lt_of_lt_of_le hX hext.len_le)]
  intro σ hpin hfch htk
  have h1 := (TokHolds_some he).mp (hfch tok ReachFC.refl)
  rw [htk] at h1
  exact heval σ h1.symm

/-- C3 witness: in a context with a token (value 2) and an atom (value 3),
adding the atom as constraint makes the implication hold. -/
theorem claim_C3_constraint_entailment_witness :
    WFb (createAtomicBoolValue (makeFlowConditionToken mkDataflowAnalysisContext).2).2
      = true ∧
    (flowConditionImplies decidingSolver
      (addFlowConditionConstraint
        (createAtomicBoolValue (makeFlowConditionToken mkDataflowAnalysisContext).2).2
        2 3) 2 3).1 = true :=
  ⟨by decide, claim_C3_constraint_entailment _ 2 3 (by decide) (by decide) (by decide)⟩

/-- C9: a token freshly created by `makeFlowConditionToken`, with no
constraints added, satisfies `flowConditionIsTautology` (under the deciding
solver): an empty transitive constraint set is trivially a tautology. -/
theorem claim_C9_fresh_token_tautology (st : DataflowAnalysisContext)
    (hwb : WFb st = true) :
    (flowConditionIsTautology decidingSolver (makeFlowConditionToken st).2
      (makeFlowConditionToken st).1).1 = true := by
  have hw := WF_of_WFb hwb
  obtain ⟨hw2, hext, hfc, htokeq, hlen, hatom⟩ := createAtomicBoolValue_spec hw
  unfold makeFlowConditionToken
  rw [flowConditionIsTautology_char _ _ hw2 (by rw [htokeq, hlen]; omega)]
  intro σ hpin hfch
  have h1 := hfch _ ReachFC.refl
  rw [TokHolds_none (by
    rw [hfc.cons, htokeq]
    exact fresh_no_cons hw)] at h1
  exact h1

/-- C9 witness: the fresh token of the just-constructed context is a
tautology. -/
theorem claim_C9_fresh_token_tautology_witness :
    WFb mkDataflowAnalysisContext = true ∧
    (flowConditionIsTautology decidingSolver
      (makeFlowConditionToken mkDataflowAnalysisContext).2
      (makeFlowConditionToken mkDataflowAnalysisContext).1).1 = true :=
  ⟨by decide, claim_C9_fresh_token_tautology mkDataflowAnalysisContext (by decide)⟩

theorem getOrCreateConjunction_self (st : DataflowAnalysisContext) (a : Nat) :
    getOrCreateConjunction st a a = (a, st) := by
  unfold getOrCreateConjunction
  rw [if_pos rfl]

theorem getOrCreateDisjunction_self (st : DataflowAnalysisContext) (a : Nat) :
    getOrCreateDisjunction st a a = (a, st) := by
  unfold getOrCreateDisjunction
  rw [if_pos rfl]

theorem getOrCreateConjunction_repeat (st : DataflowAnalysisContext) (a b c d : Nat)
    (h : (c = a ∧ d = b) ∨ (c = b ∧ d = a)) :
    getOrCreateConjunction (getOrCreateConjunction st a b).2 c d =
      getOrCreateConjunction st a b := by
  by_cases hab : a = b
  · subst hab
    obtain ⟨rfl, rfl⟩ : c = a ∧ d = a := by
      rcases h with ⟨rfl, rfl⟩ | ⟨rfl, rfl⟩ <;> exact ⟨rfl, rfl⟩
    rw [getOrCreateConjunction_self, getOrCreateConjunction_self]
  · have hcd : ¬c = d := by
      rcases h with ⟨rfl, rfl⟩ | ⟨rfl, rfl⟩
      · exact hab
      · exact fun hh => hab hh.symm
    have hkey : makeCanonicalBoolValuePair c d = makeCanonicalBoolValuePair a b := by
      rcases h with ⟨rfl, rfl⟩ | ⟨rfl, rfl⟩
      · rfl
      · exact makeCanonicalBoolValuePair_comm _ _
    cases hfind : alookup (makeCanonicalBoolValuePair a b) st.ConjunctionVals with
    | some v =>
      have h1 : getOrCreateConjunction st a b = (v, st) := by
        unfold getOrCreateConjunction
        rw [if_neg hab, hfind]
      rw [h1]
      unfold getOrCreateConjunction
      rw [if_neg hcd, hkey, hfind]
    | none =>
      have h1 : getOrCreateConjunction st a b =
          (st.Vals.length,
            { st with
              Vals := st.Vals ++ [BoolVal.Conjunction a b],
              ConjunctionVals :=
                (makeCanonicalBoolValuePair a b, st.Vals.length) ::
                  st.ConjunctionVals }) := by
        unfold getOrCreateConjunction
        rw [if_neg hab, hfind]
      rw [h1]
      unfold getOrCreateConjunction
      rw [if_neg hcd, hkey]
      dsimp only
      rw [alookup_cons, if_pos rfl]

theorem getOrCreateDisjunction_repeat (st : DataflowAnalysisContext) (a b c d : Nat)
    (h : (c = a ∧ d = b) ∨ (c = b ∧ d = a)) :
    getOrCreateDisjunction (getOrCreateDisjunction st a b).2 c d =
      getOrCreateDisjunction st a b := by
  by_cases hab : a = b
  · subst hab
    obtain ⟨rfl, rfl⟩ : c = a ∧ d = a := by
      rcases h with ⟨rfl, rfl⟩ | ⟨rfl, rfl⟩ <;> exact ⟨rfl, rfl⟩
    rw [getOrCreateDisjunction_self, getOrCreateDisjunction_self]
  · have hcd : ¬c = d := by
      rcases h with ⟨rfl, rfl⟩ | ⟨rfl, rfl⟩
      · exact hab
      · exact fun hh => hab hh.symm
    have hkey : makeCanonicalBoolValuePair c d = makeCanonicalBoolValuePair a b := by
      rcases h with ⟨rfl, rfl⟩ | ⟨rfl, rfl⟩
      · rfl
      · exact makeCanonicalBoolValuePair_comm _ _
    cases hfind : alookup (makeCanonicalBoolValuePair a b) st.DisjunctionVals with
    | some v =>
      have h1 : getOrCreateDisjunction st a b = (v, st) := by
        unfold getOrCreateDisjunction
        rw [if_neg hab, hfind]
      rw [h1]
      unfold getOrCreateDisjunction
      rw [if_neg hcd, hkey, hfind]
    | none =>
      have h1 : getOrCreateDisjunction st a b =
          (st.Vals.length,
            { st with
              Vals := st.Vals ++ [BoolVal.Disjunction a b],
              DisjunctionVals :=
                (makeCanonicalBoolValuePair a b, st.Vals.length) ::
                  st.DisjunctionVals }) := by
        unfold getOrCreateDisjunction
        rw [if_neg hab, hfind]
      rw [h1]
      unfold getOrCreateDisjunction
      rw [if_neg hcd, hkey]
      dsimp only
      rw [alookup_cons, if_pos rfl]

/-- C7: `getOrCreateConjunction(A, A)` returns `A` itself without touching the
context, likewise for disjunction; a second call with the same operands — in
either order — returns the identical previously constructed object and leaves
the context unchanged (no new allocation). -/
theorem claim_C7_hash_consing (st : DataflowAnalysisContext) (a b : Nat) :
    getOrCreateConjunction st a a = (a, st) ∧
    getOrCreateDisjunction st a a = (a, st) ∧
    getOrCreateConjunction (getOrCreateConjunction st a b).2 b a =
      getOrCreateConjunction st a b ∧
    getOrCreateConjunction (getOrCreateConjunction st a b).2 a b =
      getOrCreateConjunction st a b ∧
    getOrCreateDisjunction (getOrCreateDisjunction st a b).2 b a =
      getOrCreateDisjunction st a b ∧
    getOrCreateDisjunction (getOrCreateDisjunction st a b).2 a b =
      getOrCreateDisjunction st a b :=
  ⟨getOrCreateConjunction_self st a, getOrCreateDisjunction_self st a,
    getOrCreateConjunction_repeat st a b b a (Or.inr ⟨rfl, rfl⟩),
    getOrCreateConjunction_repeat st a b a b (Or.inl ⟨rfl, rfl⟩),
    getOrCreateDisjunction_repeat st a b b a (Or.inr ⟨rfl, rfl⟩),
    getOrCreateDisjunction_repeat st a b a b (Or.inl ⟨rfl, rfl⟩)⟩

/-- C6: `equivalentBoolValues` is an identity check only: it takes no solver
and consults no flow condition. In the context holding atom `2` and its double
negation `4`, the two are true under exactly the same assignments (they are
solver-equivalent, with no path constraints at all), yet they are reported as
non-equivalent; a value is equivalent to itself. -/
theorem claim_C6_equivalence_is_identity :
    (∀ σ : Nat → Bool,
      evalBV (getOrCreateNegation (getOrCreateNegation
        (createAtomicBoolValue mkDataflowAnalysisContext).2 2).2 3).2 σ 4 =
      evalBV (getOrCreateNegation (getOrCreateNegation
        (createAtomicBoolValue mkDataflowAnalysisContext).2 2).2 3).2 σ 2) ∧
    equivalentBoolValues (getOrCreateNegation (getOrCreateNegation
      (createAtomicBoolValue mkDataflowAnalysisContext).2 2).2 3).2 2 4 = false ∧
    equivalentBoolValues (getOrCreateNegation (getOrCreateNegation
      (createAtomicBoolValue mkDataflowAnalysisContext).2 2).2 3).2 2 2 = true := by
  refine ⟨?_, by decide, by decide⟩
  intro σ
  show (!(!(σ 2))) = σ 2
  exact Bool.not_not (σ 2)

/-- C10: both `setStorageLocation` and `getStorageLocation` apply
`ignoreCFGOmittedNodes` to the expression key, so after binding `E` the
location is found through any expression with the same canonical form. -/
theorem claim_C10_expr_key_normalization (st : DataflowAnalysisContext)
    (e e2 : CExpr) (loc : Nat)
    (hunbound : alookup (ignoreCFGOmittedNodes e) st.ExprToLoc = none)
    (hcanon : ignoreCFGOmittedNodes e2 = ignoreCFGOmittedNodes e) :
    getStorageLocation (setStorageLocation st e loc) e2 = some loc := by
  unfold getStorageLocation setStorageLocation
  dsimp only
  rw [hcanon, alookup_cons, if_pos rfl]

/-- C10 witness: binding a parenthesized expression and reading it back
through an extra implicit-cleanups wrapper. -/
theorem claim_C10_expr_key_normalization_witness :
    alookup (ignoreCFGOmittedNodes (CExpr.paren (CExpr.leaf 0)))
      mkDataflowAnalysisContext.ExprToLoc = none ∧
    ignoreCFGOmittedNodes (CExpr.cleanups (CExpr.paren (CExpr.leaf 0))) =
      ignoreCFGOmittedNodes (CExpr.paren (CExpr.leaf 0)) ∧
    getStorageLocation
      (setStorageLocation mkDataflowAnalysisContext (CExpr.paren (CExpr.leaf 0)) 7)
      (CExpr.cleanups (CExpr.paren (CExpr.leaf 0))) = some 7 :=
  ⟨rfl, rfl,
    claim_C10_expr_key_normalization mkDataflowAnalysisContext _ _ 7 rfl rfl⟩

theorem tokSet_mem : ∀ {D : List (Nat × List Nat)} {p : Nat × List Nat},
    p ∈ D → ∀ {d : Nat}, d ∈ p.2 → d ∈ tokSet D := by
  intro D
  induction D with
  | nil => intro p hp; cases hp
  | cons q t ih =>
    intro p hp d hd
    simp only [tokSet]
    rcases List.mem_cons.mp hp with rfl | hp2
    · exact List.mem_append.mpr (Or.inl hd)
    · exact List.mem_append.mpr (Or.inr (ih hp2 hd))

theorem tokSet_bound : ∀ {D : List (Nat × List Nat)} {n : Nat},
    (∀ p ∈ D, ∀ d ∈ p.2, d < n) → ∀ x ∈ tokSet D, x < n := by
  intro D
  induction D with
  | nil => intro n _ x hx; cases hx
  | cons q t ih =>
    intro n hD x hx
    simp only [tokSet] at hx
    rcases List.mem_append.mp hx with hx | hx
    · exact hD q (List.mem_cons_self _ _) x hx
    · exact ih (fun p hp => hD p (List.mem_cons_of_mem _ hp)) x hx

theorem occursV_stable {vals : List BoolVal} {x : Nat} (hw : ValsWF vals) :
    ∀ v f g, v < f → v < g → occursV vals x f v = occursV vals x g v := by
  intro v
  induction v using Nat.strong_induction_on with
  | _ v IH =>
    intro f g hf hg
    obtain ⟨f', rfl⟩ : ∃ f', f = f' + 1 := ⟨f - 1, by omega⟩
    obtain ⟨g', rfl⟩ : ∃ g', g = g' + 1 := ⟨g - 1, by omega⟩
    simp only [occursV]
    cases hb : nth vals v with
    | none => rfl
    | some b =>
      cases b with
      | AtomicBool => rfl
      | Conjunction l r =>
        have hop := opndsLtB_conj (hw v _ hb)
        show ((v == x) || (occursV vals x f' l || occursV vals x f' r)) =
          ((v == x) || (occursV vals x g' l || occursV vals x g' r))
        rw [IH l hop.1 f' g' (by omega) (by omega),
          IH r hop.2 f' g' (by omega) (by omega)]
      | Disjunction l r =>
        have hop := opndsLtB_disj (hw v _ hb)
        show ((v == x) || (occursV vals x f' l || occursV vals x f' r)) =
          ((v == x) || (occursV vals x g' l || occursV vals x g' r))
        rw [IH l hop.1 f' g' (by omega) (by omega),
          IH r hop.2 f' g' (by omega) (by omega)]
      | Negation s =>
        have hop := opndsLtB_neg (hw v _ hb)
        show ((v == x) || occursV vals x f' s) = ((v == x) || occursV vals x g' s)
        rw [IH s hop f' g' (by omega) (by omega)]

theorem occursB_self {st : DataflowAnalysisContext} (v : Nat) :
    occursB st v v = true := by
  unfold occursB
  simp only [occursV]
  cases hb : nth st.Vals v <;> simp

theorem occursB_neg_opnd {st : DataflowAnalysisContext} {v s x : Nat}
    (hw : ValsWF st.Vals) (h : nth st.Vals v = some (BoolVal.Negation s))
    (ho : occursB st s x = true) : occursB st v x = true := by
  have hop := opndsLtB_neg (hw v _ h)
  unfold occursB
  simp only [occursV, h]
  have hs : occursV st.Vals x v s = true := by
    rw [occursV_stable hw s v (s + 1) (by omega) (by omega)]
    exact ho
  simp [hs]

theorem occursB_conj_opnd {st : DataflowAnalysisContext} {v l r x : Nat}
    (hw : ValsWF st.Vals) (h : nth st.Vals v = some (BoolVal.Conjunction l r))
    (ho : occursB st l x = true ∨ occursB st r x = true) :
    occursB st v x = true := by
  have hop := opndsLtB_conj (hw v _ h)
  unfold occursB
  simp only [occursV, h]
  rcases ho with ho | ho
  · have hs : occursV st.Vals x v l = true := by
      rw [occursV_stable hw l v (l + 1) (by omega) (by omega)]
      exact ho
    simp [hs]
  · have hs : occursV st.Vals x v r = true := by
      rw [occursV_stable hw r v (r + 1) (by omega) (by omega)]
      exact ho
    simp [hs]

theorem occursB_disj_opnd {st : DataflowAnalysisContext} {v l r x : Nat}
    (hw : ValsWF st.Vals) (h : nth st.Vals v = some (BoolVal.Disjunction l r))
    (ho : occursB st l x = true ∨ occursB st r x = true) :
    occursB st v x = true := by
  have hop := opndsLtB_disj (hw v _ h)
  unfold occursB
  simp only [occursV, h]
  rcases ho with ho | ho
  · have hs : occursV st.Vals x v l = true := by
      rw [occursV_stable hw l v (l + 1) (by omega) (by omega)]
      exact ho
    simp [hs]
  · have hs : occursV st.Vals x v r = true := by
      rw [occursV_stable hw r v (r + 1) (by omega) (by omega)]
      exact ho
    simp [hs]

theorem depsDecr_lt {st : DataflowAnalysisContext} (hdec : DepsDecreasing st)
    {v y : Nat} (hy : y ∈ (alookup v st.FlowConditionDeps).getD []) : y < v := by
  cases halo : alookup v st.FlowConditionDeps with
  | none => rw [halo] at hy; cases hy
  | some ds =>
    rw [halo] at hy
    exact hdec (v, ds) (alookup_mem halo) y hy

theorem specEvalV_stable {st : DataflowAnalysisContext} {subs : List (Nat × Nat)}
    {σ : Nat → Bool} (hw : WF st) (hdec : DepsDecreasing st) (hsc : ScopedDeps st) :
    ∀ n u v G1 G2, u * (st.Vals.length + 1) + v ≤ n →
      v < st.Vals.length →
      (∀ x ∈ tokSet st.FlowConditionDeps, occursB st v x = true → x < u) →
      v + 1 + u * (st.Vals.length + 1) ≤ G1 →
      v + 1 + u * (st.Vals.length + 1) ≤ G2 →
      specEvalV st subs σ G1 v = specEvalV st subs σ G2 v := by
  intro n
  induction n using Nat.strong_induction_on with
  | _ n IH =>
    intro u v G1 G2 hm hv hocc hG1 hG2
    obtain ⟨f, rfl⟩ : ∃ f, G1 = f + 1 := ⟨G1 - 1, by omega⟩
    obtain ⟨g, rfl⟩ : ∃ g, G2 = g + 1 := ⟨G2 - 1, by omega⟩
    simp only [specEvalV]
    by_cases htok : v ∈ tokSet st.FlowConditionDeps
    · simp only [if_pos htok]
      cases hc : alookup v st.FlowConditionConstraints with
      | none => rfl
      | some c =>
        have hvu : v < u := hocc v htok (occursB_self v)
        have hcb := hw.consOk (v, c) (alookup_mem hc)
        have hmul1 : (v + 1) * (st.Vals.length + 1) ≤ u * (st.Vals.length + 1) :=
          Nat.mul_le_mul_right _ (by omega)
        have hmul2 : (v + 1) * (st.Vals.length + 1) =
            v * (st.Vals.length + 1) + (st.Vals.length + 1) := by ring
        refine IH (v * (st.Vals.length + 1) + c) (by omega) v c f g (by omega)
          hcb.2 ?_ (by omega) (by omega)
        intro y hy hoy
        exact depsDecr_lt hdec (hsc (v, c) (alookup_mem hc) y hy hoy)
    · simp only [if_neg htok]
      cases hs : alookup v subs with
      | some r => rfl
      | none =>
        cases hb : nth st.Vals v with
        | none => rfl
        | some b =>
          cases b with
          | AtomicBool => rfl
          | Negation s =>
            have hop := opndsLtB_neg (hw.vwf v _ hb)
            have hocc2 : ∀ x ∈ tokSet st.FlowConditionDeps,
                occursB st s x = true → x < u := fun x hx hox =>
              hocc x hx (occursB_neg_opnd hw.vwf hb hox)
            show (!specEvalV st subs σ f s) = (!specEvalV st subs σ g s)
            rw [IH (u * (st.Vals.length + 1) + s) (by omega) u s f g (by omega)
              (by omega) hocc2 (by omega) (by omega)]
          | Conjunction l r =>
            have hop := opndsLtB_conj (hw.vwf v _ hb)
            have hoccl : ∀ x ∈ tokSet st.FlowConditionDeps,
                occursB st l x = true → x < u := fun x hx hox =>
              hocc x hx (occursB_conj_opnd hw.vwf hb (Or.inl hox))
            have hoccr : ∀ x ∈ tokSet st.FlowConditionDeps,
                occursB st r x = true → x < u := fun x hx hox =>
              hocc x hx (occursB_conj_opnd hw.vwf hb (Or.inr hox))
            show (specEvalV st subs σ f l && specEvalV st subs σ f r) =
              (specEvalV st subs σ g l && specEvalV st subs σ g r)
            rw [IH (u * (st.Vals.length + 1) + l) (by omega) u l f g (by omega)
              (by omega) hoccl (by omega) (by omega),
              IH (u * (st.Vals.length + 1) + r) (by omega) u r f g (by omega)
              (by omega) hoccr (by omega) (by omega)]
          | Disjunction l r =>
            have hop := opndsLtB_disj (hw.vwf v _ hb)
            have hoccl : ∀ x ∈ tokSet st.FlowConditionDeps,
                occursB st l x = true → x < u := fun x hx hox =>
              hocc x hx (occursB_disj_opnd hw.vwf hb (Or.inl hox))
            have hoccr : ∀ x ∈ tokSet st.FlowConditionDeps,
                occursB st r x = true → x < u := fun x hx hox =>
              hocc x hx (occursB_disj_opnd hw.vwf hb (Or.inr hox))
            show (specEvalV st subs σ f l || specEvalV st subs σ f r) =
              (specEvalV st subs σ g l || specEvalV st subs σ g r)
            rw [IH (u * (st.Vals.length + 1) + l) (by omega) u l f g (by omega)
              (by omega) hoccl (by omega) (by omega),
              IH (u * (st.Vals.length + 1) + r) (by omega) u r f g (by omega)
              (by omega) hoccr (by omega) (by omega)]

theorem nth_OpExt {st st' : DataflowAnalysisContext} (hext : OpExt st st')
    {v : Nat} (hv : v < st.Vals.length) : nth st'.Vals v = nth st.Vals v := by
  obtain ⟨e, he⟩ := hext.ext
  rw [he]
  exact nth_append_left e hv

theorem specFuel_succ (st : DataflowAnalysisContext) :
    specFuel st = (st.Vals.length * st.Vals.length + 2 * st.Vals.length) + 1 := rfl

theorem Faithful_mono {st0 st' st2 : DataflowAnalysisContext}
    {subs : List (Nat × Nat)} {k r : Nat} (hw : WF st') (hext : OpExt st' st2)
    (hf : Faithful st0 st' subs k r) : Faithful st0 st2 subs k r := by
  refine ⟨lt_of_lt_of_le hf.1 hext.len_le, ?_⟩
  intro σ hσ
  rw [evalBV_frame hw.vwf hext.ext hf.1]
  exact hf.2 σ hσ

theorem CacheInv_mono {st0 st' st2 : DataflowAnalysisContext}
    {subs L : List (Nat × Nat)} (hw : WF st') (hext : OpExt st' st2)
    (hci : CacheInv st0 st' subs L) : CacheInv st0 st2 subs L := by
  refine ⟨?_, hci.2⟩
  intro k r hk
  rcases hci.1 k r hk with ⟨h1, h2, h3⟩ | hf
  · exact Or.inl ⟨h1, h2, lt_of_lt_of_le h3 hext.len_le⟩
  · exact Or.inr (Faithful_mono hw hext hf)

theorem CacheInv_init {st0 st' : DataflowAnalysisContext} {subs : List (Nat × Nat)}
    (hw0 : WF st0) (hext : OpExt st0 st')
    (hsubs : ∀ p ∈ subs, p.1 < st0.Vals.length ∧ p.2 < st0.Vals.length) :
    CacheInv st0 st' subs subs := by
  refine ⟨?_, fun k hk => hk⟩
  intro k r hk
  have hkr := hsubs (k, r) (alookup_mem hk)
  by_cases htok : k ∈ tokSet st0.FlowConditionDeps
  · exact Or.inl ⟨htok, hk, lt_of_lt_of_le hkr.2 hext.len_le⟩
  · refine Or.inr ⟨lt_of_lt_of_le hkr.2 hext.len_le, ?_⟩
    intro σ hσ
    rw [specFuel_succ]
    simp only [specEvalV]
    rw [if_neg htok, hk]
    show evalBV st' σ r = evalBV st0 σ r
    exact evalBV_frame hw0.vwf hext.ext hkr.2

theorem specEvalV_token {st : DataflowAnalysisContext} {subs : List (Nat × Nat)}
    {σ : Nat → Bool} (hw : WF st) (hdec : DepsDecreasing st) (hsc : ScopedDeps st)
    {d : Nat} (hd : d ∈ tokSet st.FlowConditionDeps) :
    specEvalV st subs σ (specFuel st) d = specFlowConditionEval st subs σ d := by
  have hsf := specFuel_succ st
  rw [hsf]
  simp only [specEvalV, specFlowConditionEval]
  rw [if_pos hd]
  cases hc : alookup d st.FlowConditionConstraints with
  | none => rfl
  | some c =>
    have hcb := hw.consOk (d, c) (alookup_mem hc)
    have hmul1 : (d + 1) * (st.Vals.length + 1) ≤
        st.Vals.length * (st.Vals.length + 1) :=
      Nat.mul_le_mul_right _ (by omega)
    have hmul2 : (d + 1) * (st.Vals.length + 1) =
        d * (st.Vals.length + 1) + (st.Vals.length + 1) := by ring
    have hmul3 : st.Vals.length * (st.Vals.length + 1) =
        st.Vals.length * st.Vals.length + st.Vals.length := by ring
    show specEvalV st subs σ (st.Vals.length * st.Vals.length + 2 * st.Vals.length) c =
      specEvalV st subs σ (specFuel st) c
    refine specEvalV_stable hw hdec hsc (d * (st.Vals.length + 1) + c) d c _ _
      (le_refl _) hcb.2 ?_ (by omega) (by omega)
    intro y hy hoy
    exact depsDecr_lt hdec (hsc (d, c) (alookup_mem hc) y hy hoy)

theorem CacheInv_cons {st0 st2 : DataflowAnalysisContext} {subs L : List (Nat × Nat)}
    {v rv : Nat} (hci : CacheInv st0 st2 subs L)
    (hf : Faithful st0 st2 subs v rv) : CacheInv st0 st2 subs ((v, rv) :: L) := by
  constructor
  · intro k r hk
    rw [alookup_cons] at hk
    by_cases hkv : k = v
    · rw [if_pos hkv] at hk
      cases hk
      subst hkv
      exact Or.inr hf
    · rw [if_neg hkv] at hk
      exact hci.1 k r hk
  · intro k hk
    rw [alookup_cons] at hk
    by_cases hkv : k = v
    · rw [if_pos hkv] at hk; cases hk
    · rw [if_neg hkv] at hk
      exact hci.2 k hk

theorem specEvalV_drop {st : DataflowAnalysisContext} {subs : List (Nat × Nat)}
    {σ : Nat → Bool} (hw : WF st) (hdec : DepsDecreasing st) (hsc : ScopedDeps st)
    {u s : Nat} (hu : u ≤ st.Vals.length) (hs : s < st.Vals.length)
    (hocc : ∀ x ∈ tokSet st.FlowConditionDeps, occursB st s x = true → x < u) :
    specEvalV st subs σ (st.Vals.length * st.Vals.length + 2 * st.Vals.length) s =
      specEvalV st subs σ (specFuel st) s := by
  have hmulu : u * (st.Vals.length + 1) ≤ st.Vals.length * (st.Vals.length + 1) :=
    Nat.mul_le_mul_right _ hu
  have hmul3 : st.Vals.length * (st.Vals.length + 1) =
      st.Vals.length * st.Vals.length + st.Vals.length := by ring
  have hsf := specFuel_succ st
  exact specEvalV_stable hw hdec hsc (u * (st.Vals.length + 1) + s) u s _ _
    (le_refl _) hs hocc (by omega) (by omega)

theorem substituteBoolValue_faithful {st0 : DataflowAnalysisContext}
    {subs : List (Nat × Nat)} (hw0 : WF st0) (hdec : DepsDecreasing st0)
    (hsc : ScopedDeps st0) {u : Nat} (hu : u ≤ st0.Vals.length) :
    ∀ (fuel : Nat) (v : Nat) (st' : DataflowAnalysisContext) (L : List (Nat × Nat)),
      WF st' → OpExt st0 st' → FCSame st0 st' →
      v < st0.Vals.length → v < fuel →
      (∀ x ∈ tokSet st0.FlowConditionDeps, occursB st0 v x = true →
        x < u ∧ ∃ r, alookup x L = some r ∧ Faithful st0 st' subs x r) →
      CacheInv st0 st' subs L →
      WF (substituteBoolValue fuel st' v L).2.1 ∧
      OpExt st' (substituteBoolValue fuel st' v L).2.1 ∧
      FCSame st0 (substituteBoolValue fuel st' v L).2.1 ∧
      (∀ k r, alookup k L = some r →
        alookup k (substituteBoolValue fuel st' v L).2.2 = some r) ∧
      CacheInv st0 (substituteBoolValue fuel st' v L).2.1 subs
        (substituteBoolValue fuel st' v L).2.2 ∧
      Faithful st0 (substituteBoolValue fuel st' v L).2.1 subs v
        (substituteBoolValue fuel st' v L).1 := by
  intro fuel
  induction fuel with
  | zero => intro v st' L _ _ _ _ hvf; omega
  | succ fuel IH =>
    intro v st' L hw hext hfc hvlen hvf hocc hci
    cases hca : alookup v L with
    | some r =>
      have hR : substituteBoolValue (fuel + 1) st' v L = (r, st', L) := by
        simp only [substituteBoolValue]
        rw [hca]
      rw [hR]
      have hfv : Faithful st0 st' subs v r := by
        by_cases htok : v ∈ tokSet st0.FlowConditionDeps
        · obtain ⟨-, r', har, hfr⟩ := hocc v htok (occursB_self v)
          rw [hca] at har
          cases har
          exact hfr
        · rcases hci.1 v r hca with ⟨htk, -, -⟩ | hf
          · exact absurd htk htok
          · exact hf
      exact ⟨hw, OpExt.selfExt st', hfc, fun k r2 hk => hk, hci, hfv⟩
    | none =>
      have hsubnone : alookup v subs = none := hci.2 v hca
      have htok : v ∉ tokSet st0.FlowConditionDeps := by
        intro h
        obtain ⟨-, r', har, -⟩ := hocc v h (occursB_self v)
        rw [hca] at har
        cases har
      have hnth0 : nth st'.Vals v = nth st0.Vals v := nth_OpExt hext hvlen
      have hpresv : ∀ (L2 : List (Nat × Nat)) (rv : Nat),
          (∀ k r2, alookup k L = some r2 → alookup k L2 = some r2) →
          (∀ k r2, alookup k L = some r2 → alookup k ((v, rv) :: L2) = some r2) := by
        intro L2 rv hp k r2 hk
        rw [alookup_cons]
        have hkv : k ≠ v := by
          intro h
          rw [h, hca] at hk
          cases hk
        rw [if_neg hkv]
        exact hp k r2 hk
      cases hnth : nth st0.Vals v with
      | none =>
        have hR : substituteBoolValue (fuel + 1) st' v L = (v, st', (v, v) :: L) := by
          simp only [substituteBoolValue]
          rw [hca, hnth0, hnth]
        rw [hR]
        have hfv : Faithful st0 st' subs v v := by
          refine ⟨lt_of_lt_of_le hvlen hext.len_le, ?_⟩
          intro σ hσ
          have hspec : specEvalV st0 subs σ (specFuel st0) v = evalBV st0 σ v := by
            rw [specFuel_succ]
            simp only [specEvalV]
            rw [if_neg htok, hsubnone, hnth]
          rw [hspec]
          exact evalBV_frame hw0.vwf hext.ext hvlen
        exact ⟨hw, OpExt.selfExt st', hfc, hpresv L v (fun k r2 hk => hk),
          CacheInv_cons hci hfv, hfv⟩
      | some b =>
        cases b with
        | AtomicBool =>
          have hR : substituteBoolValue (fuel + 1) st' v L = (v, st', (v, v) :: L) := by
            simp only [substituteBoolValue]
            rw [hca, hnth0, hnth]
          rw [hR]
          have hfv : Faithful st0 st' subs v v := by
            refine ⟨lt_of_lt_of_le hvlen hext.len_le, ?_⟩
            intro σ hσ
            have hspec : specEvalV st0 subs σ (specFuel st0) v = evalBV st0 σ v := by
              rw [specFuel_succ]
              simp only [specEvalV]
              rw [if_neg htok, hsubnone, hnth]
            rw [hspec]
            exact evalBV_frame hw0.vwf hext.ext hvlen
          exact ⟨hw, OpExt.selfExt st', hfc, hpresv L v (fun k r2 hk => hk),
            CacheInv_cons hci hfv, hfv⟩
        | Negation s =>
          have hop := opndsLtB_neg (hw0.vwf v _ hnth)
          have hoccs : ∀ x ∈ tokSet st0.FlowConditionDeps, occursB st0 s x = true →
              x < u ∧ ∃ r, alookup x L = some r ∧ Faithful st0 st' subs x r :=
            fun x hx hox => hocc x hx (occursB_neg_opnd hw0.vwf hnth hox)
          obtain ⟨hw1, hext1, hfc1, hpres1, hci1, hf1⟩ :=
            IH s st' L hw hext hfc (by omega) (by omega) hoccs hci
          obtain ⟨hw2, hext2, hfc2, hlt2, hev2⟩ :=
            getOrCreateNegation_spec hw1 hf1.1
          have hR : substituteBoolValue (fuel + 1) st' v L =
              ((getOrCreateNegation (substituteBoolValue fuel st' s L).2.1
                  (substituteBoolValue fuel st' s L).1).1,
                (getOrCreateNegation (substituteBoolValue fuel st' s L).2.1
                  (substituteBoolValue fuel st' s L).1).2,
                (v, (getOrCreateNegation (substituteBoolValue fuel st' s L).2.1
                  (substituteBoolValue fuel st' s L).1).1) ::
                  (substituteBoolValue fuel st' s L).2.2) := by
            simp only [substituteBoolValue]
            rw [hca, hnth0, hnth]
          rw [hR]
          have hfv : Faithful st0
              (getOrCreateNegation (substituteBoolValue fuel st' s L).2.1
                (substituteBoolValue fuel st' s L).1).2 subs v
              (getOrCreateNegation (substituteBoolValue fuel st' s L).2.1
                (substituteBoolValue fuel st' s L).1).1 := by
            refine ⟨hlt2, ?_⟩
            intro σ hσ
            have hspec : specEvalV st0 subs σ (specFuel st0) v =
                !specEvalV st0 subs σ
                  (st0.Vals.length * st0.Vals.length + 2 * st0.Vals.length) s := by
              rw [specFuel_succ]
              simp only [specEvalV]
              rw [if_neg htok, hsubnone, hnth]
            rw [hspec, specEvalV_drop hw0 hdec hsc hu (by omega)
              (fun x hx hox => (hoccs x hx hox).1)]
            rw [hev2 σ, evalBV_frame hw1.vwf hext2.ext hf1.1]
            rw [hf1.2 σ hσ]
          refine ⟨hw2, OpExt.comp hext1 hext2, FCSame.compo hfc1 hfc2,
            hpresv _ _ (fun k r2 hk => hpres1 k r2 hk), ?_, hfv⟩
          exact CacheInv_cons (CacheInv_mono hw1 hext2 hci1) hfv
        | Conjunction l r =>
          have hop := opndsLtB_conj (hw0.vwf v _ hnth)
          have hoccl : ∀ x ∈ tokSet st0.FlowConditionDeps, occursB st0 l x = true →
              x < u ∧ ∃ q, alookup x L = some q ∧ Faithful st0 st' subs x q :=
            fun x hx hox => hocc x hx (occursB_conj_opnd hw0.vwf hnth (Or.inl hox))
          have hoccr : ∀ x ∈ tokSet st0.FlowConditionDeps, occursB st0 r x = true →
              x < u ∧ ∃ q, alookup x L = some q ∧ Faithful st0 st' subs x q :=
            fun x hx hox => hocc x hx (occursB_conj_opnd hw0.vwf hnth (Or.inr hox))
          obtain ⟨hw1, hext1, hfc1, hpres1, hci1, hf1⟩ :=
            IH l st' L hw hext hfc (by omega) (by omega) hoccl hci
          have hoccr2 : ∀ x ∈ tokSet st0.FlowConditionDeps, occursB st0 r x = true →
              x < u ∧ ∃ q, alookup x (substituteBoolValue fuel st' l L).2.2 = some q ∧
                Faithful st0 (substituteBoolValue fuel st' l L).2.1 subs x q := by
            intro x hx hox
            obtain ⟨hxu, q, hq, hfq⟩ := hoccr x hx hox
            exact ⟨hxu, q, hpres1 x q hq, Faithful_mono hw hext1 hfq⟩
          obtain ⟨hw2, hext2, hfc2, hpres2, hci2, hf2⟩ :=
            IH r (substituteBoolValue fuel st' l L).2.1
              (substituteBoolValue fuel st' l L).2.2 hw1 (OpExt.comp hext hext1)
              hfc1 (by omega) (by omega) hoccr2 hci1
          obtain ⟨hw3, hext3, hfc3, hlt3, hev3⟩ :=
            getOrCreateConjunction_spec hw2
              (lt_of_lt_of_le hf1.1 hext2.len_le) hf2.1
          have hR : substituteBoolValue (fuel + 1) st' v L =
              ((getOrCreateConjunction
                  (substituteBoolValue fuel (substituteBoolValue fuel st' l L).2.1 r
                    (substituteBoolValue fuel st' l L).2.2).2.1
                  (substituteBoolValue fuel st' l L).1
                  (substituteBoolValue fuel (substituteBoolValue fuel st' l L).2.1 r
                    (substituteBoolValue fuel st' l L).2.2).1).1,
                (getOrCreateConjunction
                  (substituteBoolValue fuel (substituteBoolValue fuel st' l L).2.1 r
                    (substituteBoolValue fuel st' l L).2.2).2.1
                  (substituteBoolValue fuel st' l L).1
                  (substituteBoolValue fuel (substituteBoolValue fuel st' l L).2.1 r
                    (substituteBoolValue fuel st' l L).2.2).1).2,
                (v, (getOrCreateConjunction
                  (substituteBoolValue fuel (substituteBoolValue fuel st' l L).2.1 r
                    (substituteBoolValue fuel st' l L).2.2).2.1
                  (substituteBoolValue fuel st' l L).1
                  (substituteBoolValue fuel (substituteBoolValue fuel st' l L).2.1 r
                    (substituteBoolValue fuel st' l L).2.2).1).1) ::
                  (substituteBoolValue fuel (substituteBoolValue fuel st' l L).2.1 r
                    (substituteBoolValue fuel st' l L).2.2).2.2) := by
            simp only [substituteBoolValue]
            rw [hca, hnth0, hnth]
          rw [hR]
          have hfv : Faithful st0
              (getOrCreateConjunction
                (substituteBoolValue fuel (substituteBoolValue fuel st' l L).2.1 r
                  (substituteBoolValue fuel st' l L).2.2).2.1
                (substituteBoolValue fuel st' l L).1
                (substituteBoolValue fuel (substituteBoolValue fuel st' l L).2.1 r
                  (substituteBoolValue fuel st' l L).2.2).1).2 subs v
              (getOrCreateConjunction
                (substituteBoolValue fuel (substituteBoolValue fuel st' l L).2.1 r
                  (substituteBoolValue fuel st' l L).2.2).2.1
                (substituteBoolValue fuel st' l L).1
                (substituteBoolValue fuel (substituteBoolValue fuel st' l L).2.1 r
                  (substituteBoolValue fuel st' l L).2.2).1).1 := by
            refine ⟨hlt3, ?_⟩
            intro σ hσ
            have hspec : specEvalV st0 subs σ (specFuel st0) v =
                (specEvalV st0 subs σ
                  (st0.Vals.length * st0.Vals.length + 2 * st0.Vals.length) l &&
                 specEvalV st0 subs σ
                  (st0.Vals.length * st0.Vals.length + 2 * st0.Vals.length) r) := by
              rw [specFuel_succ]
              simp only [specEvalV]
              rw [if_neg htok, hsubnone, hnth]
            rw [hspec, specEvalV_drop hw0 hdec hsc hu (by omega)
              (fun x hx hox => (hoccl x hx hox).1),
              specEvalV_drop hw0 hdec hsc hu (by omega)
              (fun x hx hox => (hoccr x hx hox).1)]
            rw [hev3 σ,
              evalBV_frame hw2.vwf hext3.ext (lt_of_lt_of_le hf1.1 hext2.len_le),
              evalBV_frame hw2.vwf hext3.ext hf2.1,
              evalBV_frame hw1.vwf hext2.ext hf1.1]
            rw [hf1.2 σ hσ, hf2.2 σ hσ]
          refine ⟨hw3, OpExt.comp hext1 (OpExt.comp hext2 hext3),
            FCSame.compo hfc2 hfc3,
            hpresv _ _ (fun k r2 hk => hpres2 k r2 (hpres1 k r2 hk)), ?_, hfv⟩
          exact CacheInv_cons (CacheInv_mono hw2 hext3 hci2) hfv
        | Disjunction l r =>
          have hop := opndsLtB_disj (hw0.vwf v _ hnth)
          have hoccl : ∀ x ∈ tokSet st0.FlowConditionDeps, occursB st0 l x = true →
              x < u ∧ ∃ q, alookup x L = some q ∧ Faithful st0 st' subs x q :=
            fun x hx hox => hocc x hx (occursB_disj_opnd hw0.vwf hnth (Or.inl hox))
          have hoccr : ∀ x ∈ tokSet st0.FlowConditionDeps, occursB st0 r x = true →
              x < u ∧ ∃ q, alookup x L = some q ∧ Faithful st0 st' subs x q :=
            fun x hx hox => hocc x hx (occursB_disj_opnd hw0.vwf hnth (Or.inr hox))
          obtain ⟨hw1, hext1, hfc1, hpres1, hci1, hf1⟩ :=
            IH l st' L hw hext hfc (by omega) (by omega) hoccl hci
          have hoccr2 : ∀ x ∈ tokSet st0.FlowConditionDeps, occursB st0 r x = true →
              x < u ∧ ∃ q, alookup x (substituteBoolValue fuel st' l L).2.2 = some q ∧
                Faithful st0 (substituteBoolValue fuel st' l L).2.1 subs x q := by
            intro x hx hox
            obtain ⟨hxu, q, hq, hfq⟩ := hoccr x hx hox
            exact ⟨hxu, q, hpres1 x q hq, Faithful_mono hw hext1 hfq⟩
          obtain ⟨hw2, hext2, hfc2, hpres2, hci2, hf2⟩ :=
            IH r (substituteBoolValue fuel st' l L).2.1
              (substituteBoolValue fuel st' l L).2.2 hw1 (OpExt.comp hext hext1)
              hfc1 (by omega) (by omega) hoccr2 hci1
          obtain ⟨hw3, hext3, hfc3, hlt3, hev3⟩ :=
            getOrCreateDisjunction_spec hw2
              (lt_of_lt_of_le hf1.1 hext2.len_le) hf2.1
          have hR : substituteBoolValue (fuel + 1) st' v L =
              ((getOrCreateDisjunction
                  (substituteBoolValue fuel (substituteBoolValue fuel st' l L).2.1 r
                    (substituteBoolValue fuel st' l L).2.2).2.1
                  (substituteBoolValue fuel st' l L).1
                  (substituteBoolValue fuel (substituteBoolValue fuel st' l L).2.1 r
                    (substituteBoolValue fuel st' l L).2.2).1).1,
                (getOrCreateDisjunction
                  (substituteBoolValue fuel (substituteBoolValue fuel st' l L).2.1 r
                    (substituteBoolValue fuel st' l L).2.2).2.1
                  (substituteBoolValue fuel st' l L).1
                  (substituteBoolValue fuel (substituteBoolValue fuel st' l L).2.1 r
                    (substituteBoolValue fuel st' l L).2.2).1).2,
                (v, (getOrCreateDisjunction
                  (substituteBoolValue fuel (substituteBoolValue fuel st' l L).2.1 r
                    (substituteBoolValue fuel st' l L).2.2).2.1
                  (substituteBoolValue fuel st' l L).1
                  (substituteBoolValue fuel (substituteBoolValue fuel st' l L).2.1 r
                    (substituteBoolValue fuel st' l L).2.2).1).1) ::
                  (substituteBoolValue fuel (substituteBoolValue fuel st' l L).2.1 r
                    (substituteBoolValue fuel st' l L).2.2).2.2) := by
            simp only [substituteBoolValue]
            rw [hca, hnth0, hnth]
          rw [hR]
          have hfv : Faithful st0
              (getOrCreateDisjunction
                (substituteBoolValue fuel (substituteBoolValue fuel st' l L).2.1 r
                  (substituteBoolValue fuel st' l L).2.2).2.1
                (substituteBoolValue fuel st' l L).1
                (substituteBoolValue fuel (substituteBoolValue fuel st' l L).2.1 r
                  (substituteBoolValue fuel st' l L).2.2).1).2 subs v
              (getOrCreateDisjunction
                (substituteBoolValue fuel (substituteBoolValue fuel st' l L).2.1 r
                  (substituteBoolValue fuel st' l L).2.2).2.1
                (substituteBoolValue fuel st' l L).1
                (substituteBoolValue fuel (substituteBoolValue fuel st' l L).2.1 r
                  (substituteBoolValue fuel st' l L).2.2).1).1 := by
            refine ⟨hlt3, ?_⟩
            intro σ hσ
            have hspec : specEvalV st0 subs σ (specFuel st0) v =
                (specEvalV st0 subs σ
                  (st0.Vals.length * st0.Vals.length + 2 * st0.Vals.length) l ||
                 specEvalV st0 subs σ
                  (st0.Vals.length * st0.Vals.length + 2 * st0.Vals.length) r) := by
              rw [specFuel_succ]
              simp only [specEvalV]
              rw [if_neg htok, hsubnone, hnth]
            rw [hspec, specEvalV_drop hw0 hdec hsc hu (by omega)
              (fun x hx hox => (hoccl x hx hox).1),
              specEvalV_drop hw0 hdec hsc hu (by omega)
              (fun x hx hox => (hoccr x hx hox).1)]
            rw [hev3 σ,
              evalBV_frame hw2.vwf hext3.ext (lt_of_lt_of_le hf1.1 hext2.len_le),
              evalBV_frame hw2.vwf hext3.ext hf2.1,
              evalBV_frame hw1.vwf hext2.ext hf1.1]
            rw [hf1.2 σ hσ, hf2.2 σ hσ]
          refine ⟨hw3, OpExt.comp hext1 (OpExt.comp hext2 hext3),
            FCSame.compo hfc2 hfc3,
            hpresv _ _ (fun k r2 hk => hpres2 k r2 (hpres1 k r2 hk)), ?_, hfv⟩
          exact CacheInv_cons (CacheInv_mono hw2 hext3 hci2) hfv

theorem deps_tokSet {st : DataflowAnalysisContext} {t d : Nat}
    (hd : d ∈ (alookup t st.FlowConditionDeps).getD []) :
    d ∈ tokSet st.FlowConditionDeps := by
  cases halo : alookup t st.FlowConditionDeps with
  | none => rw [halo] at hd; cases hd
  | some ds =>
    rw [halo] at hd
    exact tokSet_mem (alookup_mem halo) hd

theorem buildWithCache_faithful {st0 : DataflowAnalysisContext}
    {subs : List (Nat × Nat)} (hw0 : WF st0) (hdec : DepsDecreasing st0)
    (hsc : ScopedDeps st0) :
    ∀ (fuel t : Nat) (st' : DataflowAnalysisContext) (L : List (Nat × Nat)),
      WF st' → OpExt st0 st' → FCSame st0 st' →
      t < st0.Vals.length → t < fuel →
      CacheInv st0 st' subs L →
      WF (buildAndSubstituteFlowConditionWithCache fuel st' t L).2.1 ∧
      OpExt st' (buildAndSubstituteFlowConditionWithCache fuel st' t L).2.1 ∧
      FCSame st0 (buildAndSubstituteFlowConditionWithCache fuel st' t L).2.1 ∧
      (∀ k r, alookup k L = some r → ∃ r2,
        alookup k (buildAndSubstituteFlowConditionWithCache fuel st' t L).2.2 =
          some r2 ∧
        (r2 = r ∨ Faithful st0
          (buildAndSubstituteFlowConditionWithCache fuel st' t L).2.1 subs k r2)) ∧
      CacheInv st0 (buildAndSubstituteFlowConditionWithCache fuel st' t L).2.1 subs
        (buildAndSubstituteFlowConditionWithCache fuel st' t L).2.2 ∧
      (buildAndSubstituteFlowConditionWithCache fuel st' t L).1 <
        (buildAndSubstituteFlowConditionWithCache fuel st' t L).2.1.Vals.length ∧
      (∀ σ : Nat → Bool, σ st0.TrueVal = true →
        evalBV (buildAndSubstituteFlowConditionWithCache fuel st' t L).2.1 σ
          (buildAndSubstituteFlowConditionWithCache fuel st' t L).1 =
        specFlowConditionEval st0 subs σ t) := by
  intro fuel
  induction fuel with
  | zero => intro t st' L _ _ _ _ htf; omega
  | succ fuel IH =>
    intro t st' L hw hext hfc htlen htf hci
    have hconsEq : alookup t st'.FlowConditionConstraints =
        alookup t st0.FlowConditionConstraints := by rw [hfc.cons]
    cases hc : alookup t st0.FlowConditionConstraints with
    | none =>
      have hR : buildAndSubstituteFlowConditionWithCache (fuel + 1) st' t L =
          (getBoolLiteralValue st' true, st', L) := by
        simp only [buildAndSubstituteFlowConditionWithCache]
        rw [hconsEq, hc]
      rw [hR]
      refine ⟨hw, OpExt.selfExt st', hfc,
        fun k r hk => ⟨r, hk, Or.inl rfl⟩, hci, hw.tlt, ?_⟩
      intro σ hσ
      have hev : evalBV st' σ (getBoolLiteralValue st' true) = σ st'.TrueVal :=
        evalBV_atom hw.tAtom
      rw [hev, hext.tv, hσ]
      simp only [specFlowConditionEval]
      rw [hc]
    | some c =>
      have hcb := hw0.consOk (t, c) (alookup_mem hc)
      have hdepsEq : alookup t st'.FlowConditionDeps =
          alookup t st0.FlowConditionDeps := by rw [hfc.deps]
      have hfold : ∀ (ds : List Nat) (st1 : DataflowAnalysisContext)
          (L1 : List (Nat × Nat)),
          WF st1 → OpExt st0 st1 → FCSame st0 st1 → CacheInv st0 st1 subs L1 →
          (∀ d ∈ ds, d ∈ tokSet st0.FlowConditionDeps ∧ d < t) →
          WF (List.foldl
            (fun acc d =>
              ((buildAndSubstituteFlowConditionWithCache fuel acc.1 d acc.2).2.1,
                (d, (buildAndSubstituteFlowConditionWithCache fuel acc.1 d acc.2).1) ::
                  (buildAndSubstituteFlowConditionWithCache fuel acc.1 d acc.2).2.2))
            (st1, L1) ds).1 ∧
          OpExt st1 (List.foldl
            (fun acc d =>
              ((buildAndSubstituteFlowConditionWithCache fuel acc.1 d acc.2).2.1,
                (d, (buildAndSubstituteFlowConditionWithCache fuel acc.1 d acc.2).1) ::
                  (buildAndSubstituteFlowConditionWithCache fuel acc.1 d acc.2).2.2))
            (st1, L1) ds).1 ∧
          FCSame st0 (List.foldl
            (fun acc d =>
              ((buildAndSubstituteFlowConditionWithCache fuel acc.1 d acc.2).2.1,
                (d, (buildAndSubstituteFlowConditionWithCache fuel acc.1 d acc.2).1) ::
                  (buildAndSubstituteFlowConditionWithCache fuel acc.1 d acc.2).2.2))
            (st1, L1) ds).1 ∧
          (∀ k r, alookup k L1 = some r → ∃ r2,
            alookup k (List.foldl
              (fun acc d =>
                ((buildAndSubstituteFlowConditionWithCache fuel acc.1 d acc.2).2.1,
                  (d, (buildAndSubstituteFlowConditionWithCache fuel acc.1 d acc.2).1) ::
                    (buildAndSubstituteFlowConditionWithCache fuel acc.1 d acc.2).2.2))
              (st1, L1) ds).2 = some r2 ∧
            (r2 = r ∨ Faithful st0 (List.foldl
              (fun acc d =>
                ((buildAndSubstituteFlowConditionWithCache fuel acc.1 d acc.2).2.1,
                  (d, (buildAndSubstituteFlowConditionWithCache fuel acc.1 d acc.2).1) ::
                    (buildAndSubstituteFlowConditionWithCache fuel acc.1 d acc.2).2.2))
              (st1, L1) ds).1 subs k r2)) ∧
          CacheInv st0 (List.foldl
            (fun acc d =>
              ((buildAndSubstituteFlowConditionWithCache fuel acc.1 d acc.2).2.1,
                (d, (buildAndSubstituteFlowConditionWithCache fuel acc.1 d acc.2).1) ::
                  (buildAndSubstituteFlowConditionWithCache fuel acc.1 d acc.2).2.2))
            (st1, L1) ds).1 subs
            (List.foldl
              (fun acc d =>
                ((buildAndSubstituteFlowConditionWithCache fuel acc.1 d acc.2).2.1,
                  (d, (buildAndSubstituteFlowConditionWithCache fuel acc.1 d acc.2).1) ::
                    (buildAndSubstituteFlowConditionWithCache fuel acc.1 d acc.2).2.2))
              (st1, L1) ds).2 ∧
          (∀ d ∈ ds, ∃ r,
            alookup d (List.foldl
              (fun acc d2 =>
                ((buildAndSubstituteFlowConditionWithCache fuel acc.1 d2 acc.2).2.1,
                  (d2, (buildAndSubstituteFlowConditionWithCache fuel acc.1 d2 acc.2).1) ::
                    (buildAndSubstituteFlowConditionWithCache fuel acc.1 d2 acc.2).2.2))
              (st1, L1) ds).2 = some r ∧
            Faithful st0 (List.foldl
              (fun acc d2 =>
                ((buildAndSubstituteFlowConditionWithCache fuel acc.1 d2 acc.2).2.1,
                  (d2, (buildAndSubstituteFlowConditionWithCache fuel acc.1 d2 acc.2).1) ::
                    (buildAndSubstituteFlowConditionWithCache fuel acc.1 d2 acc.2).2.2))
              (st1, L1) ds).1 subs d r) := by
        intro ds
        induction ds with
        | nil =>
          intro st1 L1 hw1 hext1 hfc1 hci1 hds
          exact ⟨hw1, OpExt.selfExt st1, hfc1, fun k r hk => ⟨r, hk, Or.inl rfl⟩,
            hci1, fun d hd => absurd hd (List.not_mem_nil d)⟩
        | cons d ds ihds =>
          intro st1 L1 hw1 hext1 hfc1 hci1 hds
          have hdmem := hds d (List.mem_cons_self _ _)
          obtain ⟨hwB, hextB, hfcB, hpresB, hciB, hltB, hevB⟩ :=
            IH d st1 L1 hw1 hext1 hfc1 (by omega) (by omega) hci1
          have hfd : Faithful st0
              (buildAndSubstituteFlowConditionWithCache fuel st1 d L1).2.1 subs d
              (buildAndSubstituteFlowConditionWithCache fuel st1 d L1).1 := by
            refine ⟨hltB, ?_⟩
            intro σ hσ
            rw [hevB σ hσ]
            exact (specEvalV_token hw0 hdec hsc hdmem.1).symm
          obtain ⟨g1, g2, g3, g4, g5, g6⟩ := ihds
            (buildAndSubstituteFlowConditionWithCache fuel st1 d L1).2.1
            ((d, (buildAndSubstituteFlowConditionWithCache fuel st1 d L1).1) ::
              (buildAndSubstituteFlowConditionWithCache fuel st1 d L1).2.2)
            hwB (OpExt.comp hext1 hextB) hfcB (CacheInv_cons hciB hfd)
            (fun e he => hds e (List.mem_cons_of_mem _ he))
          simp only [List.foldl_cons]
          refine ⟨g1, OpExt.comp hextB g2, g3, ?_, g5, ?_⟩
          · intro k r hk
            obtain ⟨r2, hk2, hor2⟩ := hpresB k r hk
            by_cases hkd : k = d
            · subst hkd
              have hkL : alookup k
                  ((k, (buildAndSubstituteFlowConditionWithCache fuel st1 k L1).1) ::
                    (buildAndSubstituteFlowConditionWithCache fuel st1 k L1).2.2) =
                  some (buildAndSubstituteFlowConditionWithCache fuel st1 k L1).1 := by
                rw [alookup_cons, if_pos rfl]
              obtain ⟨r3, hk3, hor3⟩ := g4 k _ hkL
              refine ⟨r3, hk3, Or.inr ?_⟩
              rcases hor3 with rfl | hf3
              · exact Faithful_mono hwB g2 hfd
              · exact hf3
            · have hkL : alookup k
                  ((d, (buildAndSubstituteFlowConditionWithCache fuel st1 d L1).1) ::
                    (buildAndSubstituteFlowConditionWithCache fuel st1 d L1).2.2) =
                  some r2 := by
                rw [alookup_cons, if_neg hkd]
                exact hk2
              obtain ⟨r3, hk3, hor3⟩ := g4 k r2 hkL
              rcases hor3 with rfl | hf3
              · rcases hor2 with rfl | hf2
                · exact ⟨r3, hk3, Or.inl rfl⟩
                · exact ⟨r3, hk3, Or.inr (Faithful_mono hwB g2 hf2)⟩
              · exact ⟨r3, hk3, Or.inr hf3⟩
          · intro e he
            rcases List.mem_cons.mp he with rfl | he2
            · have hkL : alookup e
                  ((e, (buildAndSubstituteFlowConditionWithCache fuel st1 e L1).1) ::
                    (buildAndSubstituteFlowConditionWithCache fuel st1 e L1).2.2) =
                  some (buildAndSubstituteFlowConditionWithCache fuel st1 e L1).1 := by
                rw [alookup_cons, if_pos rfl]
              obtain ⟨r3, hk3, hor3⟩ := g4 e _ hkL
              refine ⟨r3, hk3, ?_⟩
              rcases hor3 with rfl | hf3
              · exact Faithful_mono hwB g2 hfd
              · exact hf3
            · exact g6 e he2
      have hR : buildAndSubstituteFlowConditionWithCache (fuel + 1) st' t L =
          substituteBoolValue (c + 1)
            (List.foldl
              (fun acc d =>
                ((buildAndSubstituteFlowConditionWithCache fuel acc.1 d acc.2).2.1,
                  (d, (buildAndSubstituteFlowConditionWithCache fuel acc.1 d acc.2).1) ::
                    (buildAndSubstituteFlowConditionWithCache fuel acc.1 d acc.2).2.2))
              (st', L) ((alookup t st0.FlowConditionDeps).getD [])).1 c
            (List.foldl
              (fun acc d =>
                ((buildAndSubstituteFlowConditionWithCache fuel acc.1 d acc.2).2.1,
                  (d, (buildAndSubstituteFlowConditionWithCache fuel acc.1 d acc.2).1) ::
                    (buildAndSubstituteFlowConditionWithCache fuel acc.1 d acc.2).2.2))
              (st', L) ((alookup t st0.FlowConditionDeps).getD [])).2 := by
        simp only [buildAndSubstituteFlowConditionWithCache]
        rw [hconsEq, hc, hdepsEq]
      obtain ⟨fw, fext, ffc, fpres, fci, fdep⟩ :=
        hfold ((alookup t st0.FlowConditionDeps).getD []) st' L hw hext hfc hci
          (fun d hd => ⟨deps_tokSet hd, depsDecr_lt hdec hd⟩)
      obtain ⟨sw, sext, sfc, spres, sci, sfv⟩ :=
        substituteBoolValue_faithful hw0 hdec hsc (le_of_lt htlen) (c + 1) c _ _
          fw (OpExt.comp hext fext) ffc hcb.2 (by omega)
          (fun x hx hox => by
            have hxds := hsc (t, c) (alookup_mem hc) x hx hox
            exact ⟨depsDecr_lt hdec hxds, fdep x hxds⟩)
          fci
      rw [hR]
      refine ⟨sw, OpExt.comp fext sext, sfc, ?_, sci, sfv.1, ?_⟩
      · intro k r hk
        obtain ⟨r2, hk2, hor2⟩ := fpres k r hk
        refine ⟨r2, spres k r2 hk2, ?_⟩
        rcases hor2 with rfl | hf2
        · exact Or.inl rfl
        · exact Or.inr (Faithful_mono fw sext hf2)
      · intro σ hσ
        rw [sfv.2 σ hσ]
        simp only [specFlowConditionEval]
        rw [hc]

/-- C4: for every well-formed context whose flow-condition graph is layered
the way the API builds it (dependency tokens strictly precede the token
depending on them and occur in a constraint clause only for the token that
lists them), every token, and every in-arena substitution map,
`buildAndSubstituteFlowCondition` returns a value of the extended arena
that evaluates, under every assignment pinning the true literal, exactly to
the closed formula of the token — its own constraints composed with the
formulas of its dependencies — with every occurrence of a value present as
a key of the substitution replaced by its mapped value, recursively before
composition, as computed by the spec-side reference evaluator
`specFlowConditionEval`. -/
theorem claim_C4_build_and_substitute
    (st : DataflowAnalysisContext) (tok : Nat) (subs : List (Nat × Nat))
    (hw : WF st) (hdec : DepsDecreasing st) (hsc : ScopedDeps st)
    (hsubs : ∀ p ∈ subs, p.1 < st.Vals.length ∧ p.2 < st.Vals.length) :
    WF (buildAndSubstituteFlowCondition st tok subs).2 ∧
    OpExt st (buildAndSubstituteFlowCondition st tok subs).2 ∧
    (buildAndSubstituteFlowCondition st tok subs).1 <
      (buildAndSubstituteFlowCondition st tok subs).2.Vals.length ∧
    ∀ σ : Nat → Bool, σ st.TrueVal = true →
      evalBV (buildAndSubstituteFlowCondition st tok subs).2 σ
        (buildAndSubstituteFlowCondition st tok subs).1 =
      specFlowConditionEval st subs σ tok := by
  by_cases htok : tok < st.Vals.length
  · obtain ⟨bw, bext, bfc, bpres, bci, blt, bev⟩ :=
      buildWithCache_faithful hw hdec hsc (st.Vals.length + 1) tok st subs
        hw (OpExt.selfExt st) (FCSame.selfSame st) htok (by omega)
        (CacheInv_init hw (OpExt.selfExt st) hsubs)
    exact ⟨bw, bext, blt, bev⟩
  · have hnone : alookup tok st.FlowConditionConstraints = none := by
      apply alookup_eq_none
      intro p hp
      have h1 := (hw.consOk p hp).1
      omega
    have hR : buildAndSubstituteFlowCondition st tok subs = (st.TrueVal, st) := by
      unfold buildAndSubstituteFlowCondition
      simp only [buildAndSubstituteFlowConditionWithCache]
      rw [hnone]
      rfl
    rw [hR]
    refine ⟨hw, OpExt.selfExt st, hw.tlt, ?_⟩
    intro σ hσ
    rw [evalBV_atom hw.tAtom, hσ]
    simp only [specFlowConditionEval]
    rw [hnone]

/-- Witness for C4 at the header's worked example: atoms C1 = 2, C2 = 3,
C3 = 4, C1' = 5, tokens FC1 = 6 (constraint C1), FC2 = 7 (constraint C2),
FC3 = 8 = join(FC1, FC2) with extra constraint C3; building FC3 under
{C1 -> C1'} yields value 12 = (C1' v C2) ^ C3 structurally, and its
evaluation agrees with the spec-side closed formula. -/
theorem claim_C4_build_and_substitute_witness :
    WFb exampleJoinState = true ∧
    DepsDecreasing exampleJoinState ∧
    ScopedDeps exampleJoinState ∧
    (buildAndSubstituteFlowCondition exampleJoinState 8 [(2, 5)]).1 = 12 ∧
    nth (buildAndSubstituteFlowCondition exampleJoinState 8 [(2, 5)]).2.Vals 12 =
      some (BoolVal.Conjunction 11 4) ∧
    nth (buildAndSubstituteFlowCondition exampleJoinState 8 [(2, 5)]).2.Vals 11 =
      some (BoolVal.Disjunction 5 3) ∧
    specFlowConditionEval exampleJoinState [(2, 5)]
      (fun i => i == 5 || i == 0) 8 =
      (((fun i : Nat => i == 5 || i == 0) 5 ||
        (fun i : Nat => i == 5 || i == 0) 3) &&
       (fun i : Nat => i == 5 || i == 0) 4) ∧
    evalBV (buildAndSubstituteFlowCondition exampleJoinState 8 [(2, 5)]).2
      (fun i => i == 5 || i == 0)
      (buildAndSubstituteFlowCondition exampleJoinState 8 [(2, 5)]).1 =
      specFlowConditionEval exampleJoinState [(2, 5)]
        (fun i => i == 5 || i == 0) 8 :=
  ⟨by decide, by decide, by decide, by decide, by decide, by decide, by decide,
    (claim_C4_build_and_substitute exampleJoinState 8 [(2, 5)]
      (WF_of_WFb (by decide)) (by decide) (by decide) (by decide)).2.2.2
      (fun i => i == 5 || i == 0) (by decide)⟩

theorem litsPreserved_createAtomic (st : DataflowAnalysisContext) :
    (createAtomicBoolValue st).2.TrueVal = st.TrueVal ∧
    (createAtomicBoolValue st).2.FalseVal = st.FalseVal := ⟨rfl, rfl⟩

theorem litsPreserved_conj (st : DataflowAnalysisContext) (l r : Nat) :
    (getOrCreateConjunction st l r).2.TrueVal = st.TrueVal ∧
    (getOrCreateConjunction st l r).2.FalseVal = st.FalseVal := by
  unfold getOrCreateConjunction
  split
  · exact ⟨rfl, rfl⟩
  · split
    · exact ⟨rfl, rfl⟩
    · exact ⟨rfl, rfl⟩

theorem litsPreserved_disj (st : DataflowAnalysisContext) (l r : Nat) :
    (getOrCreateDisjunction st l r).2.TrueVal = st.TrueVal ∧
    (getOrCreateDisjunction st l r).2.FalseVal = st.FalseVal := by
  unfold getOrCreateDisjunction
  split
  · exact ⟨rfl, rfl⟩
  · split
    · exact ⟨rfl, rfl⟩
    · exact ⟨rfl, rfl⟩

theorem litsPreserved_neg (st : DataflowAnalysisContext) (v : Nat) :
    (getOrCreateNegation st v).2.TrueVal = st.TrueVal ∧
    (getOrCreateNegation st v).2.FalseVal = st.FalseVal := by
  unfold getOrCreateNegation
  split
  · exact ⟨rfl, rfl⟩
  · exact ⟨rfl, rfl⟩

theorem litsPreserved_impl (st : DataflowAnalysisContext) (l r : Nat) :
    (getOrCreateImplication st l r).2.TrueVal = st.TrueVal ∧
    (getOrCreateImplication st l r).2.FalseVal = st.FalseVal := by
  unfold getOrCreateImplication
  split
  · exact ⟨rfl, rfl⟩
  · have h1 := litsPreserved_neg st l
    have h2 := litsPreserved_disj (getOrCreateNegation st l).2
      (getOrCreateNegation st l).1 r
    exact ⟨h2.1.trans h1.1, h2.2.trans h1.2⟩

theorem litsPreserved_iff (st : DataflowAnalysisContext) (l r : Nat) :
    (getOrCreateIff st l r).2.TrueVal = st.TrueVal ∧
    (getOrCreateIff st l r).2.FalseVal = st.FalseVal := by
  unfold getOrCreateIff
  split
  · exact ⟨rfl, rfl⟩
  · have h1 := litsPreserved_impl st l r
    have h2 := litsPreserved_impl (getOrCreateImplication st l r).2 r l
    have h3 := litsPreserved_conj
      (getOrCreateImplication (getOrCreateImplication st l r).2 r l).2
      (getOrCreateImplication st l r).1
      (getOrCreateImplication (getOrCreateImplication st l r).2 r l).1
    exact ⟨(h3.1.trans h2.1).trans h1.1, (h3.2.trans h2.2).trans h1.2⟩

theorem litsPreserved_addCons (st : DataflowAnalysisContext) (tok c : Nat) :
    (addFlowConditionConstraint st tok c).TrueVal = st.TrueVal ∧
    (addFlowConditionConstraint st tok c).FalseVal = st.FalseVal := by
  unfold addFlowConditionConstraint
  split
  · exact ⟨rfl, rfl⟩
  · rename_i old _
    have h1 := litsPreserved_conj st old c
    exact ⟨h1.1, h1.2⟩

theorem litsPreserved_mkTok (st : DataflowAnalysisContext) :
    (makeFlowConditionToken st).2.TrueVal = st.TrueVal ∧
    (makeFlowConditionToken st).2.FalseVal = st.FalseVal :=
  litsPreserved_createAtomic st

theorem litsPreserved_fork (st : DataflowAnalysisContext) (tok : Nat) :
    (forkFlowCondition st tok).2.TrueVal = st.TrueVal ∧
    (forkFlowCondition st tok).2.FalseVal = st.FalseVal := by
  unfold forkFlowCondition
  have h1 := litsPreserved_mkTok st
  have h2 := litsPreserved_addCons
    { (makeFlowConditionToken st).2 with
      FlowConditionDeps :=
        ((makeFlowConditionToken st).1, [tok]) ::
          (makeFlowConditionToken st).2.FlowConditionDeps }
    (makeFlowConditionToken st).1 tok
  exact ⟨h2.1.trans h1.1, h2.2.trans h1.2⟩

theorem litsPreserved_join (st : DataflowAnalysisContext) (t1 t2 : Nat) :
    (joinFlowConditions st t1 t2).2.TrueVal = st.TrueVal ∧
    (joinFlowConditions st t1 t2).2.FalseVal = st.FalseVal := by
  unfold joinFlowConditions
  have h1 := litsPreserved_mkTok st
  have h2 := litsPreserved_disj
    { (makeFlowConditionToken st).2 with
      FlowConditionDeps :=
        ((makeFlowConditionToken st).1, [t1, t2]) ::
          (makeFlowConditionToken st).2.FlowConditionDeps } t1 t2
  have h3 := litsPreserved_addCons
    (getOrCreateDisjunction
      { (makeFlowConditionToken st).2 with
        FlowConditionDeps :=
          ((makeFlowConditionToken st).1, [t1, t2]) ::
            (makeFlowConditionToken st).2.FlowConditionDeps } t1 t2).2
    (makeFlowConditionToken st).1
    (getOrCreateDisjunction
      { (makeFlowConditionToken st).2 with
        FlowConditionDeps :=
          ((makeFlowConditionToken st).1, [t1, t2]) ::
            (makeFlowConditionToken st).2.FlowConditionDeps } t1 t2).1
  exact ⟨(h3.1.trans h2.1).trans h1.1, (h3.2.trans h2.2).trans h1.2⟩

theorem litsPreserved_walk :
    ∀ (fuel : Nat) (st : DataflowAnalysisContext) (stack cs visited : List Nat),
    (addTransitiveFlowConditionConstraints fuel st stack cs visited).1.TrueVal =
      st.TrueVal ∧
    (addTransitiveFlowConditionConstraints fuel st stack cs visited).1.FalseVal =
      st.FalseVal := by
  intro fuel
  induction fuel with
  | zero => intro st stack cs visited; exact ⟨rfl, rfl⟩
  | succ fuel IH =>
    intro st stack cs visited
    cases stack with
    | nil => exact ⟨rfl, rfl⟩
    | cons tok rest =>
      by_cases hv : tok ∈ visited
      · have hR : addTransitiveFlowConditionConstraints (fuel + 1) st (tok :: rest)
            cs visited = addTransitiveFlowConditionConstraints fuel st rest cs visited := by
          simp only [addTransitiveFlowConditionConstraints]
          rw [if_pos hv]
        rw [hR]
        exact IH st rest cs visited
      · cases hcc : alookup tok st.FlowConditionConstraints with
        | none =>
          have hR : addTransitiveFlowConditionConstraints (fuel + 1) st (tok :: rest)
              cs visited = addTransitiveFlowConditionConstraints fuel st
                (((alookup tok st.FlowConditionDeps).getD []) ++ rest)
                (insertSet tok cs) (tok :: visited) := by
            simp only [addTransitiveFlowConditionConstraints]
            rw [if_neg hv, hcc]
          rw [hR]
          exact IH st _ _ _
        | some c =>
          have hR : addTransitiveFlowConditionConstraints (fuel + 1) st (tok :: rest)
              cs visited = addTransitiveFlowConditionConstraints fuel
                (getOrCreateIff st tok c).2
                (((alookup tok (getOrCreateIff st tok c).2.FlowConditionDeps).getD [])
                  ++ rest)
                (insertSet (getOrCreateIff st tok c).1 cs) (tok :: visited) := by
            simp only [addTransitiveFlowConditionConstraints]
            rw [if_neg hv, hcc]
          rw [hR]
          have h1 := litsPreserved_iff st tok c
          have h2 := IH (getOrCreateIff st tok c).2
            (((alookup tok (getOrCreateIff st tok c).2.FlowConditionDeps).getD [])
              ++ rest)
            (insertSet (getOrCreateIff st tok c).1 cs) (tok :: visited)
          exact ⟨h2.1.trans h1.1, h2.2.trans h1.2⟩

theorem litsPreserved_implies (sol : SolverFn) (st : DataflowAnalysisContext)
    (tok v : Nat) :
    (flowConditionImplies sol st tok v).2.TrueVal = st.TrueVal ∧
    (flowConditionImplies sol st tok v).2.FalseVal = st.FalseVal := by
  have h1 := litsPreserved_neg st v
  have h2 := litsPreserved_walk (walkFuel (getOrCreateNegation st v).2)
    (getOrCreateNegation st v).2 [tok]
    (insertSet (getOrCreateNegation st v).1 (insertSet tok [])) []
  have h3 := litsPreserved_neg
    (addTransitiveFlowConditionConstraints (walkFuel (getOrCreateNegation st v).2)
      (getOrCreateNegation st v).2 [tok]
      (insertSet (getOrCreateNegation st v).1 (insertSet tok [])) []).1
    (getBoolLiteralValue
      (addTransitiveFlowConditionConstraints (walkFuel (getOrCreateNegation st v).2)
        (getOrCreateNegation st v).2 [tok]
        (insertSet (getOrCreateNegation st v).1 (insertSet tok [])) []).1 false)
  exact ⟨(h3.1.trans h2.1).trans h1.1, (h3.2.trans h2.2).trans h1.2⟩

theorem litsPreserved_taut (sol : SolverFn) (st : DataflowAnalysisContext) (tok : Nat) :
    (flowConditionIsTautology sol st tok).2.TrueVal = st.TrueVal ∧
    (flowConditionIsTautology sol st tok).2.FalseVal = st.FalseVal := by
  have h1 := litsPreserved_neg st tok
  have h2 := litsPreserved_walk (walkFuel (getOrCreateNegation st tok).2)
    (getOrCreateNegation st tok).2 [tok]
    (insertSet (getOrCreateNegation st tok).1 []) []
  have h3 := litsPreserved_neg
    (addTransitiveFlowConditionConstraints (walkFuel (getOrCreateNegation st tok).2)
      (getOrCreateNegation st tok).2 [tok]
      (insertSet (getOrCreateNegation st tok).1 []) []).1
    (getBoolLiteralValue
      (addTransitiveFlowConditionConstraints (walkFuel (getOrCreateNegation st tok).2)
        (getOrCreateNegation st tok).2 [tok]
        (insertSet (getOrCreateNegation st tok).1 []) []).1 false)
  exact ⟨(h3.1.trans h2.1).trans h1.1, (h3.2.trans h2.2).trans h1.2⟩

theorem litsPreserved_substitute :
    ∀ (fuel : Nat) (st : DataflowAnalysisContext) (v : Nat) (cache : List (Nat × Nat)),
    (substituteBoolValue fuel st v cache).2.1.TrueVal = st.TrueVal ∧
    (substituteBoolValue fuel st v cache).2.1.FalseVal = st.FalseVal := by
  intro fuel
  induction fuel with
  | zero => intro st v cache; exact ⟨rfl, rfl⟩
  | succ fuel IH =>
    intro st v cache
    cases hca : alookup v cache with
    | some r =>
      have hR : substituteBoolValue (fuel + 1) st v cache = (r, st, cache) := by
        simp only [substituteBoolValue]
        rw [hca]
      rw [hR]
      exact ⟨rfl, rfl⟩
    | none =>
      cases hnth : nth st.Vals v with
      | none =>
        have hR : substituteBoolValue (fuel + 1) st v cache = (v, st, (v, v) :: cache) := by
          simp only [substituteBoolValue]
          rw [hca, hnth]
        rw [hR]
        exact ⟨rfl, rfl⟩
      | some b =>
        cases b with
        | AtomicBool =>
          have hR : substituteBoolValue (fuel + 1) st v cache =
              (v, st, (v, v) :: cache) := by
            simp only [substituteBoolValue]
            rw [hca, hnth]
          rw [hR]
          exact ⟨rfl, rfl⟩
        | Negation s =>
          have hR : substituteBoolValue (fuel + 1) st v cache =
              ((getOrCreateNegation (substituteBoolValue fuel st s cache).2.1
                  (substituteBoolValue fuel st s cache).1).1,
                (getOrCreateNegation (substituteBoolValue fuel st s cache).2.1
                  (substituteBoolValue fuel st s cache).1).2,
                (v, (getOrCreateNegation (substituteBoolValue fuel st s cache).2.1
                  (substituteBoolValue fuel st s cache).1).1) ::
                  (substituteBoolValue fuel st s cache).2.2) := by
            simp only [substituteBoolValue]
            rw [hca, hnth]
          rw [hR]
          have h1 := IH st s cache
          have h2 := litsPreserved_neg (substituteBoolValue fuel st s cache).2.1
            (substituteBoolValue fuel st s cache).1
          exact ⟨h2.1.trans h1.1, h2.2.trans h1.2⟩
        | Conjunction l r =>
          have hR : substituteBoolValue (fuel + 1) st v cache =
              ((getOrCreateConjunction
                  (substituteBoolValue fuel (substituteBoolValue fuel st l cache).2.1 r
                    (substituteBoolValue fuel st l cache).2.2).2.1
                  (substituteBoolValue fuel st l cache).1
                  (substituteBoolValue fuel (substituteBoolValue fuel st l cache).2.1 r
                    (substituteBoolValue fuel st l cache).2.2).1).1,
                (getOrCreateConjunction
                  (substituteBoolValue fuel (substituteBoolValue fuel st l cache).2.1 r
                    (substituteBoolValue fuel st l cache).2.2).2.1
                  (substituteBoolValue fuel st l cache).1
                  (substituteBoolValue fuel (substituteBoolValue fuel st l cache).2.1 r
                    (substituteBoolValue fuel st l cache).2.2).1).2,
                (v, (getOrCreateConjunction
                  (substituteBoolValue fuel (substituteBoolValue fuel st l cache).2.1 r
                    (substituteBoolValue fuel st l cache).2.2).2.1
                  (substituteBoolValue fuel st l cache).1
                  (substituteBoolValue fuel (substituteBoolValue fuel st l cache).2.1 r
                    (substituteBoolValue fuel st l cache).2.2).1).1) ::
                  (substituteBoolValue fuel (substituteBoolValue fuel st l cache).2.1 r
                    (substituteBoolValue fuel st l cache).2.2).2.2) := by
            simp only [substituteBoolValue]
            rw [hca, hnth]
          rw [hR]
          have h1 := IH st l cache
          have h2 := IH (substituteBoolValue fuel st l cache).2.1 r
            (substituteBoolValue fuel st l cache).2.2
          have h3 := litsPreserved_conj
            (substituteBoolValue fuel (substituteBoolValue fuel st l cache).2.1 r
              (substituteBoolValue fuel st l cache).2.2).2.1
            (substituteBoolValue fuel st l cache).1
            (substituteBoolValue fuel (substituteBoolValue fuel st l cache).2.1 r
              (substituteBoolValue fuel st l cache).2.2).1
          exact ⟨(h3.1.trans h2.1).trans h1.1, (h3.2.trans h2.2).trans h1.2⟩
        | Disjunction l r =>
          have hR : substituteBoolValue (fuel + 1) st v cache =
              ((getOrCreateDisjunction
                  (substituteBoolValue fuel (substituteBoolValue fuel st l cache).2.1 r
                    (substituteBoolValue fuel st l cache).2.2).2.1
                  (substituteBoolValue fuel st l cache).1
                  (substituteBoolValue fuel (substituteBoolValue fuel st l cache).2.1 r
                    (substituteBoolValue fuel st l cache).2.2).1).1,
                (getOrCreateDisjunction
                  (substituteBoolValue fuel (substituteBoolValue fuel st l cache).2.1 r
                    (substituteBoolValue fuel st l cache).2.2).2.1
                  (substituteBoolValue fuel st l cache).1
                  (substituteBoolValue fuel (substituteBoolValue fuel st l cache).2.1 r
                    (substituteBoolValue fuel st l cache).2.2).1).2,
                (v, (getOrCreateDisjunction
                  (substituteBoolValue fuel (substituteBoolValue fuel st l cache).2.1 r
                    (substituteBoolValue fuel st l cache).2.2).2.1
                  (substituteBoolValue fuel st l cache).1
                  (substituteBoolValue fuel (substituteBoolValue fuel st l cache).2.1 r
                    (substituteBoolValue fuel st l cache).2.2).1).1) ::
                  (substituteBoolValue fuel (substituteBoolValue fuel st l cache).2.1 r
                    (substituteBoolValue fuel st l cache).2.2).2.2) := by
            simp only [substituteBoolValue]
            rw [hca, hnth]
          rw [hR]
          have h1 := IH st l cache
          have h2 := IH (substituteBoolValue fuel st l cache).2.1 r
            (substituteBoolValue fuel st l cache).2.2
          have h3 := litsPreserved_disj
            (substituteBoolValue fuel (substituteBoolValue fuel st l cache).2.1 r
              (substituteBoolValue fuel st l cache).2.2).2.1
            (substituteBoolValue fuel st l cache).1
            (substituteBoolValue fuel (substituteBoolValue fuel st l cache).2.1 r
              (substituteBoolValue fuel st l cache).2.2).1
          exact ⟨(h3.1.trans h2.1).trans h1.1, (h3.2.trans h2.2).trans h1.2⟩

theorem foldl_lits {α : Type}
    (f : (DataflowAnalysisContext × α) → Nat → (DataflowAnalysisContext × α))
    (hf : ∀ acc d, (f acc d).1.TrueVal = acc.1.TrueVal ∧
      (f acc d).1.FalseVal = acc.1.FalseVal) :
    ∀ (ds : List Nat) (acc : DataflowAnalysisContext × α),
      (List.foldl f acc ds).1.TrueVal = acc.1.TrueVal ∧
      (List.foldl f acc ds).1.FalseVal = acc.1.FalseVal := by
  intro ds
  induction ds with
  | nil => intro acc; exact ⟨rfl, rfl⟩
  | cons d t ih =>
    intro acc
    have h1 := ih (f acc d)
    have h2 := hf acc d
    rw [List.foldl_cons]
    exact ⟨h1.1.trans h2.1, h1.2.trans h2.2⟩

theorem litsPreserved_build :
    ∀ (fuel : Nat) (st : DataflowAnalysisContext) (tok : Nat) (cache : List (Nat × Nat)),
    (buildAndSubstituteFlowConditionWithCache fuel st tok cache).2.1.TrueVal =
      st.TrueVal ∧
    (buildAndSubstituteFlowConditionWithCache fuel st tok cache).2.1.FalseVal =
      st.FalseVal := by
  intro fuel
  induction fuel with
  | zero => intro st tok cache; exact ⟨rfl, rfl⟩
  | succ fuel IH =>
    intro st tok cache
    cases hcc : alookup tok st.FlowConditionConstraints with
    | none =>
      have hR : buildAndSubstituteFlowConditionWithCache (fuel + 1) st tok cache =
          (getBoolLiteralValue st true, st, cache) := by
        simp only [buildAndSubstituteFlowConditionWithCache]
        rw [hcc]
      rw [hR]
      exact ⟨rfl, rfl⟩
    | some c =>
      have hR : buildAndSubstituteFlowConditionWithCache (fuel + 1) st tok cache =
          substituteBoolValue (c + 1)
            (((alookup tok st.FlowConditionDeps).getD []).foldl
              (fun acc d =>
                ((buildAndSubstituteFlowConditionWithCache fuel acc.1 d acc.2).2.1,
                  (d, (buildAndSubstituteFlowConditionWithCache fuel acc.1 d acc.2).1) ::
                    (buildAndSubstituteFlowConditionWithCache fuel acc.1 d acc.2).2.2))
              (st, cache)).1 c
            (((alookup tok st.FlowConditionDeps).getD []).foldl
              (fun acc d =>
                ((buildAndSubstituteFlowConditionWithCache fuel acc.1 d acc.2).2.1,
                  (d, (buildAndSubstituteFlowConditionWithCache fuel acc.1 d acc.2).1) ::
                    (buildAndSubstituteFlowConditionWithCache fuel acc.1 d acc.2).2.2))
              (st, cache)).2 := by
        simp only [buildAndSubstituteFlowConditionWithCache]
        rw [hcc]
      rw [hR]
      have hfold := foldl_lits
        (fun acc d =>
          ((buildAndSubstituteFlowConditionWithCache fuel acc.1 d acc.2).2.1,
            (d, (buildAndSubstituteFlowConditionWithCache fuel acc.1 d acc.2).1) ::
              (buildAndSubstituteFlowConditionWithCache fuel acc.1 d acc.2).2.2))
        (fun acc d => IH acc.1 d acc.2)
        ((alookup tok st.FlowConditionDeps).getD []) (st, cache)
      have hsub := litsPreserved_substitute (c + 1)
        (((alookup tok st.FlowConditionDeps).getD []).foldl
          (fun acc d =>
            ((buildAndSubstituteFlowConditionWithCache fuel acc.1 d acc.2).2.1,
              (d, (buildAndSubstituteFlowConditionWithCache fuel acc.1 d acc.2).1) ::
                (buildAndSubstituteFlowConditionWithCache fuel acc.1 d acc.2).2.2))
          (st, cache)).1 c
        (((alookup tok st.FlowConditionDeps).getD []).foldl
          (fun acc d =>
            ((buildAndSubstituteFlowConditionWithCache fuel acc.1 d acc.2).2.1,
              (d, (buildAndSubstituteFlowConditionWithCache fuel acc.1 d acc.2).1) ::
                (buildAndSubstituteFlowConditionWithCache fuel acc.1 d acc.2).2.2))
          (st, cache)).2
      exact ⟨hsub.1.trans hfold.1, hsub.2.trans hfold.2⟩

/-- No operation ever reseats the literal singletons: in every reachable
context they are the two values the constructor created. -/
theorem Reachable_lits {st : DataflowAnalysisContext} (h : Reachable st) :
    st.TrueVal = 0 ∧ st.FalseVal = 1 := by
  induction h with
  | init => exact ⟨rfl, rfl⟩
  | createAtomic _ ih =>
    exact ⟨(litsPreserved_createAtomic _).1.trans ih.1,
      (litsPreserved_createAtomic _).2.trans ih.2⟩
  | conj _ ih =>
    exact ⟨(litsPreserved_conj _ _ _).1.trans ih.1, (litsPreserved_conj _ _ _).2.trans ih.2⟩
  | disj _ ih =>
    exact ⟨(litsPreserved_disj _ _ _).1.trans ih.1, (litsPreserved_disj _ _ _).2.trans ih.2⟩
  | neg _ ih =>
    exact ⟨(litsPreserved_neg _ _).1.trans ih.1, (litsPreserved_neg _ _).2.trans ih.2⟩
  | impl _ ih =>
    exact ⟨(litsPreserved_impl _ _ _).1.trans ih.1, (litsPreserved_impl _ _ _).2.trans ih.2⟩
  | iff _ ih =>
    exact ⟨(litsPreserved_iff _ _ _).1.trans ih.1, (litsPreserved_iff _ _ _).2.trans ih.2⟩
  | mkTok _ ih =>
    exact ⟨(litsPreserved_mkTok _).1.trans ih.1, (litsPreserved_mkTok _).2.trans ih.2⟩
  | addCons _ ih =>
    exact ⟨(litsPreserved_addCons _ _ _).1.trans ih.1,
      (litsPreserved_addCons _ _ _).2.trans ih.2⟩
  | fork _ ih =>
    exact ⟨(litsPreserved_fork _ _).1.trans ih.1, (litsPreserved_fork _ _).2.trans ih.2⟩
  | join _ ih =>
    exact ⟨(litsPreserved_join _ _ _).1.trans ih.1, (litsPreserved_join _ _ _).2.trans ih.2⟩
  | implies _ ih =>
    exact ⟨(litsPreserved_implies _ _ _ _).1.trans ih.1,
      (litsPreserved_implies _ _ _ _).2.trans ih.2⟩
  | taut _ ih =>
    exact ⟨(litsPreserved_taut _ _ _).1.trans ih.1,
      (litsPreserved_taut _ _ _).2.trans ih.2⟩
  | build _ ih =>
    exact ⟨(litsPreserved_build _ _ _ _).1.trans ih.1,
      (litsPreserved_build _ _ _ _).2.trans ih.2⟩
  | setLoc _ ih => exact ⟨ih.1, ih.2⟩

/-- C8: `getBoolLiteralValue` returns process-lifetime singletons: across any
two reachable contexts of one run (any interleaving of operations), every call
with `true` returns the same object, likewise for `false`, and the two
literals are distinct objects. The function is `const` (it returns no updated
context), so no call allocates beyond the constructor's two values. -/
theorem claim_C8_literal_singletons (st st2 : DataflowAnalysisContext)
    (h1 : Reachable st) (h2 : Reachable st2) :
    getBoolLiteralValue st true = getBoolLiteralValue st2 true ∧
    getBoolLiteralValue st false = getBoolLiteralValue st2 false ∧
    getBoolLiteralValue st true ≠ getBoolLiteralValue st false := by
  obtain ⟨t1, f1⟩ := Reachable_lits h1
  obtain ⟨t2, f2⟩ := Reachable_lits h2
  refine ⟨?_, ?_, ?_⟩
  · show st.TrueVal = st2.TrueVal
    rw [t1, t2]
  · show st.FalseVal = st2.FalseVal
    rw [f1, f2]
  · show st.TrueVal ≠ st.FalseVal
    rw [t1, f1]
    omega

/-- C8 witness: the construction context itself. -/
theorem claim_C8_literal_singletons_witness :
    getBoolLiteralValue mkDataflowAnalysisContext true =
      getBoolLiteralValue mkDataflowAnalysisContext true ∧
    getBoolLiteralValue mkDataflowAnalysisContext false =
      getBoolLiteralValue mkDataflowAnalysisContext false ∧
    getBoolLiteralValue mkDataflowAnalysisContext true ≠
      getBoolLiteralValue mkDataflowAnalysisContext false :=
  claim_C8_literal_singletons mkDataflowAnalysisContext mkDataflowAnalysisContext
    Reachable.init Reachable.init

theorem reach_cons_irrelevant {D : List (Nat × List Nat)} {k : Nat} {ds : List Nat}
    {root n : Nat} (hDB : ∀ p ∈ D, ∀ d ∈ p.2, d < n) (hroot : root < n) (hk : n ≤ k) :
    ∀ t, ReachFC ((k, ds) :: D) root t ↔ ReachFC D root t := by
  intro t
  constructor
  · intro h
    induction h with
    | refl => exact ReachFC.refl
    | step hb hd ih =>
      rename_i b c
      have hblt : b < n := reach_bound hDB hroot b ih
      rw [alookup_cons, if_neg (by omega)] at hd
      exact ReachFC.step ih hd
  · intro h
    induction h with
    | refl => exact ReachFC.refl
    | step hb hd ih =>
      rename_i b c
      have hblt : b < n := reach_bound hDB hroot b hb
      exact ReachFC.step ih (by rw [alookup_cons, if_neg (by omega)]; exact hd)

/-- C5: fork isolation. For `T2 = forkFlowCondition(T1)`, adding a constraint
to `T2` leaves the parent unchanged: for every value `V` not implied before
the fork, `flowConditionImplies(T1, V)` (with the deciding solver) gives the
same answer after the constraint is added to `T2` as before. -/
theorem claim_C5_fork_isolation (st : DataflowAnalysisContext) (T1 V C : Nat)
    (hwb : WFb st = true) (hT1 : T1 < st.Vals.length) (hV : V < st.Vals.length)
    (hC : C < (forkFlowCondition st T1).2.Vals.length)
    (hnotimp : (flowConditionImplies decidingSolver st T1 V).1 = false) :
    (flowConditionImplies decidingSolver
      (addFlowConditionConstraint (forkFlowCondition st T1).2
        (forkFlowCondition st T1).1 C) T1 V).1 =
    (flowConditionImplies decidingSolver st T1 V).1 := by
  have hw := WF_of_WFb hwb
  have hDB : ∀ p ∈ st.FlowConditionDeps, ∀ d ∈ p.2, d < st.Vals.length :=
    fun p hp => (hw.depsOk p hp).2
  have hstf : (forkFlowCondition st T1).2 =
      { st with
        Vals := st.Vals ++ [BoolVal.AtomicBool],
        FlowConditionDeps := (st.Vals.length, [T1]) :: st.FlowConditionDeps,
        FlowConditionConstraints :=
          (st.Vals.length, T1) :: st.FlowConditionConstraints } := by
    unfold forkFlowCondition makeFlowConditionToken createAtomicBoolValue
      addFlowConditionConstraint
    dsimp only
    rw [fresh_no_cons hw]
  have htok1 : (forkFlowCondition st T1).1 = st.Vals.length := rfl
  have hwstf : WF (forkFlowCondition st T1).2 := by
    rw [hstf]
    refine ⟨ValsWF_append hw.vwf rfl, ?_, ?_, ?_, ?_, ?_, hw.tne, ?_, ?_⟩
    · intro p hp; exact conjEntryOk_append (hw.conjOk p hp)
    · intro p hp; exact disjEntryOk_append (hw.disjOk p hp)
    · intro p hp; exact negEntryOk_append (hw.negOk p hp)
    · show nth (st.Vals ++ [BoolVal.AtomicBool]) st.TrueVal = some BoolVal.AtomicBool
      rw [nth_append_left _ hw.tlt]; exact hw.tAtom
    · show nth (st.Vals ++ [BoolVal.AtomicBool]) st.FalseVal = some BoolVal.AtomicBool
      rw [nth_append_left _ hw.flt]; exact hw.fAtom
    · intro p hp
      rcases List.mem_cons.mp hp with rfl | hp2
      · refine ⟨by simp, ?_⟩
        intro d hd
        rcases List.mem_cons.mp hd with rfl | hd2
        · simp; omega
        · cases hd2
      · have := hw.depsOk p hp2
        refine ⟨by simp; omega, ?_⟩
        intro d hd
        have := this.2 d hd
        simp; omega
    · intro p hp
      rcases List.mem_cons.mp hp with rfl | hp2
      · exact ⟨by simp, by simp; omega⟩
      · have := hw.consOk p hp2
        exact ⟨by simp; omega, by simp; omega⟩
  have hlenstf : (forkFlowCondition st T1).2.Vals.length = st.Vals.length + 1 := by
    rw [hstf]; simp
  obtain ⟨hw2, hext2, hdeps2, hother2, e, he, heval⟩ :=
    @addFlowConditionConstraint_spec _ ((forkFlowCondition st T1).1) _ hwstf
      (by rw [htok1, hlenstf]; omega) hC
  have hextstf : OpExt st (forkFlowCondition st T1).2 := by
    rw [hstf]
    exact ⟨⟨[BoolVal.AtomicBool], rfl⟩, rfl, rfl⟩
  have hops : OpExt st (addFlowConditionConstraint (forkFlowCondition st T1).2
      (forkFlowCondition st T1).1 C) := hextstf.comp hext2
  have hdeps3 : (addFlowConditionConstraint (forkFlowCondition st T1).2
      (forkFlowCondition st T1).1 C).FlowConditionDeps =
      (st.Vals.length, [T1]) :: st.FlowConditionDeps := by
    rw [hdeps2, hstf]
  have hlook : ∀ t, t < st.Vals.length →
      alookup t (addFlowConditionConstraint (forkFlowCondition st T1).2
        (forkFlowCondition st T1).1 C).FlowConditionConstraints =
      alookup t st.FlowConditionConstraints := by
    intro t ht
    rw [hother2 t (by rw [htok1]; omega), hstf]
    show alookup t ((st.Vals.length, T1) :: st.FlowConditionConstraints) = _
    rw [alookup_cons, if_neg (by omega)]
  have hreach : ∀ t, ReachFC (addFlowConditionConstraint (forkFlowCondition st T1).2
      (forkFlowCondition st T1).1 C).FlowConditionDeps T1 t ↔
      ReachFC st.FlowConditionDeps T1 t := by
    rw [hdeps3]
    exact reach_cons_irrelevant hDB hT1 (le_refl _)
  have htkh : ∀ (σ : Nat → Bool) (t : Nat), t < st.Vals.length →
      (TokHolds (addFlowConditionConstraint (forkFlowCondition st T1).2
        (forkFlowCondition st T1).1 C) σ t ↔ TokHolds st σ t) := by
    intro σ t ht
    unfold TokHolds
    rw [hlook t ht]
    cases hcc : alookup t st.FlowConditionConstraints with
    | none =>
      show (evalBV _ σ t = true) ↔ (evalBV st σ t = true)
      rw [evalBV_frame hw.vwf hops.ext ht]
    | some c =>
      show (evalBV _ σ t = evalBV _ σ c) ↔ (evalBV st σ t = evalBV st σ c)
      rw [evalBV_frame hw.vwf hops.ext ht,
        evalBV_frame hw.vwf hops.ext (cons_bound hw hcc)]
  have hsem : SemImplies (addFlowConditionConstraint (forkFlowCondition st T1).2
      (forkFlowCondition st T1).1 C) T1 V ↔ SemImplies st T1 V := by
    constructor
    · intro h σ hpin hfch ht
      have := h σ ((Pinned_frame hops).mpr hpin)
        (fun t hr => (htkh σ t
          (reach_bound hDB hT1 t ((hreach t).mp hr))).mpr
          (hfch t ((hreach t).mp hr)))
        (by rw [evalBV_frame hw.vwf hops.ext hT1]; exact ht)
      rwa [evalBV_frame hw.vwf hops.ext hV] at this
    · intro h σ hpin hfch ht
      have := h σ ((Pinned_frame hops).mp hpin)
        (fun t hr => (htkh σ t (reach_bound hDB hT1 t hr)).mp
          (hfch t ((hreach t).mpr hr)))
        (by rw [evalBV_frame hw.vwf hops.ext hT1] at ht; exact ht)
      rw [evalBV_frame hw.vwf hops.ext hV]
      exact this
  have hchar2 := flowConditionImplies_char _ T1 V hw2
    (lt_of_lt_of_le hT1 hops.len_le) (lt_of_lt_of_le hV hops.len_le)
  have hchar1 := flowConditionImplies_char st T1 V hw hT1 hV
  cases hb : (flowConditionImplies decidingSolver st T1 V).1 with
  | true =>
    exact hchar2.mpr (hsem.mpr (hchar1.mp hb))
  | false =>
    cases hb2 : (flowConditionImplies decidingSolver
        (addFlowConditionConstraint (forkFlowCondition st T1).2
          (forkFlowCondition st T1).1 C) T1 V).1 with
    | false => rfl
    | true =>
      rw [hchar1.mpr (hsem.mp (hchar2.mp hb2))] at hb
      cases hb

/-- C5 witness: a fresh token `2` over an atom `3`; `implies(T1, 3)` is false
before the fork and unchanged after constraining the forked token with `3`. -/
theorem claim_C5_fork_isolation_witness :
    WFb (createAtomicBoolValue (makeFlowConditionToken mkDataflowAnalysisContext).2).2
      = true ∧
    (flowConditionImplies decidingSolver
      (createAtomicBoolValue (makeFlowConditionToken mkDataflowAnalysisContext).2).2
      2 3).1 = false ∧
    (flowConditionImplies decidingSolver
      (addFlowConditionConstraint
        (forkFlowCondition
          (createAtomicBoolValue (makeFlowConditionToken mkDataflowAnalysisContext).2).2
          2).2
        (forkFlowCondition
          (createAtomicBoolValue (makeFlowConditionToken mkDataflowAnalysisContext).2).2
          2).1 3)
      2 3).1 =
    (flowConditionImplies decidingSolver
      (createAtomicBoolValue (makeFlowConditionToken mkDataflowAnalysisContext).2).2
      2 3).1 :=
  ⟨by decide, by decide,
    claim_C5_fork_isolation _ 2 3 3 (by decide) (by decide) (by decide) (by decide)
      (by decide)⟩

theorem joinFlowConditions_spec {st : DataflowAnalysisContext} {t1 t2 : Nat}
    (hw : WF st) (ht1 : t1 < st.Vals.length) (ht2 : t2 < st.Vals.length) :
    WF (joinFlowConditions st t1 t2).2 ∧
    OpExt st (joinFlowConditions st t1 t2).2 ∧
    (joinFlowConditions st t1 t2).1 = st.Vals.length ∧
    st.Vals.length < (joinFlowConditions st t1 t2).2.Vals.length ∧
    (joinFlowConditions st t1 t2).2.FlowConditionDeps =
      (st.Vals.length, [t1, t2]) :: st.FlowConditionDeps ∧
    nth (joinFlowConditions st t1 t2).2.Vals st.Vals.length =
      some BoolVal.AtomicBool ∧
    ∃ dj, (joinFlowConditions st t1 t2).2.FlowConditionConstraints =
        (st.Vals.length, dj) :: st.FlowConditionConstraints ∧
      dj < (joinFlowConditions st t1 t2).2.Vals.length ∧
      ∀ σ : Nat → Bool, evalBV (joinFlowConditions st t1 t2).2 σ dj =
        (evalBV (joinFlowConditions st t1 t2).2 σ t1 ||
         evalBV (joinFlowConditions st t1 t2).2 σ t2) := by
  have hw2 : WF { st with
      Vals := st.Vals ++ [BoolVal.AtomicBool],
      FlowConditionDeps := (st.Vals.length, [t1, t2]) :: st.FlowConditionDeps } := by
    refine ⟨ValsWF_append hw.vwf rfl, ?_, ?_, ?_, ?_, ?_, hw.tne, ?_, ?_⟩
    · intro p hp; exact conjEntryOk_append (hw.conjOk p hp)
    · intro p hp; exact disjEntryOk_append (hw.disjOk p hp)
    · intro p hp; exact negEntryOk_append (hw.negOk p hp)
    · show nth (st.Vals ++ [BoolVal.AtomicBool]) st.TrueVal = some BoolVal.AtomicBool
      rw [nth_append_left _ hw.tlt]; exact hw.tAtom
    · show nth (st.Vals ++ [BoolVal.AtomicBool]) st.FalseVal = some BoolVal.AtomicBool
      rw [nth_append_left _ hw.flt]; exact hw.fAtom
    · intro p hp
      rcases List.mem_cons.mp hp with rfl | hp2
      · refine ⟨by simp, ?_⟩
        intro d hd
        rcases List.mem_cons.mp hd with rfl | hd2
        · simp; omega
        rcases List.mem_cons.mp hd2 with rfl | hd3
        · simp; omega
        · cases hd3
      · have := hw.depsOk p hp2
        refine ⟨by simp; omega, ?_⟩
        intro d hd
        have := this.2 d hd
        simp; omega
    · intro p hp
      have := hw.consOk p hp
      exact ⟨by simp; omega, by simp; omega⟩
  obtain ⟨hwd, hextd, hfcd, hltd, hevd⟩ := @getOrCreateDisjunction_spec
    { st with
      Vals := st.Vals ++ [BoolVal.AtomicBool],
      FlowConditionDeps := (st.Vals.length, [t1, t2]) :: st.FlowConditionDeps }
    t1 t2 hw2 (by simp; omega) (by simp; omega)
  have hnone : alookup st.Vals.length
      (getOrCreateDisjunction { st with
        Vals := st.Vals ++ [BoolVal.AtomicBool],
        FlowConditionDeps := (st.Vals.length, [t1, t2]) :: st.FlowConditionDeps }
        t1 t2).2.FlowConditionConstraints = none := by
    rw [hfcd.cons]
    exact fresh_no_cons hw
  have hsJ : (joinFlowConditions st t1 t2).2 =
      { (getOrCreateDisjunction { st with
          Vals := st.Vals ++ [BoolVal.AtomicBool],
          FlowConditionDeps := (st.Vals.length, [t1, t2]) :: st.FlowConditionDeps }
          t1 t2).2 with
        FlowConditionConstraints :=
          (st.Vals.length,
            (getOrCreateDisjunction { st with
              Vals := st.Vals ++ [BoolVal.AtomicBool],
              FlowConditionDeps := (st.Vals.length, [t1, t2]) :: st.FlowConditionDeps }
              t1 t2).1) ::
            (getOrCreateDisjunction { st with
              Vals := st.Vals ++ [BoolVal.AtomicBool],
              FlowConditionDeps := (st.Vals.length, [t1, t2]) :: st.FlowConditionDeps }
              t1 t2).2.FlowConditionConstraints } := by
    unfold joinFlowConditions makeFlowConditionToken createAtomicBoolValue
      addFlowConditionConstraint
    dsimp only
    rw [hnone]
  have hlend : st.Vals.length + 1 ≤
      (getOrCreateDisjunction { st with
        Vals := st.Vals ++ [BoolVal.AtomicBool],
        FlowConditionDeps := (st.Vals.length, [t1, t2]) :: st.FlowConditionDeps }
        t1 t2).2.Vals.length := by
    have := hextd.len_le
    simpa using this
  refine ⟨?_, ?_, rfl, ?_, ?_, ?_, ?_⟩
  · rw [hsJ]
    refine ⟨hwd.vwf, hwd.conjOk, hwd.disjOk, hwd.negOk, hwd.tAtom, hwd.fAtom,
      hwd.tne, hwd.depsOk, ?_⟩
    intro p hp
    rcases List.mem_cons.mp hp with rfl | hp2
    · refine ⟨?_, hltd⟩
      show st.Vals.length < (getOrCreateDisjunction { st with
        Vals := st.Vals ++ [BoolVal.AtomicBool],
        FlowConditionDeps := (st.Vals.length, [t1, t2]) :: st.FlowConditionDeps }
        t1 t2).2.Vals.length
      omega
    · exact hwd.consOk p hp2
  · have h1 : OpExt st { st with
        Vals := st.Vals ++ [BoolVal.AtomicBool],
        FlowConditionDeps := (st.Vals.length, [t1, t2]) :: st.FlowConditionDeps } :=
      ⟨⟨[BoolVal.AtomicBool], rfl⟩, rfl, rfl⟩
    have h3 : OpExt (getOrCreateDisjunction { st with
        Vals := st.Vals ++ [BoolVal.AtomicBool],
        FlowConditionDeps := (st.Vals.length, [t1, t2]) :: st.FlowConditionDeps }
        t1 t2).2 (joinFlowConditions st t1 t2).2 := by
      rw [hsJ]
      exact ⟨⟨[], by simp⟩, rfl, rfl⟩
    exact (h1.comp hextd).comp h3
  · rw [hsJ]
    show st.Vals.length < (getOrCreateDisjunction _ t1 t2).2.Vals.length
    omega
  · rw [hsJ]
    show (getOrCreateDisjunction _ t1 t2).2.FlowConditionDeps = _
    rw [hfcd.deps]
  · rw [hsJ]
    show nth (getOrCreateDisjunction _ t1 t2).2.Vals st.Vals.length = _
    obtain ⟨e, he⟩ := hextd.ext
    rw [he]
    rw [show ({ st with
        Vals := st.Vals ++ [BoolVal.AtomicBool],
        FlowConditionDeps := (st.Vals.length, [t1, t2]) :: st.FlowConditionDeps } :
        DataflowAnalysisContext).Vals = st.Vals ++ [BoolVal.AtomicBool] from rfl]
    rw [nth_append_left _ (by simp)]
    exact nth_append_self _ _
  · refine ⟨(getOrCreateDisjunction { st with
        Vals := st.Vals ++ [BoolVal.AtomicBool],
        FlowConditionDeps := (st.Vals.length, [t1, t2]) :: st.FlowConditionDeps }
        t1 t2).1, ?_, ?_, ?_⟩
    · rw [hsJ]
      show (st.Vals.length, _) ::
        (getOrCreateDisjunction _ t1 t2).2.FlowConditionConstraints = _
      rw [hfcd.cons]
    · rw [hsJ]
      exact hltd
    · intro σ
      rw [hsJ]
      have hvv : ∀ (i : Nat),
          evalBV { (getOrCreateDisjunction { st with
            Vals := st.Vals ++ [BoolVal.AtomicBool],
            FlowConditionDeps := (st.Vals.length, [t1, t2]) :: st.FlowConditionDeps }
            t1 t2).2 with
            FlowConditionConstraints :=
              (st.Vals.length,
                (getOrCreateDisjunction { st with
                  Vals := st.Vals ++ [BoolVal.AtomicBool],
                  FlowConditionDeps :=
                    (st.Vals.length, [t1, t2]) :: st.FlowConditionDeps }
                  t1 t2).1) ::
                (getOrCreateDisjunction { st with
                  Vals := st.Vals ++ [BoolVal.AtomicBool],
                  FlowConditionDeps :=
                    (st.Vals.length, [t1, t2]) :: st.FlowConditionDeps }
                  t1 t2).2.FlowConditionConstraints } σ i =
          evalBV (getOrCreateDisjunction { st with
            Vals := st.Vals ++ [BoolVal.AtomicBool],
            FlowConditionDeps := (st.Vals.length, [t1, t2]) :: st.FlowConditionDeps }
            t1 t2).2 σ i :=
        fun i => evalBV_eq_of_vals rfl
      rw [hvv, hvv, hvv]
      exact hevd σ

/-- C2: join semantics. For token `T1` carrying constraint `X` and token `T2`
carrying constraint `Y` (fresh tokens: atoms with no dependencies, created
after their constraint values), `J = joinFlowConditions(T1, T2)` denotes the
disjunction of the two branch formulas: under the deciding solver,
`flowConditionImplies(J, getOrCreateDisjunction(X, Y))` is true, and
`flowConditionImplies(J, X)` is false unless `X` is already implied
unconditionally by `T2`. -/
theorem claim_C2_join_semantics (st : DataflowAnalysisContext) (T1 T2 X Y : Nat)
    (hwb : WFb st = true)
    (hT1 : T1 < st.Vals.length) (hT2 : T2 < st.Vals.length) (hne : T1 ≠ T2)
    (haT1 : nth st.Vals T1 = some BoolVal.AtomicBool)
    (haT2 : nth st.Vals T2 = some BoolVal.AtomicBool)
    (hcX : alookup T1 st.FlowConditionConstraints = some X)
    (hcY : alookup T2 st.FlowConditionConstraints = some Y)
    (hdT1 : alookup T1 st.FlowConditionDeps = none)
    (hdT2 : alookup T2 st.FlowConditionDeps = none)
    (hXT1 : X < T1) (hYT1 : Y < T1)
    (hTlt : st.TrueVal < T1) (hFlt : st.FalseVal < T1) :
    (flowConditionImplies decidingSolver
      (getOrCreateDisjunction (joinFlowConditions st T1 T2).2 X Y).2
      (joinFlowConditions st T1 T2).1
      (getOrCreateDisjunction (joinFlowConditions st T1 T2).2 X Y).1).1 = true ∧
    ((flowConditionImplies decidingSolver
        (getOrCreateDisjunction (joinFlowConditions st T1 T2).2 X Y).2 T2 X).1 = false →
      (flowConditionImplies decidingSolver
        (getOrCreateDisjunction (joinFlowConditions st T1 T2).2 X Y).2
        (joinFlowConditions st T1 T2).1 X).1 = false) := by
  have hw := WF_of_WFb hwb
  have hX : X < st.Vals.length := lt_trans hXT1 hT1
  have hY : Y < st.Vals.length := lt_trans hYT1 hT1
  obtain ⟨hWFJ, hOpExtJ, hJ1, hJlt, hFCDJ, hJatomJ, dj, hFCCJ, hdjlt, hdjev⟩ :=
    joinFlowConditions_spec hw hT1 hT2
  rw [hJ1]
  obtain ⟨hwQ, hextQ, hfcQ, hltQ, hevQ⟩ := @getOrCreateDisjunction_spec
    ((joinFlowConditions st T1 T2).2) X Y hWFJ
    (lt_of_lt_of_le hX hOpExtJ.len_le) (lt_of_lt_of_le hY hOpExtJ.len_le)
  have hOpExtQ : OpExt st
      (getOrCreateDisjunction (joinFlowConditions st T1 T2).2 X Y).2 :=
    hOpExtJ.comp hextQ
  have hJQlt : st.Vals.length <
      (getOrCreateDisjunction (joinFlowConditions st T1 T2).2 X Y).2.Vals.length :=
    lt_of_lt_of_le hJlt hextQ.len_le
  have hT2Q : T2 <
      (getOrCreateDisjunction (joinFlowConditions st T1 T2).2 X Y).2.Vals.length :=
    lt_of_lt_of_le hT2 hOpExtQ.len_le
  have hXQ : X <
      (getOrCreateDisjunction (joinFlowConditions st T1 T2).2 X Y).2.Vals.length :=
    lt_of_lt_of_le hX hOpExtQ.len_le
  have hdepsJQ : alookup st.Vals.length
      (getOrCreateDisjunction
        (joinFlowConditions st T1 T2).2 X Y).2.FlowConditionDeps = some [T1, T2] := by
    rw [hfcQ.deps, hFCDJ, alookup_cons, if_pos rfl]
  have hconsJQ : alookup st.Vals.length
      (getOrCreateDisjunction
        (joinFlowConditions st T1 T2).2 X Y).2.FlowConditionConstraints = some dj := by
    rw [hfcQ.cons, hFCCJ, alookup_cons, if_pos rfl]
  have hconsT1Q : alookup T1
      (getOrCreateDisjunction
        (joinFlowConditions st T1 T2).2 X Y).2.FlowConditionConstraints = some X := by
    rw [hfcQ.cons, hFCCJ, alookup_cons, if_neg (by omega)]
    exact hcX
  have hconsT2Q : alookup T2
      (getOrCreateDisjunction
        (joinFlowConditions st T1 T2).2 X Y).2.FlowConditionConstraints = some Y := by
    rw [hfcQ.cons, hFCCJ, alookup_cons, if_neg (by omega)]
    exact hcY
  have hdepsT1Q : alookup T1
      (getOrCreateDisjunction
        (joinFlowConditions st T1 T2).2 X Y).2.FlowConditionDeps = none := by
    rw [hfcQ.deps, hFCDJ, alookup_cons, if_neg (by omega)]
    exact hdT1
  have hdepsT2Q : alookup T2
      (getOrCreateDisjunction
        (joinFlowConditions st T1 T2).2 X Y).2.FlowConditionDeps = none := by
    rw [hfcQ.deps, hFCDJ, alookup_cons, if_neg (by omega)]
    exact hdT2
  have hdjQ : ∀ σ0 : Nat → Bool,
      evalBV (getOrCreateDisjunction (joinFlowConditions st T1 T2).2 X Y).2 σ0 dj =
      (evalBV (getOrCreateDisjunction (joinFlowConditions st T1 T2).2 X Y).2 σ0 T1 ||
       evalBV (getOrCreateDisjunction (joinFlowConditions st T1 T2).2 X Y).2 σ0 T2) := by
    intro σ0
    rw [evalBV_frame hWFJ.vwf hextQ.ext hdjlt,
      evalBV_frame hWFJ.vwf hextQ.ext (lt_of_lt_of_le hT1 hOpExtJ.len_le),
      evalBV_frame hWFJ.vwf hextQ.ext (lt_of_lt_of_le hT2 hOpExtJ.len_le)]
    exact hdjev σ0
  have hJatomQ : nth
      (getOrCreateDisjunction (joinFlowConditions st T1 T2).2 X Y).2.Vals
      st.Vals.length = some BoolVal.AtomicBool := by
    obtain ⟨e, he⟩ := hextQ.ext
    rw [he, nth_append_left _ hJlt]
    exact hJatomJ
  have hT1atomQ : nth
      (getOrCreateDisjunction (joinFlowConditions st T1 T2).2 X Y).2.Vals T1 =
      some BoolVal.AtomicBool := by
    obtain ⟨e, he⟩ := hOpExtQ.ext
    rw [he, nth_append_left _ hT1]
    exact haT1
  have hT2atomQ : nth
      (getOrCreateDisjunction (joinFlowConditions st T1 T2).2 X Y).2.Vals T2 =
      some BoolVal.AtomicBool := by
    obtain ⟨e, he⟩ := hOpExtQ.ext
    rw [he, nth_append_left _ hT2]
    exact haT2
  have hreachJ : ∀ t, ReachFC
      (getOrCreateDisjunction
        (joinFlowConditions st T1 T2).2 X Y).2.FlowConditionDeps
      st.Vals.length t → t = st.Vals.length ∨ t = T1 ∨ t = T2 := by
    intro t h
    induction h with
    | refl => exact Or.inl rfl
    | step hb hd ih =>
      rename_i b c
      rcases ih with rfl | rfl | rfl
      · rw [hdepsJQ] at hd
        simp only [Option.getD_some] at hd
        rcases List.mem_cons.mp hd with rfl | hd2
        · exact Or.inr (Or.inl rfl)
        rcases List.mem_cons.mp hd2 with rfl | hd3
        · exact Or.inr (Or.inr rfl)
        · exact absurd hd3 (List.not_mem_nil c)
      · rw [hdepsT1Q] at hd
        simp only [Option.getD_none] at hd
        exact absurd hd (List.not_mem_nil c)
      · rw [hdepsT2Q] at hd
        simp only [Option.getD_none] at hd
        exact absurd hd (List.not_mem_nil c)
  constructor
  · rw [flowConditionImplies_char _ _ _ hwQ hJQlt hltQ]
    intro σ hpin hfch htk
    have hJb := (TokHolds_some hconsJQ).mp (hfch _ ReachFC.refl)
    have hT1r : ReachFC
        (getOrCreateDisjunction
          (joinFlowConditions st T1 T2).2 X Y).2.FlowConditionDeps
        st.Vals.length T1 :=
      ReachFC.step ReachFC.refl (by rw [hdepsJQ]; simp)
    have hT2r : ReachFC
        (getOrCreateDisjunction
          (joinFlowConditions st T1 T2).2 X Y).2.FlowConditionDeps
        st.Vals.length T2 :=
      ReachFC.step ReachFC.refl (by rw [hdepsJQ]; simp)
    have h1 := (TokHolds_some hconsT1Q).mp (hfch _ hT1r)
    have h2 := (TokHolds_some hconsT2Q).mp (hfch _ hT2r)
    rw [hevQ σ]
    have h3 := hdjQ σ
    rw [htk] at hJb
    rw [← hJb, h1, h2] at h3
    exact h3.symm
  · intro hF
    have hnsem : ¬ SemImplies
        (getOrCreateDisjunction (joinFlowConditions st T1 T2).2 X Y).2 T2 X := by
      intro hs
      rw [(flowConditionImplies_char _ T2 X hwQ hT2Q hXQ).mpr hs] at hF
      cases hF
    unfold SemImplies at hnsem
    push_neg at hnsem
    obtain ⟨σ, hpin, hfch, hT2t, hXne⟩ := hnsem
    have hXf : evalBV (getOrCreateDisjunction
        (joinFlowConditions st T1 T2).2 X Y).2 σ X = false := by
      cases hx : evalBV (getOrCreateDisjunction
          (joinFlowConditions st T1 T2).2 X Y).2 σ X
      · rfl
      · exact absurd hx hXne
    rw [evalBV_atom hT2atomQ] at hT2t
    cases hb2 : (flowConditionImplies decidingSolver
        (getOrCreateDisjunction (joinFlowConditions st T1 T2).2 X Y).2
        st.Vals.length X).1 with
    | false => rfl
    | true =>
      exfalso
      have hsem2 := (flowConditionImplies_char _ _ X hwQ hJQlt hXQ).mp hb2
      set σ2 : Nat → Bool := fun i =>
        if i = st.Vals.length then true
        else if i = T1 then
          evalBV (getOrCreateDisjunction (joinFlowConditions st T1 T2).2 X Y).2 σ X
        else σ i with hσ2def
      have hagree : ∀ j, j < T1 → σ2 j = σ j := by
        intro j hj
        rw [hσ2def]
        show (if j = st.Vals.length then true else if j = T1 then _ else σ j) = σ j
        rw [if_neg (by omega), if_neg (by omega)]
      have hσ2L : σ2 st.Vals.length = true := by
        rw [hσ2def]
        show (if st.Vals.length = st.Vals.length then true else _) = true
        rw [if_pos rfl]
      have hσ2T1 : σ2 T1 =
          evalBV (getOrCreateDisjunction (joinFlowConditions st T1 T2).2 X Y).2 σ X := by
        rw [hσ2def]
        show (if T1 = st.Vals.length then true else if T1 = T1 then _ else _) = _
        rw [if_neg (by omega), if_pos rfl]
      have hσ2T2 : σ2 T2 = σ T2 := by
        rw [hσ2def]
        show (if T2 = st.Vals.length then true else if T2 = T1 then _ else σ T2) = σ T2
        rw [if_neg (by omega), if_neg (by omega)]
      have hXev2 : evalBV (getOrCreateDisjunction
          (joinFlowConditions st T1 T2).2 X Y).2 σ2 X =
          evalBV (getOrCreateDisjunction (joinFlowConditions st T1 T2).2 X Y).2 σ X :=
        evalBV_congr_le hwQ.vwf (fun j hj => hagree j (lt_of_le_of_lt hj hXT1))
      have hYev2 : evalBV (getOrCreateDisjunction
          (joinFlowConditions st T1 T2).2 X Y).2 σ2 Y =
          evalBV (getOrCreateDisjunction (joinFlowConditions st T1 T2).2 X Y).2 σ Y :=
        evalBV_congr_le hwQ.vwf (fun j hj => hagree j (lt_of_le_of_lt hj hYT1))
      have hpin2 : Pinned (getOrCreateDisjunction
          (joinFlowConditions st T1 T2).2 X Y).2 σ2 := by
        obtain ⟨hp1, hp2⟩ := hpin
        rw [show Pinned (getOrCreateDisjunction
          (joinFlowConditions st T1 T2).2 X Y).2 σ2 =
          (σ2 (getOrCreateDisjunction
            (joinFlowConditions st T1 T2).2 X Y).2.TrueVal = true ∧
           σ2 (getOrCreateDisjunction
            (joinFlowConditions st T1 T2).2 X Y).2.FalseVal = false) from rfl]
        rw [hOpExtQ.tv] at hp1 ⊢
        rw [hOpExtQ.fv] at hp2 ⊢
        rw [hagree st.TrueVal hTlt, hagree st.FalseVal hFlt]
        exact ⟨hp1, hp2⟩
      have hfch2 : FCHolds (getOrCreateDisjunction
          (joinFlowConditions st T1 T2).2 X Y).2 σ2 st.Vals.length := by
        intro t hr
        rcases hreachJ t hr with rfl | rfl | rfl
        · rw [TokHolds_some hconsJQ, evalBV_atom hJatomQ, hσ2L, hdjQ σ2,
            evalBV_atom hT1atomQ, evalBV_atom hT2atomQ, hσ2T2, hT2t]
          simp
        · rw [TokHolds_some hconsT1Q, evalBV_atom hT1atomQ, hσ2T1, hXev2]
        · rw [TokHolds_some hconsT2Q, evalBV_atom hT2atomQ, hσ2T2, hYev2]
          have h5 := (TokHolds_some hconsT2Q).mp (hfch _ ReachFC.refl)
          rw [evalBV_atom hT2atomQ] at h5
          exact h5
      have hJt2 : evalBV (getOrCreateDisjunction
          (joinFlowConditions st T1 T2).2 X Y).2 σ2 st.Vals.length = true := by
        rw [evalBV_atom hJatomQ]
        exact hσ2L
      have hcon := hsem2 σ2 hpin2 hfch2 hJt2
      rw [hXev2, hXf] at hcon
      cases hcon

/-- C2 witness: in the concrete scenario, `T2` does not imply `X`, the join
implies the disjunction of the branch constraints, and the join does not
imply `X` alone. -/
theorem claim_C2_join_semantics_witness :
    WFb joinWitnessState = true ∧
    (flowConditionImplies decidingSolver
      (getOrCreateDisjunction (joinFlowConditions joinWitnessState 4 5).2 2 3).2
      5 2).1 = false ∧
    (flowConditionImplies decidingSolver
      (getOrCreateDisjunction (joinFlowConditions joinWitnessState 4 5).2 2 3).2
      (joinFlowConditions joinWitnessState 4 5).1
      (getOrCreateDisjunction (joinFlowConditions joinWitnessState 4 5).2 2 3).1).1
      = true ∧
    (flowConditionImplies decidingSolver
      (getOrCreateDisjunction (joinFlowConditions joinWitnessState 4 5).2 2 3).2
      (joinFlowConditions joinWitnessState 4 5).1 2).1 = false :=
  ⟨by decide, by decide,
    (claim_C2_join_semantics joinWitnessState 4 5 2 3 (by decide) (by decide)
      (by decide) (by decide) (by decide) (by decide) (by decide) (by decide)
      (by decide) (by decide) (by decide) (by decide) (by decide) (by decide)).1,
    (claim_C2_join_semantics joinWitnessState 4 5 2 3 (by decide) (by decide)
      (by decide) (by decide) (by decide) (by decide) (by decide) (by decide)
      (by decide) (by decide) (by decide) (by decide) (by decide) (by decide)).2
      (by decide)⟩

